import Mathlib

/-!
# simVM.c : a virtual-memory simulation

Shallow embedding of `src/simVM.c` (createVM, readInt, writeInt) and the
properties of its translation-and-eviction engine.

Conventions of the embedding.

* `unsigned int` values are natural numbers below `2 ^ 32`; the one unsigned
  product of the source (`sizeVM*pageSize`) is reduced modulo `2 ^ 32`, and the
  unsigned `n - 1` of the loop bounds is `usub1`.
* `int` values are integers.  The conversion of an unsigned value to `int` is
  `toInt32` (two's complement).  The three statistics counters and the two
  global timestamps are `int` variables that are only ever incremented by one.
  The state keeps the number of increments, an unbounded integer; the value the
  32-bit `int` holds is `int32` of it (the compiled `++` wraps at `2 ^ 31`,
  `incInt32`).  The two agree over the first `2 ^ 31 - 1` increments; the
  properties of the counters beyond that are stated on `int32`.
* The heap arrays (`virtualmem`, `pagetbl`, `tlbtbl`) are lists.  An access
  outside an array is undefined behaviour in C: the model functions return
  `none` there.  Every loop of `readInt`/`writeInt` walks an index forward
  through an array, so it either stops by itself or leaves the array; the fuel
  of the corresponding recursive function is the number of iterations after
  which the index is certainly outside.
* The file-static globals (`offset`, `sizePM_v`, ...) are fields of the state.
-/

namespace SimVM

/-! ## Data model -/

/-- Page-table entry, `struct pagetbl_s`: frame id `addr`, resident flag `mod`,
recency timestamp, dirty flag `diskw`. -/
structure pagetbl_s where
  addr : Nat
  mod : Bool
  pagetimestamp : Int
  diskw : Bool
deriving DecidableEq, Repr

/-- TLB entry, `struct tlbtbl_s`: virtual page, frame, recency timestamp. -/
structure tlbtbl_s where
  vaddr : Nat
  paddr : Nat
  tlbtimestamp : Int
deriving DecidableEq, Repr

/-- Victim pointers, `struct controltbl_s`.  Both are `int` in the source; the
values stored are slot indices, frame ids (`pagetbl[low].addr`), `pos+1` or
`0`, never negative, so they are natural numbers here. -/
structure controltbl_s where
  tlb : Nat
  page : Nat
deriving DecidableEq, Repr

/-- The engine: the `virtualmem` array (its `data` fields, the header fields of
slot 0: three tables and three counters) together with the file-static
globals of `simVM.c`.  The counters `pgfault`, `tlbmiss`, `diskwrites` and the
two timestamps count the increments performed; the 32-bit `int` of the source
holds `int32` of the count. -/
structure VM where
  data : List Int
  pagetable : List pagetbl_s
  tlbtable : List tlbtbl_s
  controltable : controltbl_s
  pgfault : Int
  tlbmiss : Int
  diskwrites : Int
  offset : Nat
  sizePM_v : Nat
  sizeTLB_v : Nat
  pageReplAlg_v : Int
  tlbReplAlg_v : Int
  pgtablesize : Int
  pgtabletimestamp : Int
  tlbtabletimestamp : Int
  isfloat : Bool
deriving DecidableEq, Repr

/-- The ways `createVM` terminates the process, in source order: the eight
validation messages, and the page-table allocation that cannot succeed when
`pgtablesize` is negative. -/
inductive CreateError where
  | vmSmallerThanPM
  | pmLessThanOne
  | pageSizeNotPow2
  | tlbGreaterThanPM
  | tlbLessThanOne
  | badPageAlg
  | badTlbAlg
  | vmTooLarge
  | allocPageTable
deriving DecidableEq, Repr

/-! ## Machine arithmetic -/

/-- Conversion of an `unsigned int` to `int` (two's complement, 32 bits). -/
def toInt32 (n : Nat) : Int :=
  if n % 2 ^ 32 < 2 ^ 31 then ((n % 2 ^ 32 : Nat) : Int) else ((n % 2 ^ 32 : Nat) : Int) - 2 ^ 32

/-- Unsigned `n - 1` of a 32-bit value, as in the loop bounds `sizeTLB_v-1` and
`sizePM_v-1`: it wraps to `2 ^ 32 - 1` at zero. -/
def usub1 (n : Nat) : Nat := if n = 0 then 4294967295 else n - 1

/-! ## createVM -/

/-- Lines 87-90: `while (((x & 1) == 0) && x > 1) x >>= 1;` on an unsigned
`x`.  At most 32 iterations on a 32-bit value. -/
def pow2Loop : Nat → Nat → Nat
  | 0, x => x
  | k + 1, x => if x &&& 1 = 0 ∧ x > 1 then pow2Loop k (x >>> 1) else x

/-- Lines 96-99: `while (((vmsize & 1) == 0) && vmsize > 1) { twosuperscript++;
vmsize >>= 1; }` on the `int` `vmsize`; returns `(twosuperscript, vmsize)`.
`(vmsize & 1) == 0` is the parity test, and the shift is only reached for
`vmsize > 1`. -/
def vmsizeLoop : Nat → Int → Int → Int × Int
  | 0, twosuperscript, vmsize => (twosuperscript, vmsize)
  | k + 1, twosuperscript, vmsize =>
    if vmsize % 2 = 0 ∧ vmsize > 1 then vmsizeLoop k (twosuperscript + 1) (vmsize / 2)
    else (twosuperscript, vmsize)

/-- Lines 186-190: `while (((off>>1) & 0xFFFF) > 0) { offset++; off = off>>1; }`. -/
def offsetLoop : Nat → Nat → Nat → Nat
  | 0, _, offset => offset
  | k + 1, off, offset =>
    if (off >>> 1) &&& 0xFFFF > 0 then offsetLoop k (off >>> 1) (offset + 1) else offset

/-- Lines 192-207: the page-table entry written at index `i`. -/
def initPageEntry (sizePM : Nat) (i : Nat) : pagetbl_s :=
  if i < sizePM then { addr := i, mod := true, pagetimestamp := 0, diskw := false }
  else { addr := 999, mod := false, pagetimestamp := 0, diskw := false }

/-- Lines 209-214: the TLB entry written at slot `i`. -/
def initTlbEntry (i : Nat) : tlbtbl_s := { vaddr := i, paddr := i, tlbtimestamp := 0 }

/-- The function `createVM`.  The arguments are the `unsigned int` values
received (below `2 ^ 32`) and the two `char` policy codes.  `exit(-1)` is an
error result.  Allocations are taken to succeed, except
`calloc(pgtablesize, ...)` with a negative `pgtablesize`, whose byte count
overflows `size_t`. -/
def createVM (sizeVM sizePM pageSize sizeTLB : Nat) (pageReplAlg tlbReplAlg : Int) :
    Except CreateError VM :=
  let x := pow2Loop 32 pageSize
  let words := (sizeVM * pageSize) % 2 ^ 32
  let r := vmsizeLoop 32 0 (toInt32 words)
  let twosuperscript := r.1
  let vmsize := r.2
  if sizeVM < sizePM then .error .vmSmallerThanPM
  else if sizePM < 1 then .error .pmLessThanOne
  else if x ≠ 1 then .error .pageSizeNotPow2
  else if sizeTLB > sizePM then .error .tlbGreaterThanPM
  else if sizeTLB < 1 then .error .tlbLessThanOne
  else if pageReplAlg ≠ 1 ∧ pageReplAlg ≠ 1 ∧ pageReplAlg ≠ 0 ∧ pageReplAlg ≠ 0 then
    .error .badPageAlg
  else if tlbReplAlg ≠ 1 ∧ tlbReplAlg ≠ 1 ∧ tlbReplAlg ≠ 0 ∧ tlbReplAlg ≠ 0 then
    .error .badTlbAlg
  else if twosuperscript > 31 ∨ vmsize > 1073741823 then .error .vmTooLarge
  else
    let pgtablesize := toInt32 (words / sizePM)
    if pgtablesize < 0 then .error .allocPageTable
    else .ok
      { data := List.replicate words 0
        pagetable := (List.range pgtablesize.toNat).map (initPageEntry sizePM)
        tlbtable := (List.range sizeTLB).map initTlbEntry
        controltable := { tlb := 0, page := 0 }
        pgfault := 0
        tlbmiss := 0
        diskwrites := 0
        offset := offsetLoop 32 pageSize 0
        sizePM_v := sizePM
        sizeTLB_v := sizeTLB
        pageReplAlg_v := pageReplAlg
        tlbReplAlg_v := tlbReplAlg
        pgtablesize := pgtablesize
        pgtabletimestamp := 0
        tlbtabletimestamp := 0
        isfloat := false }

/-! ## The replacement blocks shared by readInt and writeInt

The source repeats two blocks verbatim: "TLB table replacement in LRU" (six
times) and "Page table replacement in LRU" (four times).  Each is one
definition here. -/

/-- The TLB lookup `for (i = 0; i < sizeTLB_v; ++i) if (tlbtbl[i].vaddr ==
vpageno) ...`, with `k` iterations left at index `i`: `some (some i)` is the
first matching slot, `some none` a miss, `none` a read outside the table. -/
def tlbSearch (tlbtbl : List tlbtbl_s) (vpageno : Nat) : Nat → Nat → Option (Option Nat)
  | 0, _ => some none
  | k + 1, i =>
    match tlbtbl[i]? with
    | none => none
    | some e => if e.vaddr = vpageno then some (some i) else tlbSearch tlbtbl vpageno k (i + 1)

/-- The scan `t = 0; low = 0; while (t < sizeTLB_v-1) { ... }` of the TLB
replacement block, with `k` iterations left; returns the final `low`. -/
def tlbScan (tlbtbl : List tlbtbl_s) : Nat → Nat → Nat → Option Nat
  | 0, _, low => some low
  | k + 1, t, low =>
    match tlbtbl[t + 1]?, tlbtbl[t]?, tlbtbl[low]? with
    | some a, some b, some c =>
      if a.tlbtimestamp > b.tlbtimestamp then tlbScan tlbtbl k (t + 1) low
      else if a.tlbtimestamp > c.tlbtimestamp then tlbScan tlbtbl k (t + 1) low
      else if a.tlbtimestamp = c.tlbtimestamp then tlbScan tlbtbl k (t + 1) low
      else tlbScan tlbtbl k (t + 1) (t + 1)
    | _, _, _ => none

/-- "TLB table replacement in LRU": `tlbtabletimestamp++; tlbtbl[i].tlbtimestamp
= tlbtabletimestamp;` then the scan and `controltbl[0].tlb = low`.  The
argument `ts` is the global timestamp already incremented; the result is the
new table and the new victim pointer. -/
def tlbReplLRU (tlbtbl : List tlbtbl_s) (sizeTLB_v : Nat) (ts : Int) (i : Nat) :
    Option (List tlbtbl_s × Nat) :=
  match tlbtbl[i]? with
  | none => none
  | some e =>
    let tlbtbl1 := tlbtbl.set i { e with tlbtimestamp := ts }
    match tlbScan tlbtbl1 (usub1 sizeTLB_v) 0 0 with
    | none => none
    | some low => some (tlbtbl1, low)

/-- "TLB table replacement in Round-robin": `if (pos < sizeTLB_v-1)
controltbl[0].tlb = pos+1; else controltbl[0].tlb = 0;`. -/
def tlbReplRR (sizeTLB_v : Nat) (pos : Nat) : Nat :=
  if pos < usub1 sizeTLB_v then pos + 1 else 0

/-- The loop `while (!pagetbl[t].mod) t++;` with `k` iterations left: the first
resident index from `t` on, `none` when the walk leaves the table. -/
def skipNonResident (pagetbl : List pagetbl_s) : Nat → Nat → Option Nat
  | 0, _ => none
  | k + 1, t =>
    match pagetbl[t]? with
    | none => none
    | some e => if e.mod then some t else skipNonResident pagetbl k (t + 1)

/-- The scan `while (count11 < sizePM_v-1) { ... }` of the page replacement
block, with `k` iterations left, current `t` and `low`; returns the final
`low`.  Each iteration finds the next two resident indices `g` and `h`
(leaving `t = h`) and compares their timestamps with each other and with
`low`. -/
def pageScan (pagetbl : List pagetbl_s) : Nat → Nat → Nat → Option Nat
  | 0, _, low => some low
  | k + 1, t, low =>
    match skipNonResident pagetbl (pagetbl.length + 1) t with
    | none => none
    | some g =>
      match skipNonResident pagetbl (pagetbl.length + 1) (g + 1) with
      | none => none
      | some h =>
        match pagetbl[h]?, pagetbl[g]?, pagetbl[low]? with
        | some eh, some eg, some el =>
          if eh.pagetimestamp > eg.pagetimestamp then
            if eg.pagetimestamp < el.pagetimestamp then pageScan pagetbl k h g
            else if eg.pagetimestamp = el.pagetimestamp then
              if eg.addr < el.addr then pageScan pagetbl k h g else pageScan pagetbl k h low
            else pageScan pagetbl k h low
          else if eh.pagetimestamp > el.pagetimestamp then pageScan pagetbl k h g
          else if eh.pagetimestamp = el.pagetimestamp then
            if eh.addr < el.addr then pageScan pagetbl k h h else pageScan pagetbl k h low
          else pageScan pagetbl k h h
        | _, _, _ => none

/-- "Page table replacement in LRU": `pgtabletimestamp++;
pagetbl[vpageno].pagetimestamp = pgtabletimestamp;`, the search of the first
resident entry, the scan, and `controltbl[0].page = pagetbl[low].addr`.  The
argument `ts` is the global timestamp already incremented; the result is the
new table and the new victim pointer. -/
def pageReplLRU (pagetbl : List pagetbl_s) (sizePM_v : Nat) (ts : Int) (vpageno : Nat) :
    Option (List pagetbl_s × Nat) :=
  match pagetbl[vpageno]? with
  | none => none
  | some e =>
    let pagetbl1 := pagetbl.set vpageno { e with pagetimestamp := ts }
    match skipNonResident pagetbl1 (pagetbl1.length + 1) 0 with
    | none => none
    | some t0 =>
      match pageScan pagetbl1 (usub1 sizePM_v) 0 t0 with
      | none => none
      | some low =>
        match pagetbl1[low]? with
        | none => none
        | some el => some (pagetbl1, el.addr)

/-- "Page table replacement in Round-robin": `if (pos1 < sizePM_v-1)
controltbl[0].page = pos1+1; else controltbl[0].page = 0;`. -/
def pageReplRR (sizePM_v : Nat) (pos1 : Nat) : Nat :=
  if pos1 < usub1 sizePM_v then pos1 + 1 else 0

/-- The victim search `i = 0; v = pagetbl[i].addr; while (v != pos1) { i++;
v = pagetbl[i].addr; }` with `k` iterations left: the first index whose `addr`
is `pos1`, `none` when the walk leaves the table. -/
def findFrame (pagetbl : List pagetbl_s) (pos1 : Nat) : Nat → Nat → Option Nat
  | 0, _ => none
  | k + 1, i =>
    match pagetbl[i]? with
    | none => none
    | some e => if e.addr = pos1 then some i else findFrame pagetbl pos1 k (i + 1)

/-- A store `xs[i].field = ...` into a heap array: `none` outside the array. -/
def storeAt {α : Type} (xs : List α) (i : Nat) (f : α → α) : Option (List α) :=
  match xs[i]? with
  | none => none
  | some e => some (xs.set i (f e))

/-! ## readInt and writeInt

Both functions have three exits: the TLB hit inside the lookup loop, the soft
miss (`pagetbl[vpageno].mod` set) and the hard fault.  The hit and soft-miss
bodies of `writeInt` repeat those of `readInt` up to the final data access;
the fault bodies differ in the disk-write accounting. -/

/-- The `if (tlbReplAlg_v) { ... }` of the TLB hit (lines 246-270, 522-546):
the LRU block at the hit slot `i`; nothing under round-robin. -/
def tlbHit (s : VM) (i : Nat) : Option VM :=
  if s.tlbReplAlg_v ≠ 0 then
    (tlbReplLRU s.tlbtable s.sizeTLB_v (s.tlbtabletimestamp + 1) i).map fun r =>
      { s with
        tlbtabletimestamp := s.tlbtabletimestamp + 1
        tlbtable := r.1
        controltable := { s.controltable with tlb := r.2 } }
  else some s

/-- The `if (tlbReplAlg_v) { ... } else { ... }` after a TLB miss (lines
289-318, 452-481, 571-600, 737-766): the LRU block at the victim slot `pos`, or
the round-robin step. -/
def tlbRepl (s : VM) (pos : Nat) : Option VM :=
  if s.tlbReplAlg_v ≠ 0 then
    (tlbReplLRU s.tlbtable s.sizeTLB_v (s.tlbtabletimestamp + 1) pos).map fun r =>
      { s with
        tlbtabletimestamp := s.tlbtabletimestamp + 1
        tlbtable := r.1
        controltable := { s.controltable with tlb := r.2 } }
  else some { s with controltable := { s.controltable with tlb := tlbReplRR s.sizeTLB_v pos } }

/-- The `if (pageReplAlg_v) { ... }` of the soft miss (lines 321-366, 603-648):
the LRU block; nothing under round-robin. -/
def pageReplSoft (s : VM) (vpageno : Nat) : Option VM :=
  if s.pageReplAlg_v ≠ 0 then
    (pageReplLRU s.pagetable s.sizePM_v (s.pgtabletimestamp + 1) vpageno).map fun r =>
      { s with
        pgtabletimestamp := s.pgtabletimestamp + 1
        pagetable := r.1
        controltable := { s.controltable with page := r.2 } }
  else some s

/-- The `if (pageReplAlg_v) { ... } else { ... }` of the hard fault (lines
399-449, 684-734): the LRU block, or the round-robin step from `pos1`. -/
def pageReplFault (s : VM) (vpageno pos1 : Nat) : Option VM :=
  if s.pageReplAlg_v ≠ 0 then
    (pageReplLRU s.pagetable s.sizePM_v (s.pgtabletimestamp + 1) vpageno).map fun r =>
      { s with
        pgtabletimestamp := s.pgtabletimestamp + 1
        pagetable := r.1
        controltable := { s.controltable with page := r.2 } }
  else some { s with controltable := { s.controltable with page := pageReplRR s.sizePM_v pos1 } }

/-- The soft-miss body (lines 286-371, 568-652): `tlbtbl[pos].paddr =
pagetbl[vpageno].addr`, then the TLB block, then the page block.  `e` is the
entry `pagetbl[vpageno]` read by the caller. -/
def softMiss (s : VM) (pos vpageno : Nat) (e : pagetbl_s) : Option VM := do
  let tlbtbl ← storeAt s.tlbtable pos fun t => { t with paddr := e.addr }
  let s1 ← tlbRepl { s with tlbtable := tlbtbl } pos
  pageReplSoft s1 vpageno

/-- The eviction stores of the fault bodies on the entry `pagetbl[i]` found by
the victim search: lines 393-395 of readInt (`clearDirty = false`) and lines
677-680 of writeInt, which also has `pagetbl[i].diskw = false`. -/
def evictEntry (pageReplAlg_v : Int) (clearDirty : Bool) (v : pagetbl_s) : pagetbl_s :=
  { addr := 999
    mod := false
    pagetimestamp := if pageReplAlg_v ≠ 0 then 0 else v.pagetimestamp
    diskw := if clearDirty then false else v.diskw }

/-- The hard-fault body of readInt (lines 377-485).  `e` is the entry
`pagetbl[vpageno]` read by the caller. -/
def readFault (s : VM) (pos vpageno : Nat) (e : pagetbl_s) : Option VM := do
  let diskwrites := if ¬ e.mod ∧ e.diskw then s.diskwrites + 1 else s.diskwrites
  let pagetbl1 := s.pagetable.set vpageno { e with mod := true }
  let pos1 := s.controltable.page
  let tlbtbl ← storeAt s.tlbtable pos fun t => { t with paddr := pos1 }
  let i ← findFrame pagetbl1 pos1 (pagetbl1.length + 1) 0
  let pagetbl2 ← storeAt pagetbl1 i (evictEntry s.pageReplAlg_v false)
  let pagetbl3 ← storeAt pagetbl2 vpageno fun v => { v with addr := pos1 }
  let s1 ← pageReplFault
    { s with pgfault := s.pgfault + 1, diskwrites := diskwrites, pagetable := pagetbl3,
             tlbtable := tlbtbl } vpageno pos1
  tlbRepl s1 pos

/-- The hard-fault body of writeInt (lines 664-770).  `e` is the entry
`pagetbl[vpageno]` read by the caller. -/
def writeFault (s : VM) (pos vpageno : Nat) (e : pagetbl_s) : Option VM := do
  let pagetbl1 := s.pagetable.set vpageno { e with mod := true, diskw := true }
  let pos1 := s.controltable.page
  let tlbtbl ← storeAt s.tlbtable pos fun t => { t with paddr := pos1 }
  let i ← findFrame pagetbl1 pos1 (pagetbl1.length + 1) 0
  let pagetbl2 ← storeAt pagetbl1 i (evictEntry s.pageReplAlg_v true)
  let pagetbl3 ← storeAt pagetbl2 vpageno fun v => { v with addr := pos1 }
  let s1 ← pageReplFault
    { s with pgfault := s.pgfault + 1, diskwrites := s.diskwrites + 1, pagetable := pagetbl3,
             tlbtable := tlbtbl } vpageno pos1
  tlbRepl s1 pos

/-- The exit of readInt: `if (isfloat) return NULL; else return
virtualmem[address].data;`. -/
def retInt (s : VM) (address : Nat) : Option (VM × Int) :=
  if s.isfloat then some (s, 0)
  else
    match s.data[address]? with
    | none => none
    | some v => some (s, v)

/-- The exit of writeInt: `virtualmem[address].adrs = address; if (isfloat)
return; else virtualmem[address].data = value;`.  The `adrs` field is written
and never read, so it is not part of the state; its store still needs the
slot to exist. -/
def putInt (s : VM) (address : Nat) (value : Int) : Option VM :=
  match s.data[address]? with
  | none => none
  | some _ => if s.isfloat then some s else some { s with data := s.data.set address value }

/-- The address translation common to readInt and writeInt, with the fault body
as a parameter: the TLB lookup (lines 240-279), `++tlbmiss`, the store of
`vpageno` into the victim slot (lines 280-282), and the test of
`pagetbl[vpageno].mod` (line 284). -/
def translate (fault : VM → Nat → Nat → pagetbl_s → Option VM) (s : VM) (address : Nat) :
    Option VM :=
  let vpageno := address >>> s.offset
  match tlbSearch s.tlbtable vpageno s.sizeTLB_v 0 with
  | none => none
  | some (some i) => tlbHit s i
  | some none =>
    let pos := s.controltable.tlb
    match storeAt s.tlbtable pos fun t => { t with vaddr := vpageno } with
    | none => none
    | some tlbtbl =>
      let s1 := { s with tlbmiss := s.tlbmiss + 1, tlbtable := tlbtbl }
      match s1.pagetable[vpageno]? with
      | none => none
      | some e => if e.mod then softMiss s1 pos vpageno e else fault s1 pos vpageno e

/-- The function `readInt`: the new engine state and the value returned. -/
def readInt (s : VM) (address : Nat) : Option (VM × Int) :=
  (translate readFault s address).bind fun s1 => retInt s1 address

/-- The function `writeInt`: the new engine state. -/
def writeInt (s : VM) (address : Nat) (value : Int) : Option VM :=
  (translate writeFault s address).bind fun s1 => putInt s1 address value

/-! ## Access traces -/

/-- One client call: `readInt(handle, address)` or `writeInt(handle, address,
value)`. -/
inductive Access where
  | read (address : Nat)
  | write (address : Nat) (value : Int)
deriving DecidableEq, Repr

/-- The address of a call. -/
def Access.address : Access → Nat
  | .read a => a
  | .write a _ => a

/-- The state after one call. -/
def step (s : VM) : Access → Option VM
  | .read a => (readInt s a).map Prod.fst
  | .write a v => writeInt s a v

/-- The state after a sequence of calls. -/
def run (s : VM) : List Access → Option VM
  | [] => some s
  | a :: tr => (step s a).bind fun s1 => run s1 tr

/-- The engine returned by `createVM`, if any. -/
def fresh (sizeVM sizePM pageSize sizeTLB : Nat) (pageReplAlg tlbReplAlg : Int) : Option VM :=
  match createVM sizeVM sizePM pageSize sizeTLB pageReplAlg tlbReplAlg with
  | .ok s => some s
  | .error _ => none

/-! ## Specification vocabulary -/

/-- The geometry and policy invariants of a configuration: virtual pages at
least physical frames, at least one frame, page size a power of two, TLB
capacity between one and the frame count, both policies round-robin (0) or
LRU (1). -/
def ValidConfig (sizeVM sizePM pageSize sizeTLB : Nat) (pageReplAlg tlbReplAlg : Int) : Prop :=
  sizeVM ≥ sizePM ∧ sizePM ≥ 1 ∧ (∃ k : Nat, pageSize = 2 ^ k) ∧ 1 ≤ sizeTLB ∧ sizeTLB ≤ sizePM ∧
    (pageReplAlg = 0 ∨ pageReplAlg = 1) ∧ (tlbReplAlg = 0 ∨ tlbReplAlg = 1)

/-- The part of the engine that address translation never writes: the backing
store and the globals fixed by `createVM`. -/
def VM.static (s : VM) : List Int × Nat × Nat × Nat × Int × Int × Int × Bool :=
  (s.data, s.offset, s.sizePM_v, s.sizeTLB_v, s.pageReplAlg_v, s.tlbReplAlg_v, s.pgtablesize,
    s.isfloat)

/-- The three statistics counters: page faults, TLB misses, disk writes. -/
def VM.stats (s : VM) : Int × Int × Int := (s.pgfault, s.tlbmiss, s.diskwrites)

/-- The fault body a call runs: that of readInt or that of writeInt. -/
def Access.fault : Access → VM → Nat → Nat → pagetbl_s → Option VM
  | .read _ => readFault
  | .write _ _ => writeFault

/-- The content of the addressed backing-store slot after a call, given its
content `old` before: unchanged by a read, the value written by a write. -/
def Access.stored (old : Option Int) : Access → Option Int
  | .read _ => old
  | .write _ v => some v

/-- What the page table records about residency for an entry: frame id,
resident flag, dirty flag (the timestamp left out). -/
def pagetbl_s.key (e : pagetbl_s) : Nat × Bool × Bool := (e.addr, e.mod, e.diskw)

/-- The sentinel 999 of non-resident entries is not a frame id in use: there are
between 1 and 999 frames, an entry holds 999 exactly when it is non-resident,
and the page victim pointer is not 999. -/
def NoSentinelClash (s : VM) : Prop :=
  1 ≤ s.sizePM_v ∧ s.sizePM_v ≤ 999 ∧ s.controltable.page ≠ 999 ∧
    ∀ (j : Nat) (e : pagetbl_s), s.pagetable[j]? = some e → (e.mod = false ↔ e.addr = 999)

/-- Virtual page `P` is resident: its page-table entry exists with `mod` set. -/
def VM.resident (s : VM) (P : Nat) : Bool :=
  match s.pagetable[P]? with
  | some e => e.mod
  | none => false

/-- Virtual page `P` is dirty: its page-table entry exists with `diskw` set. -/
def VM.dirty (s : VM) (P : Nat) : Bool :=
  match s.pagetable[P]? with
  | some e => e.diskw
  | none => false

/-- No `writeInt` of the sequence evicts page `P`: `P`, if resident before a
write, is resident after it. -/
def NoWriteEvicts (P : Nat) : VM → List Access → Prop
  | _, [] => True
  | s, a :: tr =>
    match step s a with
    | none => True
    | some s1 =>
      ((∃ (x : Nat) (v : Int), a = .write x v) → s.resident P = true → s1.resident P = true) ∧
        NoWriteEvicts P s1 tr

/-- Whether a call is a `writeInt`. -/
def Access.isWrite : Access → Bool
  | .read _ => false
  | .write _ _ => true

/-- Slot `i` is the victim the LRU policy specifies among the first `n` slots of
a TLB: its timestamp is the minimum over these slots, and every slot before it
has a strictly larger timestamp. -/
def IsLruSlot (tlbtbl : List tlbtbl_s) (n i : Nat) : Prop :=
  i < n ∧ ∃ ei : tlbtbl_s, tlbtbl[i]? = some ei ∧
    ∀ (j : Nat) (ej : tlbtbl_s), j < n → tlbtbl[j]? = some ej →
      ei.tlbtimestamp ≤ ej.tlbtimestamp ∧ (j < i → ei.tlbtimestamp < ej.tlbtimestamp)

/-- The residency structure of a page table for `n` frames: exactly `n` entries
are resident, their frame ids are below `n`, pairwise distinct, and cover all
the frames; every non-resident entry holds the sentinel 999. -/
structure ResidentFrames (pt : List pagetbl_s) (n : Nat) : Prop where
  residentCount : pt.countP (fun e => e.mod) = n
  residentFrame : ∀ (j : Nat) (e : pagetbl_s), pt[j]? = some e → e.mod = true → e.addr < n
  sentinel : ∀ (j : Nat) (e : pagetbl_s), pt[j]? = some e → e.mod = false → e.addr = 999
  cover : ∀ f : Nat, f < n →
    ∃ (j : Nat) (e : pagetbl_s), pt[j]? = some e ∧ e.mod = true ∧ e.addr = f
  distinct : ∀ (j1 j2 : Nat) (e1 e2 : pagetbl_s), pt[j1]? = some e1 → pt[j2]? = some e2 →
    e1.mod = true → e2.mod = true → e1.addr = e2.addr → j1 = j2

/-- Well-formed engine state: the TLB has `sizeTLB_v` slots and its victim
pointer is one of them; there are between 1 and 999 frames, so that the sentinel
999 is not a frame id, and the page victim pointer is a frame id; the page table
has the residency structure for `sizePM_v` frames. -/
structure WellFormed (s : VM) extends ResidentFrames s.pagetable s.sizePM_v : Prop where
  tlbLength : s.tlbtable.length = s.sizeTLB_v
  tlbPointer : s.controltable.tlb < s.sizeTLB_v
  framesPos : 1 ≤ s.sizePM_v
  framesMax : s.sizePM_v ≤ 999
  pagePointer : s.controltable.page < s.sizePM_v

/-- The calls of a sequence are first touches on a fresh engine whose TLB has `N`
slots, seeded with the pages `0, ..., N-1`: their pages are pairwise distinct,
and the page of call number `k` (from 0) is none of the seeded pages
`k, ..., N-1` that the earlier calls have not yet replaced. -/
def FirstTouches (N offset : Nat) (tr : List Access) : Prop :=
  (tr.map fun a => a.address >>> offset).Nodup ∧
    ∀ (k j : Nat) (a : Access), tr[k]? = some a → k ≤ j → j < N → a.address >>> offset ≠ j

/-- The `++` of the source on a 32-bit two's-complement `int`, as compiled:
`INT_MAX` wraps to `INT_MIN`. -/
def incInt32 (x : Int) : Int := if x = 2147483647 then -2147483648 else x + 1

/-- The value a 32-bit `int` counter holds when it has been incremented `x`
times from 0 (`incInt32` iterated `x` times). -/
def int32 (x : Int) : Int := (x + 2147483648) % 4294967296 - 2147483648

/-- The sequence of `n` calls `readInt(1)`, `readInt(0)`, `readInt(1)`, ... -/
def alternatingReads (n : Nat) : List Access :=
  (List.range n).map fun i => Access.read ((i + 1) % 2)

/-- The engine of the configuration (2, 1, 1, 1, round-robin, round-robin), one
frame for two pages, after `n` calls of `alternatingReads`: page 1 is the
resident one when `odd` is set, page 0 otherwise. -/
def twoPages (odd : Bool) (n : Int) : VM :=
  { data := [0, 0]
    pagetable :=
      if odd then [⟨999, false, 0, false⟩, ⟨0, true, 0, false⟩]
      else [⟨0, true, 0, false⟩, ⟨999, false, 0, false⟩]
    tlbtable := [⟨if odd then 1 else 0, 0, 0⟩]
    controltable := { tlb := 0, page := 0 }
    pgfault := n
    tlbmiss := n
    diskwrites := 0
    offset := 0
    sizePM_v := 1
    sizeTLB_v := 1
    pageReplAlg_v := 0
    tlbReplAlg_v := 0
    pgtablesize := 2
    pgtabletimestamp := 0
    tlbtabletimestamp := 0
    isfloat := false }

/-! ### A page table of 1001 entries

The states reached on the engine of the configuration (1001000, 1000, 1, 1,
LRU, round-robin) by calls on the pages 0, 997, 998, 999 and 1000: entry 0,
then the entries 1 to 996 as seeded at creation, then the four entries 997 to
1000. -/

/-- The entries 1 to 996 of the page table seeded by `createVM` for 1000
frames. -/
@[irreducible]
def bigMid : List pagetbl_s := (List.range 996).map fun i => initPageEntry 1000 (i + 1)

/-- A page table of 997 entries followed by `tail`: entry 0 is `e0`, the entries
1 to 996 are as seeded at creation. -/
def bigTable (e0 : pagetbl_s) (tail : List pagetbl_s) : List pagetbl_s := e0 :: (bigMid ++ tail)

/-- An engine of the configuration (1001000, 1000, 1, 1, LRU, round-robin) with
the page table `bigTable e0 tail`, the TLB slot `tlb`, the page victim pointer
`page`, the counters and the page timestamp given, and the backing store
`data`. -/
def bigState (e0 : pagetbl_s) (tail : List pagetbl_s) (tlb : tlbtbl_s) (page : Nat)
    (pgfault tlbmiss diskwrites pgtabletimestamp : Int) (data : List Int) : VM :=
  { data := data
    pagetable := bigTable e0 tail
    tlbtable := [tlb]
    controltable := { tlb := 0, page := page }
    pgfault := pgfault
    tlbmiss := tlbmiss
    diskwrites := diskwrites
    offset := 0
    sizePM_v := 1000
    sizeTLB_v := 1
    pageReplAlg_v := 1
    tlbReplAlg_v := 0
    pgtablesize := 1001
    pgtabletimestamp := pgtabletimestamp
    tlbtabletimestamp := 0
    isfloat := false }

/-! # Theorems

## Creation -/

theorem pow2Loop_eq_one (k x : Nat) (h : pow2Loop k x = 1) : ∃ j : Nat, x = 2 ^ j := by
  induction k generalizing x with
  | zero => exact ⟨0, by simpa [pow2Loop] using h⟩
  | succ k ih =>
    rw [pow2Loop] at h
    split_ifs at h with hc
    · obtain ⟨j, hj⟩ := ih _ h
      refine ⟨j + 1, ?_⟩
      have h1 : x % 2 = 0 := by simpa [Nat.and_one_is_mod] using hc.1
      rw [Nat.shiftRight_eq_div_pow, pow_one] at hj
      rw [pow_succ, ← hj]
      omega
    · exact ⟨0, by simpa using h⟩

theorem createVM_ok_valid (sizeVM sizePM pageSize sizeTLB : Nat) (pageReplAlg tlbReplAlg : Int)
    (s : VM) (h : createVM sizeVM sizePM pageSize sizeTLB pageReplAlg tlbReplAlg = .ok s) :
    ValidConfig sizeVM sizePM pageSize sizeTLB pageReplAlg tlbReplAlg := by
  simp only [createVM] at h
  split_ifs at h with h1 h2 h3 h4 h5 h6 h7 h8 h9
  refine ⟨by omega, by omega, pow2Loop_eq_one 32 pageSize (by simpa using h3), by omega, by omega,
    ?_, ?_⟩
  · by_contra hc
    push_neg at hc
    exact h6 ⟨hc.2, hc.2, hc.1, hc.1⟩
  · by_contra hc
    push_neg at hc
    exact h7 ⟨hc.2, hc.2, hc.1, hc.1⟩

/-- C1. `createVM` returns an engine only for configurations that satisfy the
geometry and policy invariants (frames at most virtual pages, at least one
frame, page size a power of two, TLB capacity in `[1, frames]`, both policies in
`{0, 1}`), and every configuration violating one of them makes it fail with an
error, no engine being returned. -/
theorem createVM_enforces_invariants (sizeVM sizePM pageSize sizeTLB : Nat)
    (pageReplAlg tlbReplAlg : Int) :
    (∀ s : VM, createVM sizeVM sizePM pageSize sizeTLB pageReplAlg tlbReplAlg = .ok s →
      ValidConfig sizeVM sizePM pageSize sizeTLB pageReplAlg tlbReplAlg) ∧
    (¬ ValidConfig sizeVM sizePM pageSize sizeTLB pageReplAlg tlbReplAlg →
      ∃ e : CreateError,
        createVM sizeVM sizePM pageSize sizeTLB pageReplAlg tlbReplAlg = .error e) := by
  refine ⟨fun s h => createVM_ok_valid _ _ _ _ _ _ s h, fun hv => ?_⟩
  cases hc : createVM sizeVM sizePM pageSize sizeTLB pageReplAlg tlbReplAlg with
  | error e => exact ⟨e, rfl⟩
  | ok s => exact absurd (createVM_ok_valid _ _ _ _ _ _ s hc) hv

/-- Instance of C1: the configuration (4, 2, 1, 2, round-robin, round-robin) is
accepted and satisfies the invariants; the page size 0 is rejected. -/
theorem createVM_enforces_invariants_witness :
    ValidConfig 4 2 1 2 0 0 ∧ ∃ e : CreateError, createVM 4 2 0 2 0 0 = .error e :=
  ⟨(createVM_enforces_invariants 4 2 1 2 0 0).1 _ rfl,
   (createVM_enforces_invariants 4 2 0 2 0 0).2 (by
      rintro ⟨_, _, ⟨k, hk⟩, _⟩
      exact absurd hk.symm (by positivity))⟩

theorem toInt32_toNat (n : Nat) (hn : n < 2 ^ 32) (h : ¬ toInt32 n < 0) :
    (toInt32 n).toNat = n ∧ toInt32 n = (n : Int) := by
  unfold toInt32 at *
  rw [Nat.mod_eq_of_lt hn] at *
  split_ifs at * with h1
  · simp
  · exfalso
    apply h
    have : (n : Int) < 2 ^ 32 := by exact_mod_cast hn
    omega

/-- The engine returned by an accepted `createVM`, field by field. -/
theorem createVM_ok_fields (sizeVM sizePM pageSize sizeTLB : Nat) (pageReplAlg tlbReplAlg : Int)
    (s : VM) (h : createVM sizeVM sizePM pageSize sizeTLB pageReplAlg tlbReplAlg = .ok s) :
    s = { data := List.replicate (sizeVM * pageSize % 2 ^ 32) 0
          pagetable := (List.range (sizeVM * pageSize % 2 ^ 32 / sizePM)).map (initPageEntry sizePM)
          tlbtable := (List.range sizeTLB).map initTlbEntry
          controltable := { tlb := 0, page := 0 }
          pgfault := 0
          tlbmiss := 0
          diskwrites := 0
          offset := offsetLoop 32 pageSize 0
          sizePM_v := sizePM
          sizeTLB_v := sizeTLB
          pageReplAlg_v := pageReplAlg
          tlbReplAlg_v := tlbReplAlg
          pgtablesize := ((sizeVM * pageSize % 2 ^ 32 / sizePM : Nat) : Int)
          pgtabletimestamp := 0
          tlbtabletimestamp := 0
          isfloat := false } := by
  simp only [createVM] at h
  split_ifs at h with h1 h2 h3 h4 h5 h6 h7 h8 h9
  have hlt : sizeVM * pageSize % 2 ^ 32 / sizePM < 2 ^ 32 :=
    lt_of_le_of_lt (Nat.div_le_self _ _) (Nat.mod_lt _ (by norm_num))
  obtain ⟨e1, e2⟩ := toInt32_toNat _ hlt h9
  rw [e1, e2] at h
  injection h with h
  exact h.symm

/-- C2 as stated fails: the configuration (4, 4, 1, 1, round-robin,
round-robin) is accepted, its page table has 4 * 1 / 4 = 1 entry, so the
entries 1, 2 and 3 among "the first sizePM entries" do not exist. -/
theorem createVM_first_frames_counterexample :
    ∃ s : VM, createVM 4 4 1 1 0 0 = .ok s ∧ s.pagetable.length = 4 * 1 / 4 ∧
      ¬ (∀ i : Nat, i < 4 → ∃ e : pagetbl_s, s.pagetable[i]? = some e ∧ e.mod = true ∧ e.addr = i) :=
  ⟨_, rfl, rfl, fun h => by
    obtain ⟨e, he, -⟩ := h 1 (by decide)
    cases he⟩

/-- C2, amended. For every configuration accepted by `createVM`, the page table
has exactly `(sizeVM * pageSize mod 2^32) / sizePM` entries (the product being
the 32-bit unsigned one); every existing entry of index `i < sizePM` is
resident with frame `i`, every entry of index `i ≥ sizePM` is non-resident; and
when the table has at least `sizePM` entries, the first `sizePM` entries all
exist. -/
theorem createVM_pagetable_seed (sizeVM sizePM pageSize sizeTLB : Nat)
    (pageReplAlg tlbReplAlg : Int) (s : VM)
    (h : createVM sizeVM sizePM pageSize sizeTLB pageReplAlg tlbReplAlg = .ok s) :
    s.pagetable.length = sizeVM * pageSize % 2 ^ 32 / sizePM ∧
    s.pgtablesize = (s.pagetable.length : Int) ∧
    (∀ i : Nat, i < sizePM → i < s.pagetable.length →
      ∃ e : pagetbl_s, s.pagetable[i]? = some e ∧ e.mod = true ∧ e.addr = i) ∧
    (∀ (i : Nat) (e : pagetbl_s), sizePM ≤ i → s.pagetable[i]? = some e → e.mod = false) ∧
    (sizePM ≤ s.pagetable.length →
      ∀ i : Nat, i < sizePM →
        ∃ e : pagetbl_s, s.pagetable[i]? = some e ∧ e.mod = true ∧ e.addr = i) := by
  have hs := createVM_ok_fields _ _ _ _ _ _ s h
  have hlen : s.pagetable.length = sizeVM * pageSize % 2 ^ 32 / sizePM := by
    rw [hs]; simp
  have hget : ∀ i : Nat, i < s.pagetable.length →
      s.pagetable[i]? = some (initPageEntry sizePM i) := by
    intro i hi
    rw [hlen] at hi
    rw [hs]
    simp only [List.getElem?_map, List.getElem?_range hi, Option.map_some']
  have hfirst : ∀ i : Nat, i < sizePM → i < s.pagetable.length →
      ∃ e : pagetbl_s, s.pagetable[i]? = some e ∧ e.mod = true ∧ e.addr = i := by
    intro i hi hil
    refine ⟨_, hget i hil, ?_, ?_⟩ <;> simp [initPageEntry, hi]
  refine ⟨hlen, ?_, hfirst, ?_, fun hle i hi => hfirst i hi (lt_of_lt_of_le hi hle)⟩
  · rw [hlen, hs]
  · intro i e hi he
    have hil : i < s.pagetable.length := by
      by_contra hc
      rw [List.getElem?_eq_none (not_lt.mp hc)] at he
      exact absurd he (by simp)
    rw [hget i hil] at he
    injection he with he
    rw [← he]
    simp [initPageEntry, not_lt.mpr hi]

/-- Instance of C2 (amended) on the configuration (3, 3, 4, 1, LRU,
round-robin): 4 entries, the first 3 resident. -/
theorem createVM_pagetable_seed_witness :
    ∃ s : VM, createVM 3 3 4 1 1 0 = .ok s ∧ s.pagetable.length = 4 ∧
      ∀ i : Nat, i < 3 →
        ∃ e : pagetbl_s, s.pagetable[i]? = some e ∧ e.mod = true ∧ e.addr = i :=
  ⟨_, rfl, (createVM_pagetable_seed 3 3 4 1 1 0 _ rfl).1,
    (createVM_pagetable_seed 3 3 4 1 1 0 _ rfl).2.2.2.2 (by decide)⟩

/-- C3. For every configuration accepted by `createVM`, the fresh engine has
`sizeTLB` TLB slots, slot `i` holding virtual page `i`, frame `i` and timestamp
0; both victim pointers are 0; the page-fault, TLB-miss and disk-write counters
are 0; and every backing-store slot holds 0. -/
theorem createVM_tlb_counters_store (sizeVM sizePM pageSize sizeTLB : Nat)
    (pageReplAlg tlbReplAlg : Int) (s : VM)
    (h : createVM sizeVM sizePM pageSize sizeTLB pageReplAlg tlbReplAlg = .ok s) :
    s.tlbtable.length = sizeTLB ∧
    (∀ i : Nat, i < sizeTLB →
      s.tlbtable[i]? = some { vaddr := i, paddr := i, tlbtimestamp := 0 }) ∧
    s.controltable.tlb = 0 ∧ s.controltable.page = 0 ∧
    s.pgfault = 0 ∧ s.tlbmiss = 0 ∧ s.diskwrites = 0 ∧
    s.data.length = sizeVM * pageSize % 2 ^ 32 ∧
    (∀ (a : Nat) (v : Int), s.data[a]? = some v → v = 0) := by
  have hs := createVM_ok_fields _ _ _ _ _ _ s h
  subst hs
  refine ⟨by simp, ?_, rfl, rfl, rfl, rfl, rfl, by simp, ?_⟩
  · intro i hi
    simp only [List.getElem?_map, List.getElem?_range hi, Option.map_some', initTlbEntry]
  · intro a v hv
    simp only [List.getElem?_replicate] at hv
    split_ifs at hv
    injection hv with hv
    exact hv.symm

/-- Instance of C3 on the configuration (3, 3, 4, 1, LRU, round-robin). -/
theorem createVM_tlb_counters_store_witness :
    ∃ s : VM, createVM 3 3 4 1 1 0 = .ok s ∧ s.tlbtable.length = 1 ∧ s.data.length = 12 :=
  ⟨_, rfl, (createVM_tlb_counters_store 3 3 4 1 1 0 _ rfl).1,
    (createVM_tlb_counters_store 3 3 4 1 1 0 _ rfl).2.2.2.2.2.2.2.1⟩

/-! ## The pieces of an access -/

theorem storeAt_some {α : Type} {xs ys : List α} {i : Nat} {f : α → α}
    (h : storeAt xs i f = some ys) : ∃ e : α, xs[i]? = some e ∧ ys = xs.set i (f e) := by
  unfold storeAt at h
  split at h
  · cases h
  · next e he => exact ⟨e, he, by injection h with h; exact h.symm⟩

theorem tlbReplLRU_some {tlbtbl : List tlbtbl_s} {n : Nat} {ts : Int} {i : Nat}
    {r : List tlbtbl_s × Nat} (h : tlbReplLRU tlbtbl n ts i = some r) :
    ∃ e : tlbtbl_s, tlbtbl[i]? = some e ∧ r.1 = tlbtbl.set i { e with tlbtimestamp := ts } ∧
      tlbScan r.1 (usub1 n) 0 0 = some r.2 := by
  unfold tlbReplLRU at h
  split at h
  · cases h
  · next e he =>
    simp only at h
    split at h
    · cases h
    · next low hlow =>
      injection h with h
      subst h
      exact ⟨e, he, rfl, hlow⟩

theorem tlbHit_some {s s1 : VM} {i : Nat} (h : tlbHit s i = some s1) :
    (s.tlbReplAlg_v = 0 ∧ s1 = s) ∨
    (s.tlbReplAlg_v ≠ 0 ∧ ∃ (e : tlbtbl_s) (low : Nat), s.tlbtable[i]? = some e ∧
      tlbScan (s.tlbtable.set i { e with tlbtimestamp := s.tlbtabletimestamp + 1 })
        (usub1 s.sizeTLB_v) 0 0 = some low ∧
      s1 = { s with
        tlbtabletimestamp := s.tlbtabletimestamp + 1
        tlbtable := s.tlbtable.set i { e with tlbtimestamp := s.tlbtabletimestamp + 1 }
        controltable := { s.controltable with tlb := low } }) := by
  unfold tlbHit at h
  split_ifs at h with hp
  · right
    obtain ⟨r, hr, rfl⟩ := Option.map_eq_some'.mp h
    obtain ⟨e, he, h1, h2⟩ := tlbReplLRU_some hr
    refine ⟨hp, e, r.2, he, ?_, ?_⟩
    · rw [← h1]; exact h2
    · rw [← h1]
  · left
    injection h with h
    exact ⟨not_not.mp hp, h.symm⟩

theorem tlbRepl_some {s s1 : VM} {pos : Nat} (h : tlbRepl s pos = some s1) :
    (s.tlbReplAlg_v = 0 ∧
      s1 = { s with controltable := { s.controltable with tlb := tlbReplRR s.sizeTLB_v pos } }) ∨
    (s.tlbReplAlg_v ≠ 0 ∧ ∃ (e : tlbtbl_s) (low : Nat), s.tlbtable[pos]? = some e ∧
      tlbScan (s.tlbtable.set pos { e with tlbtimestamp := s.tlbtabletimestamp + 1 })
        (usub1 s.sizeTLB_v) 0 0 = some low ∧
      s1 = { s with
        tlbtabletimestamp := s.tlbtabletimestamp + 1
        tlbtable := s.tlbtable.set pos { e with tlbtimestamp := s.tlbtabletimestamp + 1 }
        controltable := { s.controltable with tlb := low } }) := by
  unfold tlbRepl at h
  split_ifs at h with hp
  · right
    obtain ⟨r, hr, rfl⟩ := Option.map_eq_some'.mp h
    obtain ⟨e, he, h1, h2⟩ := tlbReplLRU_some hr
    refine ⟨hp, e, r.2, he, ?_, ?_⟩
    · rw [← h1]; exact h2
    · rw [← h1]
  · left
    injection h with h
    exact ⟨not_not.mp hp, h.symm⟩

theorem skipNonResident_some {pagetbl : List pagetbl_s} {k t g : Nat}
    (h : skipNonResident pagetbl k t = some g) :
    t ≤ g ∧ ∃ e : pagetbl_s, pagetbl[g]? = some e ∧ e.mod = true := by
  induction k generalizing t with
  | zero => cases h
  | succ k ih =>
    rw [skipNonResident] at h
    split at h
    · cases h
    · next e he =>
      split_ifs at h with hm
      · injection h with h
        subst h
        exact ⟨le_rfl, e, he, hm⟩
      · obtain ⟨h1, h2⟩ := ih h
        exact ⟨by omega, h2⟩

theorem pageScan_resident {pagetbl : List pagetbl_s} {k t low r : Nat}
    (h : pageScan pagetbl k t low = some r)
    (hlow : ∃ e : pagetbl_s, pagetbl[low]? = some e ∧ e.mod = true) :
    ∃ e : pagetbl_s, pagetbl[r]? = some e ∧ e.mod = true := by
  induction k generalizing t low with
  | zero =>
    rw [pageScan] at h
    injection h with h
    subst h
    exact hlow
  | succ k ih =>
    rw [pageScan] at h
    split at h
    · cases h
    · next g hg =>
      split at h
      · cases h
      · next hh hhh =>
        have rg := (skipNonResident_some hg).2
        have rh := (skipNonResident_some hhh).2
        split at h
        · split_ifs at h
          all_goals first | exact ih h rg | exact ih h rh | exact ih h hlow
        · cases h

theorem pageReplLRU_some {pagetbl : List pagetbl_s} {n : Nat} {ts : Int} {vpageno : Nat}
    {r : List pagetbl_s × Nat} (h : pageReplLRU pagetbl n ts vpageno = some r) :
    ∃ e : pagetbl_s, pagetbl[vpageno]? = some e ∧
      r.1 = pagetbl.set vpageno { e with pagetimestamp := ts } ∧
      ∃ (low : Nat) (el : pagetbl_s), r.1[low]? = some el ∧ el.mod = true ∧ r.2 = el.addr := by
  unfold pageReplLRU at h
  split at h
  · cases h
  · next e he =>
    simp only at h
    split at h
    · cases h
    · next t0 ht0 =>
      split at h
      · cases h
      · next low hlow =>
        split at h
        · cases h
        · next el hel =>
          injection h with h
          subst h
          obtain ⟨e1, he1, hm1⟩ := pageScan_resident hlow (skipNonResident_some ht0).2
          rw [hel] at he1
          injection he1 with he1
          subst he1
          exact ⟨e, he, rfl, low, el, hel, hm1, rfl⟩

theorem pageReplSoft_some {s s1 : VM} {vpageno : Nat} (h : pageReplSoft s vpageno = some s1) :
    (s.pageReplAlg_v = 0 ∧ s1 = s) ∨
    (s.pageReplAlg_v ≠ 0 ∧ ∃ (e el : pagetbl_s) (low : Nat), s.pagetable[vpageno]? = some e ∧
      (s.pagetable.set vpageno { e with pagetimestamp := s.pgtabletimestamp + 1 })[low]? = some el ∧
      el.mod = true ∧
      s1 = { s with
        pgtabletimestamp := s.pgtabletimestamp + 1
        pagetable := s.pagetable.set vpageno { e with pagetimestamp := s.pgtabletimestamp + 1 }
        controltable := { s.controltable with page := el.addr } }) := by
  unfold pageReplSoft at h
  split_ifs at h with hp
  · right
    obtain ⟨r, hr, rfl⟩ := Option.map_eq_some'.mp h
    obtain ⟨e, he, h1, low, el, h2, h3, h4⟩ := pageReplLRU_some hr
    refine ⟨hp, e, el, low, he, ?_, h3, ?_⟩
    · rw [← h1]; exact h2
    · rw [← h1, h4]
  · left
    injection h with h
    exact ⟨not_not.mp hp, h.symm⟩

theorem pageReplFault_some {s s1 : VM} {vpageno pos1 : Nat}
    (h : pageReplFault s vpageno pos1 = some s1) :
    (s.pageReplAlg_v = 0 ∧
      s1 = { s with controltable := { s.controltable with page := pageReplRR s.sizePM_v pos1 } }) ∨
    (s.pageReplAlg_v ≠ 0 ∧ ∃ (e el : pagetbl_s) (low : Nat), s.pagetable[vpageno]? = some e ∧
      (s.pagetable.set vpageno { e with pagetimestamp := s.pgtabletimestamp + 1 })[low]? = some el ∧
      el.mod = true ∧
      s1 = { s with
        pgtabletimestamp := s.pgtabletimestamp + 1
        pagetable := s.pagetable.set vpageno { e with pagetimestamp := s.pgtabletimestamp + 1 }
        controltable := { s.controltable with page := el.addr } }) := by
  unfold pageReplFault at h
  split_ifs at h with hp
  · right
    obtain ⟨r, hr, rfl⟩ := Option.map_eq_some'.mp h
    obtain ⟨e, he, h1, low, el, h2, h3, h4⟩ := pageReplLRU_some hr
    refine ⟨hp, e, el, low, he, ?_, h3, ?_⟩
    · rw [← h1]; exact h2
    · rw [← h1, h4]
  · left
    injection h with h
    exact ⟨not_not.mp hp, h.symm⟩

/-! ## What an access leaves alone -/

theorem tlbHit_static {s s1 : VM} {i : Nat} (h : tlbHit s i = some s1) :
    s1.static = s.static ∧ s1.stats = s.stats ∧ s1.pagetable = s.pagetable ∧
      s1.controltable.page = s.controltable.page ∧ s1.pgtabletimestamp = s.pgtabletimestamp := by
  rcases tlbHit_some h with ⟨-, rfl⟩ | ⟨-, e, low, -, -, rfl⟩ <;> simp [VM.static, VM.stats]

theorem tlbRepl_static {s s1 : VM} {pos : Nat} (h : tlbRepl s pos = some s1) :
    s1.static = s.static ∧ s1.stats = s.stats ∧ s1.pagetable = s.pagetable ∧
      s1.controltable.page = s.controltable.page ∧ s1.pgtabletimestamp = s.pgtabletimestamp := by
  rcases tlbRepl_some h with ⟨-, rfl⟩ | ⟨-, e, low, -, -, rfl⟩ <;> simp [VM.static, VM.stats]

theorem pageReplSoft_static {s s1 : VM} {vpageno : Nat} (h : pageReplSoft s vpageno = some s1) :
    s1.static = s.static ∧ s1.stats = s.stats ∧ s1.tlbtable = s.tlbtable ∧
      s1.controltable.tlb = s.controltable.tlb ∧ s1.tlbtabletimestamp = s.tlbtabletimestamp := by
  rcases pageReplSoft_some h with ⟨-, rfl⟩ | ⟨-, e, el, low, -, -, -, rfl⟩ <;>
    simp [VM.static, VM.stats]

theorem pageReplFault_static {s s1 : VM} {vpageno pos1 : Nat}
    (h : pageReplFault s vpageno pos1 = some s1) :
    s1.static = s.static ∧ s1.stats = s.stats ∧ s1.tlbtable = s.tlbtable ∧
      s1.controltable.tlb = s.controltable.tlb ∧ s1.tlbtabletimestamp = s.tlbtabletimestamp := by
  rcases pageReplFault_some h with ⟨-, rfl⟩ | ⟨-, e, el, low, -, -, -, rfl⟩ <;>
    simp [VM.static, VM.stats]

/-- The soft miss, step by step. -/
theorem softMiss_some {s s2 : VM} {pos vpageno : Nat} {e : pagetbl_s}
    (h : softMiss s pos vpageno e = some s2) :
    ∃ (t : tlbtbl_s) (s1 : VM), s.tlbtable[pos]? = some t ∧
      tlbRepl { s with tlbtable := s.tlbtable.set pos { t with paddr := e.addr } } pos = some s1 ∧
      pageReplSoft s1 vpageno = some s2 := by
  simp only [softMiss, bind, Option.bind_eq_some] at h
  obtain ⟨tlbtbl, h1, s1, h2, h3⟩ := h
  obtain ⟨t, ht, rfl⟩ := storeAt_some h1
  exact ⟨t, s1, ht, h2, h3⟩

/-- The hard fault of readInt, step by step. -/
theorem readFault_some {s s2 : VM} {pos vpageno : Nat} {e : pagetbl_s}
    (h : readFault s pos vpageno e = some s2) :
    ∃ (t : tlbtbl_s) (i : Nat) (v w : pagetbl_s) (s1 : VM), s.tlbtable[pos]? = some t ∧
      findFrame (s.pagetable.set vpageno { e with mod := true }) s.controltable.page
        ((s.pagetable.set vpageno { e with mod := true }).length + 1) 0 = some i ∧
      (s.pagetable.set vpageno { e with mod := true })[i]? = some v ∧
      (((s.pagetable.set vpageno { e with mod := true }).set i
        (evictEntry s.pageReplAlg_v false v)))[vpageno]? = some w ∧
      pageReplFault
        { s with
          pgfault := s.pgfault + 1
          diskwrites := if ¬ e.mod ∧ e.diskw then s.diskwrites + 1 else s.diskwrites
          pagetable := (((s.pagetable.set vpageno { e with mod := true }).set i
            (evictEntry s.pageReplAlg_v false v))).set vpageno { w with addr := s.controltable.page }
          tlbtable := s.tlbtable.set pos { t with paddr := s.controltable.page } }
        vpageno s.controltable.page = some s1 ∧
      tlbRepl s1 pos = some s2 := by
  simp only [readFault, bind, Option.bind_eq_some] at h
  obtain ⟨tlbtbl, h1, i, h2, pt2, h3, pt3, h4, s1, h5, h6⟩ := h
  obtain ⟨t, ht, rfl⟩ := storeAt_some h1
  obtain ⟨v, hv, rfl⟩ := storeAt_some h3
  obtain ⟨w, hw, rfl⟩ := storeAt_some h4
  exact ⟨t, i, v, w, s1, ht, h2, hv, hw, h5, h6⟩

/-- The hard fault of writeInt, step by step. -/
theorem writeFault_some {s s2 : VM} {pos vpageno : Nat} {e : pagetbl_s}
    (h : writeFault s pos vpageno e = some s2) :
    ∃ (t : tlbtbl_s) (i : Nat) (v w : pagetbl_s) (s1 : VM), s.tlbtable[pos]? = some t ∧
      findFrame (s.pagetable.set vpageno { e with mod := true, diskw := true }) s.controltable.page
        ((s.pagetable.set vpageno { e with mod := true, diskw := true }).length + 1) 0 = some i ∧
      (s.pagetable.set vpageno { e with mod := true, diskw := true })[i]? = some v ∧
      (((s.pagetable.set vpageno { e with mod := true, diskw := true }).set i
        (evictEntry s.pageReplAlg_v true v)))[vpageno]? = some w ∧
      pageReplFault
        { s with
          pgfault := s.pgfault + 1
          diskwrites := s.diskwrites + 1
          pagetable := (((s.pagetable.set vpageno { e with mod := true, diskw := true }).set i
            (evictEntry s.pageReplAlg_v true v))).set vpageno { w with addr := s.controltable.page }
          tlbtable := s.tlbtable.set pos { t with paddr := s.controltable.page } }
        vpageno s.controltable.page = some s1 ∧
      tlbRepl s1 pos = some s2 := by
  simp only [writeFault, bind, Option.bind_eq_some] at h
  obtain ⟨tlbtbl, h1, i, h2, pt2, h3, pt3, h4, s1, h5, h6⟩ := h
  obtain ⟨t, ht, rfl⟩ := storeAt_some h1
  obtain ⟨v, hv, rfl⟩ := storeAt_some h3
  obtain ⟨w, hw, rfl⟩ := storeAt_some h4
  exact ⟨t, i, v, w, s1, ht, h2, hv, hw, h5, h6⟩

/-- The three exits of the address translation. -/
theorem translate_some {fault : VM → Nat → Nat → pagetbl_s → Option VM} {s s1 : VM}
    {address : Nat} (h : translate fault s address = some s1) :
    (∃ i : Nat, tlbSearch s.tlbtable (address >>> s.offset) s.sizeTLB_v 0 = some (some i) ∧
      tlbHit s i = some s1) ∨
    (tlbSearch s.tlbtable (address >>> s.offset) s.sizeTLB_v 0 = some none ∧
      ∃ (t : tlbtbl_s) (e : pagetbl_s), s.tlbtable[s.controltable.tlb]? = some t ∧
        s.pagetable[address >>> s.offset]? = some e ∧
        ((e.mod = true ∧
          softMiss { s with
              tlbmiss := s.tlbmiss + 1
              tlbtable := s.tlbtable.set s.controltable.tlb { t with vaddr := address >>> s.offset } }
            s.controltable.tlb (address >>> s.offset) e = some s1) ∨
         (e.mod = false ∧
          fault { s with
              tlbmiss := s.tlbmiss + 1
              tlbtable := s.tlbtable.set s.controltable.tlb { t with vaddr := address >>> s.offset } }
            s.controltable.tlb (address >>> s.offset) e = some s1))) := by
  unfold translate at h
  simp only at h
  split at h
  · cases h
  · next i hi => exact Or.inl ⟨i, hi, h⟩
  · next hmiss =>
    right
    split at h
    · cases h
    · next tlbtbl htl =>
      obtain ⟨t, ht, rfl⟩ := storeAt_some htl
      split at h
      · cases h
      · next e he =>
        refine ⟨hmiss, t, e, ht, he, ?_⟩
        split_ifs at h with hm
        · exact Or.inl ⟨hm, h⟩
        · exact Or.inr ⟨by simpa using hm, h⟩

theorem softMiss_static {s s2 : VM} {pos vpageno : Nat} {e : pagetbl_s}
    (h : softMiss s pos vpageno e = some s2) : s2.static = s.static ∧ s2.stats = s.stats := by
  obtain ⟨t, s1, -, h1, h2⟩ := softMiss_some h
  obtain ⟨a1, b1, -⟩ := tlbRepl_static h1
  obtain ⟨a2, b2, -⟩ := pageReplSoft_static h2
  exact ⟨a2.trans a1, b2.trans b1⟩

theorem readFault_static {s s2 : VM} {pos vpageno : Nat} {e : pagetbl_s}
    (h : readFault s pos vpageno e = some s2) :
    s2.static = s.static ∧
      s2.stats = (s.pgfault + 1, s.tlbmiss,
        if ¬ e.mod ∧ e.diskw then s.diskwrites + 1 else s.diskwrites) := by
  obtain ⟨t, i, v, w, s1, -, -, -, -, h1, h2⟩ := readFault_some h
  obtain ⟨a1, b1, -⟩ := pageReplFault_static h1
  obtain ⟨a2, b2, -⟩ := tlbRepl_static h2
  exact ⟨a2.trans a1, b2.trans b1⟩

theorem writeFault_static {s s2 : VM} {pos vpageno : Nat} {e : pagetbl_s}
    (h : writeFault s pos vpageno e = some s2) :
    s2.static = s.static ∧ s2.stats = (s.pgfault + 1, s.tlbmiss, s.diskwrites + 1) := by
  obtain ⟨t, i, v, w, s1, -, -, -, -, h1, h2⟩ := writeFault_some h
  obtain ⟨a1, b1, -⟩ := pageReplFault_static h1
  obtain ⟨a2, b2, -⟩ := tlbRepl_static h2
  exact ⟨a2.trans a1, b2.trans b1⟩

/-- Address translation writes neither the backing store nor the globals fixed
at creation, whichever fault body it runs. -/
theorem translate_static {fault : VM → Nat → Nat → pagetbl_s → Option VM}
    (hf : fault = readFault ∨ fault = writeFault) {s s1 : VM} {address : Nat}
    (h : translate fault s address = some s1) : s1.static = s.static := by
  rcases translate_some h with ⟨i, -, h1⟩ | ⟨-, t, e, -, -, ⟨-, h1⟩ | ⟨-, h1⟩⟩
  · exact (tlbHit_static h1).1
  · exact (softMiss_static h1).1
  · rcases hf with rfl | rfl
    · exact (readFault_static h1).1
    · exact (writeFault_static h1).1

/-- The counters after the address translation of readInt, exit by exit:
unchanged on a TLB hit; one more TLB miss on a soft miss; one more TLB miss and
page fault on a hard fault, and one more disk write exactly when the faulting
entry is dirty. -/
theorem translate_read_stats {s s1 : VM} {address : Nat}
    (h : translate readFault s address = some s1) :
    ((∃ i : Nat, tlbSearch s.tlbtable (address >>> s.offset) s.sizeTLB_v 0 = some (some i)) ∧
      s1.stats = s.stats) ∨
    (tlbSearch s.tlbtable (address >>> s.offset) s.sizeTLB_v 0 = some none ∧
      ∃ e : pagetbl_s, s.pagetable[address >>> s.offset]? = some e ∧
        ((e.mod = true ∧ s1.stats = (s.pgfault, s.tlbmiss + 1, s.diskwrites)) ∨
         (e.mod = false ∧
            s1.stats = (s.pgfault + 1, s.tlbmiss + 1,
              if e.diskw then s.diskwrites + 1 else s.diskwrites)))) := by
  rcases translate_some h with ⟨i, hi, h1⟩ | ⟨hmiss, t, e, -, he, ⟨hm, h1⟩ | ⟨hm, h1⟩⟩
  · exact Or.inl ⟨⟨i, hi⟩, (tlbHit_static h1).2.1⟩
  · exact Or.inr ⟨hmiss, e, he, Or.inl ⟨hm, (softMiss_static h1).2⟩⟩
  · refine Or.inr ⟨hmiss, e, he, Or.inr ⟨hm, ?_⟩⟩
    rw [(readFault_static h1).2]
    simp [hm]

/-- The counters after the address translation of writeInt, exit by exit:
unchanged on a TLB hit; one more TLB miss on a soft miss; one more TLB miss,
page fault and disk write on a hard fault. -/
theorem translate_write_stats {s s1 : VM} {address : Nat}
    (h : translate writeFault s address = some s1) :
    ((∃ i : Nat, tlbSearch s.tlbtable (address >>> s.offset) s.sizeTLB_v 0 = some (some i)) ∧
      s1.stats = s.stats) ∨
    (tlbSearch s.tlbtable (address >>> s.offset) s.sizeTLB_v 0 = some none ∧
      ∃ e : pagetbl_s, s.pagetable[address >>> s.offset]? = some e ∧
        ((e.mod = true ∧ s1.stats = (s.pgfault, s.tlbmiss + 1, s.diskwrites)) ∨
         (e.mod = false ∧ s1.stats = (s.pgfault + 1, s.tlbmiss + 1, s.diskwrites + 1)))) := by
  rcases translate_some h with ⟨i, hi, h1⟩ | ⟨hmiss, t, e, -, he, ⟨hm, h1⟩ | ⟨hm, h1⟩⟩
  · exact Or.inl ⟨⟨i, hi⟩, (tlbHit_static h1).2.1⟩
  · exact Or.inr ⟨hmiss, e, he, Or.inl ⟨hm, (softMiss_static h1).2⟩⟩
  · exact Or.inr ⟨hmiss, e, he, Or.inr ⟨hm, (writeFault_static h1).2⟩⟩

theorem retInt_some {s s1 : VM} {address : Nat} {v : Int} (h : retInt s address = some (s1, v)) :
    s1 = s ∧ (s.isfloat = false → s.data[address]? = some v) := by
  unfold retInt at h
  split_ifs at h with hf
  · injection h with h
    injection h with h1 h2
    exact ⟨h1.symm, fun hc => absurd hf (by simp [hc])⟩
  · split at h
    · cases h
    · next x hx =>
      injection h with h
      injection h with h1 h2
      subst h2
      exact ⟨h1.symm, fun _ => hx⟩

theorem putInt_some {s s1 : VM} {address : Nat} {value : Int}
    (h : putInt s address value = some s1) :
    address < s.data.length ∧
      s1 = (if s.isfloat then s else { s with data := s.data.set address value }) := by
  unfold putInt at h
  split at h
  · cases h
  · next x hx =>
    obtain ⟨hlt, -⟩ := List.getElem?_eq_some.mp hx
    refine ⟨hlt, ?_⟩
    split_ifs at h ⊢ with hf <;> injection h with h <;> exact h.symm

/-- The two halves of `readInt`: translation, then the data read. -/
theorem readInt_some {s s2 : VM} {address : Nat} {v : Int}
    (h : readInt s address = some (s2, v)) :
    translate readFault s address = some s2 ∧
      (s.isfloat = false → s.data[address]? = some v) := by
  unfold readInt at h
  obtain ⟨s1, h1, h2⟩ := Option.bind_eq_some.mp h
  obtain ⟨rfl, h3⟩ := retInt_some h2
  have hst := translate_static (Or.inl rfl) h1
  simp only [VM.static, Prod.mk.injEq] at hst
  refine ⟨h1, fun hf => ?_⟩
  rw [← hst.1]
  exact h3 (by rw [hst.2.2.2.2.2.2.2]; exact hf)

/-- The two halves of `writeInt`: translation, then the data store. -/
theorem writeInt_some {s s2 : VM} {address : Nat} {value : Int}
    (h : writeInt s address value = some s2) :
    ∃ s1 : VM, translate writeFault s address = some s1 ∧ address < s.data.length ∧
      s2 = (if s.isfloat then s1 else { s1 with data := s.data.set address value }) := by
  unfold writeInt at h
  obtain ⟨s1, h1, h2⟩ := Option.bind_eq_some.mp h
  obtain ⟨hlt, h3⟩ := putInt_some h2
  have hst := translate_static (Or.inr rfl) h1
  simp only [VM.static, Prod.mk.injEq] at hst
  refine ⟨s1, h1, by rw [← hst.1]; exact hlt, ?_⟩
  rw [h3, hst.1, hst.2.2.2.2.2.2.2]

/-! ## The TLB across an access -/

/-- Storing back the element read leaves an array as it is. -/
theorem set_same {α : Type} {xs : List α} {i : Nat} {x : α} (h : xs[i]? = some x) :
    xs.set i x = xs := by
  apply List.ext_getElem?
  intro m
  rw [List.getElem?_set]
  split_ifs with h1 h2
  · subst h1; exact h.symm
  · exact absurd (List.getElem?_eq_some.mp h).1 h2
  · rfl

/-- A miss of the lookup loop has read every scanned slot, none of which holds
the page. -/
theorem tlbSearch_none {tlbtbl : List tlbtbl_s} {v k i : Nat}
    (h : tlbSearch tlbtbl v k i = some none) :
    ∀ m : Nat, i ≤ m → m < i + k → ∃ e : tlbtbl_s, tlbtbl[m]? = some e ∧ e.vaddr ≠ v := by
  induction k generalizing i with
  | zero => intro m h1 h2; omega
  | succ k ih =>
    rw [tlbSearch] at h
    split at h
    · cases h
    · next e he =>
      split_ifs at h with hv
      · cases h
      · intro m h1 h2
        by_cases hm : m = i
        · subst hm
          exact ⟨e, he, hv⟩
        · exact ih h m (by omega) (by omega)

/-- A hit of the lookup loop returns a scanned slot holding the page, the
first one. -/
theorem tlbSearch_some {tlbtbl : List tlbtbl_s} {v k i j : Nat}
    (h : tlbSearch tlbtbl v k i = some (some j)) :
    i ≤ j ∧ j < i + k ∧ (∃ e : tlbtbl_s, tlbtbl[j]? = some e ∧ e.vaddr = v) ∧
      ∀ m : Nat, i ≤ m → m < j → ∃ e : tlbtbl_s, tlbtbl[m]? = some e ∧ e.vaddr ≠ v := by
  induction k generalizing i with
  | zero => cases h
  | succ k ih =>
    rw [tlbSearch] at h
    split at h
    · cases h
    · next e he =>
      split_ifs at h with hv
      · injection h with h
        injection h with h
        subst h
        exact ⟨le_rfl, by omega, ⟨e, he, hv⟩, fun m h1 h2 => by omega⟩
      · obtain ⟨h1, h2, h3, h4⟩ := ih h
        refine ⟨by omega, by omega, h3, fun m hm1 hm2 => ?_⟩
        by_cases hm : m = i
        · subst hm
          exact ⟨e, he, hv⟩
        · exact h4 m (by omega) hm2

/-- The lookup loop hits as soon as some scanned slot holds the page and the
slots before it exist. -/
theorem tlbSearch_found (tlbtbl : List tlbtbl_s) (v p k i : Nat) (hip : i ≤ p)
    (hpk : p < i + k) (hex : ∀ m : Nat, i ≤ m → m < p → ∃ e : tlbtbl_s, tlbtbl[m]? = some e)
    (hp : ∃ e : tlbtbl_s, tlbtbl[p]? = some e ∧ e.vaddr = v) :
    ∃ j : Nat, tlbSearch tlbtbl v k i = some (some j) := by
  induction k generalizing i with
  | zero => omega
  | succ k ih =>
    rw [tlbSearch]
    by_cases hi : i = p
    · subst hi
      obtain ⟨e, he, hv⟩ := hp
      rw [he]
      simp [hv]
    · obtain ⟨e, he⟩ := hex i le_rfl (by omega)
      rw [he]
      simp only
      split_ifs with hv
      · exact ⟨i, rfl⟩
      · exact ih (i + 1) (by omega) (by omega) (fun m h1 h2 => hex m (by omega) h2)

/-- The lookup loop only reads the virtual pages of the slots. -/
theorem tlbSearch_congr {tlbtbl tlbtbl1 : List tlbtbl_s} {v : Nat} (k i : Nat)
    (h : ∀ m : Nat, (tlbtbl1[m]?).map (fun e => e.vaddr) = (tlbtbl[m]?).map (fun e => e.vaddr)) :
    tlbSearch tlbtbl1 v k i = tlbSearch tlbtbl v k i := by
  induction k generalizing i with
  | zero => rfl
  | succ k ih =>
    rw [tlbSearch, tlbSearch]
    have hi := h i
    cases h1 : tlbtbl1[i]? with
    | none =>
      rw [h1] at hi
      cases h2 : tlbtbl[i]? with
      | none => rfl
      | some e => rw [h2] at hi; cases hi
    | some e1 =>
      rw [h1] at hi
      cases h2 : tlbtbl[i]? with
      | none => rw [h2] at hi; cases hi
      | some e =>
        rw [h2] at hi
        simp only [Option.map_some', Option.some.injEq] at hi
        simp only [hi, ih]

/-- Restamping a slot does not change the virtual pages. -/
theorem vaddr_set_stamp {tlbtbl : List tlbtbl_s} {i : Nat} {e : tlbtbl_s} {ts : Int}
    (he : tlbtbl[i]? = some e) (m : Nat) :
    ((tlbtbl.set i { e with tlbtimestamp := ts })[m]?).map (fun e => e.vaddr) =
      (tlbtbl[m]?).map (fun e => e.vaddr) := by
  rw [List.getElem?_set]
  split_ifs with h1 h2
  · subst h1; rw [he]; rfl
  · subst h1; rw [List.getElem?_eq_none (not_lt.mp h2)]
  · rfl

/-- The TLB after a hit: untouched under round-robin, the hit slot restamped
under LRU; the virtual pages and frames of all slots are as before. -/
theorem tlbHit_tlb {s s1 : VM} {i : Nat} (h : tlbHit s i = some s1) :
    (s.tlbReplAlg_v = 0 ∧ s1.tlbtable = s.tlbtable ∧
      s1.controltable.tlb = s.controltable.tlb ∧ s1.tlbtabletimestamp = s.tlbtabletimestamp) ∨
    (s.tlbReplAlg_v ≠ 0 ∧ ∃ e : tlbtbl_s, s.tlbtable[i]? = some e ∧
      s1.tlbtable = s.tlbtable.set i { e with tlbtimestamp := s.tlbtabletimestamp + 1 } ∧
      tlbScan s1.tlbtable (usub1 s.sizeTLB_v) 0 0 = some s1.controltable.tlb) := by
  rcases tlbHit_some h with ⟨h0, rfl⟩ | ⟨h0, e, low, he, hlow, rfl⟩
  · exact Or.inl ⟨h0, rfl, rfl, rfl⟩
  · exact Or.inr ⟨h0, e, he, rfl, hlow⟩

/-- The TLB after the replacement block at the victim slot `pos`. -/
theorem tlbRepl_tlb {s s1 : VM} {pos : Nat} {x : tlbtbl_s} (hx : s.tlbtable[pos]? = some x)
    (h : tlbRepl s pos = some s1) :
    s1.tlbtable = s.tlbtable.set pos
      { x with tlbtimestamp :=
          if s.tlbReplAlg_v = 0 then x.tlbtimestamp else s.tlbtabletimestamp + 1 } ∧
    (s.tlbReplAlg_v = 0 → s1.controltable.tlb = tlbReplRR s.sizeTLB_v pos) ∧
    (s.tlbReplAlg_v ≠ 0 → tlbScan s1.tlbtable (usub1 s.sizeTLB_v) 0 0 = some s1.controltable.tlb) := by
  have hlt : pos < s.tlbtable.length := (List.getElem?_eq_some.mp hx).1
  rcases tlbRepl_some h with ⟨h0, rfl⟩ | ⟨h0, e, low, he, hlow, rfl⟩
  · refine ⟨?_, fun _ => rfl, fun hc => absurd h0 hc⟩
    simp only [h0, if_true]
    exact (set_same hx).symm
  · rw [hx] at he
    injection he with he
    subst he
    refine ⟨by simp [h0], fun hc => absurd hc h0, fun _ => hlow⟩

theorem softMiss_tlb {s s2 : VM} {pos vpageno : Nat} {e : pagetbl_s} {x : tlbtbl_s}
    (hx : s.tlbtable[pos]? = some x) (h : softMiss s pos vpageno e = some s2) :
    s2.tlbtable = s.tlbtable.set pos
      { vaddr := x.vaddr
        paddr := e.addr
        tlbtimestamp :=
          if s.tlbReplAlg_v = 0 then x.tlbtimestamp else s.tlbtabletimestamp + 1 } ∧
    (s.tlbReplAlg_v = 0 → s2.controltable.tlb = tlbReplRR s.sizeTLB_v pos) ∧
    (s.tlbReplAlg_v ≠ 0 → tlbScan s2.tlbtable (usub1 s.sizeTLB_v) 0 0 = some s2.controltable.tlb) := by
  have hlt : pos < s.tlbtable.length := (List.getElem?_eq_some.mp hx).1
  obtain ⟨t, s1, ht, h1, h2⟩ := softMiss_some h
  rw [hx] at ht
  injection ht with ht
  subst ht
  obtain ⟨a1, a2, a3⟩ := tlbRepl_tlb (x := { x with paddr := e.addr })
    (by simp [List.getElem?_set_self hlt]) h1
  obtain ⟨-, -, b1, b2, -⟩ := pageReplSoft_static h2
  refine ⟨?_, fun h0 => ?_, fun h0 => ?_⟩
  · rw [b1, a1]
    simp [List.set_set]
  · rw [b2]
    exact a2 h0
  · rw [b1, b2]
    exact a3 h0

theorem readFault_tlb {s s2 : VM} {pos vpageno : Nat} {e : pagetbl_s} {x : tlbtbl_s}
    (hx : s.tlbtable[pos]? = some x) (h : readFault s pos vpageno e = some s2) :
    s2.tlbtable = s.tlbtable.set pos
      { vaddr := x.vaddr
        paddr := s.controltable.page
        tlbtimestamp :=
          if s.tlbReplAlg_v = 0 then x.tlbtimestamp else s.tlbtabletimestamp + 1 } ∧
    (s.tlbReplAlg_v = 0 → s2.controltable.tlb = tlbReplRR s.sizeTLB_v pos) ∧
    (s.tlbReplAlg_v ≠ 0 → tlbScan s2.tlbtable (usub1 s.sizeTLB_v) 0 0 = some s2.controltable.tlb) := by
  have hlt : pos < s.tlbtable.length := (List.getElem?_eq_some.mp hx).1
  obtain ⟨t, i, v, w, s1, ht, -, -, -, h1, h2⟩ := readFault_some h
  rw [hx] at ht
  injection ht with ht
  subst ht
  obtain ⟨b0, -, b1, -, b2⟩ := pageReplFault_static h1
  simp only [VM.static, Prod.mk.injEq] at b0
  obtain ⟨a1, a2, a3⟩ := tlbRepl_tlb (x := { x with paddr := s.controltable.page })
    (by rw [b1]; simp [List.getElem?_set_self hlt]) h2
  rw [b0.2.2.2.2.2.1, b0.2.2.2.1] at a2 a3
  rw [b1, b2, b0.2.2.2.2.2.1] at a1
  refine ⟨?_, a2, a3⟩
  rw [a1]
  simp [List.set_set]

theorem writeFault_tlb {s s2 : VM} {pos vpageno : Nat} {e : pagetbl_s} {x : tlbtbl_s}
    (hx : s.tlbtable[pos]? = some x) (h : writeFault s pos vpageno e = some s2) :
    s2.tlbtable = s.tlbtable.set pos
      { vaddr := x.vaddr
        paddr := s.controltable.page
        tlbtimestamp :=
          if s.tlbReplAlg_v = 0 then x.tlbtimestamp else s.tlbtabletimestamp + 1 } ∧
    (s.tlbReplAlg_v = 0 → s2.controltable.tlb = tlbReplRR s.sizeTLB_v pos) ∧
    (s.tlbReplAlg_v ≠ 0 → tlbScan s2.tlbtable (usub1 s.sizeTLB_v) 0 0 = some s2.controltable.tlb) := by
  have hlt : pos < s.tlbtable.length := (List.getElem?_eq_some.mp hx).1
  obtain ⟨t, i, v, w, s1, ht, -, -, -, h1, h2⟩ := writeFault_some h
  rw [hx] at ht
  injection ht with ht
  subst ht
  obtain ⟨b0, -, b1, -, b2⟩ := pageReplFault_static h1
  simp only [VM.static, Prod.mk.injEq] at b0
  obtain ⟨a1, a2, a3⟩ := tlbRepl_tlb (x := { x with paddr := s.controltable.page })
    (by rw [b1]; simp [List.getElem?_set_self hlt]) h2
  rw [b0.2.2.2.2.2.1, b0.2.2.2.1] at a2 a3
  rw [b1, b2, b0.2.2.2.2.2.1] at a1
  refine ⟨?_, a2, a3⟩
  rw [a1]
  simp [List.set_set]

/-- The TLB after a TLB-missing access: the victim slot `pos` holds the page of
the access and its frame (the entry's frame on a soft miss, the page victim
pointer on a fault), every other slot is as before; under round-robin the
timestamp of the slot is untouched and the victim pointer steps, under LRU the
slot is stamped and the victim pointer is the result of the scan. -/
theorem translate_miss_tlb {fault : VM → Nat → Nat → pagetbl_s → Option VM}
    (hf : fault = readFault ∨ fault = writeFault) {s s1 : VM} {address : Nat}
    (h : translate fault s address = some s1)
    (hmiss : tlbSearch s.tlbtable (address >>> s.offset) s.sizeTLB_v 0 = some none) :
    ∃ (t : tlbtbl_s) (e : pagetbl_s), s.tlbtable[s.controltable.tlb]? = some t ∧
      s.pagetable[address >>> s.offset]? = some e ∧
      s1.tlbtable = s.tlbtable.set s.controltable.tlb
        { vaddr := address >>> s.offset
          paddr := if e.mod then e.addr else s.controltable.page
          tlbtimestamp :=
            if s.tlbReplAlg_v = 0 then t.tlbtimestamp else s.tlbtabletimestamp + 1 } ∧
      (s.tlbReplAlg_v = 0 → s1.controltable.tlb = tlbReplRR s.sizeTLB_v s.controltable.tlb) ∧
      (s.tlbReplAlg_v ≠ 0 →
        tlbScan s1.tlbtable (usub1 s.sizeTLB_v) 0 0 = some s1.controltable.tlb) := by
  rcases translate_some h with ⟨i, hi, -⟩ | ⟨-, t, e, ht, he, ⟨hm, h1⟩ | ⟨hm, h1⟩⟩
  · rw [hmiss] at hi; cases hi
  · have hlt : s.controltable.tlb < s.tlbtable.length := (List.getElem?_eq_some.mp ht).1
    obtain ⟨a1, a2, a3⟩ := softMiss_tlb (x := { t with vaddr := address >>> s.offset })
      (by simp [List.getElem?_set_self hlt]) h1
    refine ⟨t, e, ht, he, ?_, a2, a3⟩
    rw [a1]
    simp [List.set_set, hm]
  · have hlt : s.controltable.tlb < s.tlbtable.length := (List.getElem?_eq_some.mp ht).1
    rcases hf with rfl | rfl
    · obtain ⟨a1, a2, a3⟩ := readFault_tlb (x := { t with vaddr := address >>> s.offset })
        (by simp [List.getElem?_set_self hlt]) h1
      refine ⟨t, e, ht, he, ?_, a2, a3⟩
      rw [a1]
      simp [List.set_set, hm]
    · obtain ⟨a1, a2, a3⟩ := writeFault_tlb (x := { t with vaddr := address >>> s.offset })
        (by simp [List.getElem?_set_self hlt]) h1
      refine ⟨t, e, ht, he, ?_, a2, a3⟩
      rw [a1]
      simp [List.set_set, hm]

/-! ## One call -/

theorem Access.fault_cases (a : Access) : a.fault = readFault ∨ a.fault = writeFault := by
  cases a
  · exact Or.inl rfl
  · exact Or.inr rfl

/-- A call is the address translation followed by the data access: the state
after the call is the state after translation, up to the backing store, in
which only the addressed slot can differ. -/
theorem step_some {s s1 : VM} {a : Access} (h : step s a = some s1) :
    ∃ s2 : VM, translate a.fault s a.address = some s2 ∧
      s1 = { s2 with data := s1.data } ∧ s1.data.length = s.data.length ∧
      (∀ b : Nat, b ≠ a.address → s1.data[b]? = s.data[b]?) ∧
      (s.isfloat = false →
        a.address < s.data.length ∧ s1.data[a.address]? = a.stored s.data[a.address]?) := by
  cases a with
  | read address =>
    obtain ⟨r, hr, rfl⟩ := Option.map_eq_some'.mp h
    obtain ⟨h1, h2⟩ := readInt_some (v := r.2) hr
    have hst := translate_static (Or.inl rfl) h1
    simp only [VM.static, Prod.mk.injEq] at hst
    refine ⟨r.1, h1, rfl, by rw [hst.1], fun b _ => by rw [hst.1],
      fun hf => ⟨?_, by rw [hst.1]; rfl⟩⟩
    exact (List.getElem?_eq_some.mp (h2 hf)).1
  | write address value =>
    obtain ⟨s2, h1, hlt, h2⟩ := writeInt_some h
    have hst := translate_static (Or.inr rfl) h1
    simp only [VM.static, Prod.mk.injEq] at hst
    subst h2
    refine ⟨s2, h1, ?_, ?_, ?_, ?_⟩
    · split_ifs <;> rfl
    · split_ifs
      · rw [hst.1]
      · exact List.length_set _ _ _
    · intro b hb
      split_ifs
      · rw [hst.1]
      · exact List.getElem?_set_ne (Ne.symm hb)
    · intro hf
      refine ⟨hlt, ?_⟩
      simp [hf, List.getElem?_set_self hlt, Access.address, Access.stored]

/-- The globals fixed at creation are the same after a call. -/
theorem step_static {s s1 : VM} {a : Access} (h : step s a = some s1) :
    s1.offset = s.offset ∧ s1.sizePM_v = s.sizePM_v ∧ s1.sizeTLB_v = s.sizeTLB_v ∧
      s1.pageReplAlg_v = s.pageReplAlg_v ∧ s1.tlbReplAlg_v = s.tlbReplAlg_v ∧
      s1.pgtablesize = s.pgtablesize ∧ s1.isfloat = s.isfloat ∧
      s1.data.length = s.data.length := by
  obtain ⟨s2, h1, h2, hlen, -⟩ := step_some h
  have hst := translate_static a.fault_cases h1
  simp only [VM.static, Prod.mk.injEq] at hst
  rw [h2]
  exact ⟨hst.2.1, hst.2.2.1, hst.2.2.2.1, hst.2.2.2.2.1, hst.2.2.2.2.2.1, hst.2.2.2.2.2.2.1,
    hst.2.2.2.2.2.2.2, hlen⟩

/-! ## The TLB scan is defined on a table that is long enough -/

theorem tlbScan_defined {tlbtbl : List tlbtbl_s} (k t low : Nat) (hlow : low ≤ t)
    (hlen : t + k < tlbtbl.length) : ∃ r : Nat, tlbScan tlbtbl k t low = some r := by
  induction k generalizing t low with
  | zero => exact ⟨low, rfl⟩
  | succ k ih =>
    rw [tlbScan]
    obtain ⟨a, ha⟩ : ∃ a, tlbtbl[t + 1]? = some a :=
      ⟨_, List.getElem?_eq_getElem (by omega)⟩
    obtain ⟨b, hb⟩ : ∃ b, tlbtbl[t]? = some b := ⟨_, List.getElem?_eq_getElem (by omega)⟩
    obtain ⟨c, hc⟩ : ∃ c, tlbtbl[low]? = some c := ⟨_, List.getElem?_eq_getElem (by omega)⟩
    rw [ha, hb, hc]
    simp only
    split_ifs
    · exact ih (t + 1) low (by omega) (by omega)
    · exact ih (t + 1) low (by omega) (by omega)
    · exact ih (t + 1) low (by omega) (by omega)
    · exact ih (t + 1) (t + 1) le_rfl (by omega)

theorem tlbScan_length {tlbtbl : List tlbtbl_s} {k t low r : Nat}
    (h : tlbScan tlbtbl (k + 1) t low = some r) : t + (k + 1) < tlbtbl.length := by
  induction k generalizing t low with
  | zero =>
    rw [tlbScan] at h
    split at h
    · next a b c ha hb hc => exact (List.getElem?_eq_some.mp ha).1
    · cases h
  | succ k ih =>
    rw [tlbScan] at h
    split at h
    · split_ifs at h
      all_goals
        have := ih h
        omega
    · cases h

/-- After any call made with the TLB victim pointer inside the TLB, the page of
the call is found by the lookup loop, and the hit body is defined. -/
theorem translate_then_hit {fault : VM → Nat → Nat → pagetbl_s → Option VM}
    (hf : fault = readFault ∨ fault = writeFault) {s s1 : VM} {address : Nat}
    (h : translate fault s address = some s1) (hp : s.controltable.tlb < s.sizeTLB_v) :
    ∃ j : Nat, tlbSearch s1.tlbtable (address >>> s.offset) s.sizeTLB_v 0 = some (some j) ∧
      ∃ s2 : VM, tlbHit s1 j = some s2 := by
  have hst := translate_static hf h
  simp only [VM.static, Prod.mk.injEq] at hst
  have key : ∀ j : Nat, tlbSearch s1.tlbtable (address >>> s.offset) s.sizeTLB_v 0 = some (some j) →
      (s.tlbReplAlg_v ≠ 0 → tlbScan s1.tlbtable (usub1 s.sizeTLB_v) 0 0 = some s1.controltable.tlb) →
      ∃ s2 : VM, tlbHit s1 j = some s2 := by
    intro j hj hscan
    unfold tlbHit
    rw [hst.2.2.2.2.2.1, hst.2.2.2.1]
    split_ifs with h0
    · obtain ⟨-, hjn, ⟨e, he, -⟩, -⟩ := tlbSearch_some hj
      unfold tlbReplLRU
      rw [he]
      simp only
      have hdef : ∃ r : Nat, tlbScan
          (s1.tlbtable.set j { e with tlbtimestamp := s1.tlbtabletimestamp + 1 })
          (usub1 s.sizeTLB_v) 0 0 = some r := by
        cases hk : usub1 s.sizeTLB_v with
        | zero => exact ⟨0, rfl⟩
        | succ k =>
          have h1 := hscan h0
          rw [hk] at h1
          have h2 := tlbScan_length h1
          exact tlbScan_defined _ _ _ le_rfl (by rw [List.length_set]; exact h2)
      obtain ⟨r, hr⟩ := hdef
      rw [hr]
      exact ⟨_, rfl⟩
    · exact ⟨_, rfl⟩
  rcases translate_some h with ⟨i, hi, h1⟩ | ⟨hmiss, -⟩
  · rcases tlbHit_tlb h1 with ⟨h0, e1, -⟩ | ⟨h0, e, he, e1, e2⟩
    · have hj : tlbSearch s1.tlbtable (address >>> s.offset) s.sizeTLB_v 0 = some (some i) := by
        rw [e1]; exact hi
      exact ⟨i, hj, key i hj (fun hc => absurd h0 hc)⟩
    · have hj : tlbSearch s1.tlbtable (address >>> s.offset) s.sizeTLB_v 0 = some (some i) := by
        rw [e1, tlbSearch_congr _ _ (vaddr_set_stamp he)]; exact hi
      exact ⟨i, hj, key i hj (fun _ => e2)⟩
  · obtain ⟨t, e, ht, -, e1, -, e3⟩ := translate_miss_tlb hf h hmiss
    have hlt : s.controltable.tlb < s.tlbtable.length := (List.getElem?_eq_some.mp ht).1
    have hall := tlbSearch_none hmiss
    obtain ⟨j, hj⟩ := tlbSearch_found s1.tlbtable (address >>> s.offset)
      s.controltable.tlb s.sizeTLB_v 0 (Nat.zero_le _) (by omega)
      (fun m _ hm => by
        obtain ⟨x, hx, -⟩ := hall m (Nat.zero_le _) (by omega)
        rw [e1, List.getElem?_set_ne (by omega)]
        exact ⟨x, hx⟩)
      ⟨_, by rw [e1]; exact List.getElem?_set_self hlt, rfl⟩
    exact ⟨j, hj, key j hj e3⟩

/-! ## The backing store, the TLB on the next access, the counters -/

theorem translate_hit_eq {fault : VM → Nat → Nat → pagetbl_s → Option VM} {s : VM}
    {address j : Nat}
    (h : tlbSearch s.tlbtable (address >>> s.offset) s.sizeTLB_v 0 = some (some j)) :
    translate fault s address = tlbHit s j := by
  unfold translate
  simp only [h]

/-- The hit body does not look at the backing store. -/
theorem tlbHit_data (s : VM) (d : List Int) (j : Nat) :
    tlbHit { s with data := d } j = (tlbHit s j).map fun x => { x with data := d } := by
  unfold tlbHit
  simp only
  split_ifs
  · cases tlbReplLRU s.tlbtable s.sizeTLB_v (s.tlbtabletimestamp + 1) j <;> rfl
  · rfl

/-- The counters after a call, exit by exit. -/
theorem step_stats {s s1 : VM} {a : Access} (h : step s a = some s1) :
    ((∃ i : Nat, tlbSearch s.tlbtable (a.address >>> s.offset) s.sizeTLB_v 0 = some (some i)) ∧
      s1.stats = s.stats) ∨
    (tlbSearch s.tlbtable (a.address >>> s.offset) s.sizeTLB_v 0 = some none ∧
      ∃ e : pagetbl_s, s.pagetable[a.address >>> s.offset]? = some e ∧
        ((e.mod = true ∧ s1.stats = (s.pgfault, s.tlbmiss + 1, s.diskwrites)) ∨
         (e.mod = false ∧ s1.pgfault = s.pgfault + 1 ∧ s1.tlbmiss = s.tlbmiss + 1 ∧
            (s1.diskwrites = s.diskwrites ∨ s1.diskwrites = s.diskwrites + 1)))) := by
  obtain ⟨s2, h1, h2, -⟩ := step_some h
  have e : s1.stats = s2.stats := by rw [h2]; rfl
  have e1 : s1.pgfault = s2.pgfault := by rw [h2]
  have e2 : s1.tlbmiss = s2.tlbmiss := by rw [h2]
  have e3 : s1.diskwrites = s2.diskwrites := by rw [h2]
  cases a with
  | read x =>
    rcases translate_read_stats h1 with ⟨hi, hs⟩ | ⟨hm, p, hp, ⟨hr, hs⟩ | ⟨hr, hs⟩⟩
    · exact Or.inl ⟨hi, e.trans hs⟩
    · exact Or.inr ⟨hm, p, hp, Or.inl ⟨hr, e.trans hs⟩⟩
    · refine Or.inr ⟨hm, p, hp, Or.inr ⟨hr, ?_⟩⟩
      simp only [VM.stats, Prod.mk.injEq] at hs
      rw [e1, e2, e3, hs.1, hs.2.1, hs.2.2]
      refine ⟨rfl, rfl, ?_⟩
      split_ifs
      · exact Or.inr rfl
      · exact Or.inl rfl
  | write x v =>
    rcases translate_write_stats h1 with ⟨hi, hs⟩ | ⟨hm, p, hp, ⟨hr, hs⟩ | ⟨hr, hs⟩⟩
    · exact Or.inl ⟨hi, e.trans hs⟩
    · exact Or.inr ⟨hm, p, hp, Or.inl ⟨hr, e.trans hs⟩⟩
    · refine Or.inr ⟨hm, p, hp, Or.inr ⟨hr, ?_⟩⟩
      simp only [VM.stats, Prod.mk.injEq] at hs
      rw [e1, e2, e3, hs.1, hs.2.1, hs.2.2]
      exact ⟨rfl, rfl, Or.inr rfl⟩

/-- The increments of the counters over one call are nested. -/
theorem step_counters {s s1 : VM} {a : Access} (h : step s a = some s1) :
    0 ≤ s1.diskwrites - s.diskwrites ∧
      s1.diskwrites - s.diskwrites ≤ s1.pgfault - s.pgfault ∧
      s1.pgfault - s.pgfault ≤ s1.tlbmiss - s.tlbmiss ∧ s1.tlbmiss - s.tlbmiss ≤ 1 := by
  rcases step_stats h with ⟨-, hs⟩ | ⟨-, p, -, ⟨-, hs⟩ | ⟨-, h1, h2, h3 | h3⟩⟩
  · simp only [VM.stats, Prod.mk.injEq] at hs
    omega
  · simp only [VM.stats, Prod.mk.injEq] at hs
    omega
  · omega
  · omega

theorem run_counters {s s1 : VM} {tr : List Access} (h : run s tr = some s1) :
    0 ≤ s1.diskwrites - s.diskwrites ∧
      s1.diskwrites - s.diskwrites ≤ s1.pgfault - s.pgfault ∧
      s1.pgfault - s.pgfault ≤ s1.tlbmiss - s.tlbmiss := by
  induction tr generalizing s with
  | nil =>
    injection h with h
    subst h
    omega
  | cons a tr ih =>
    obtain ⟨sm, h1, h2⟩ := Option.bind_eq_some.mp h
    have := step_counters h1
    have := ih h2
    omega

/-- C5. A page that was just accessed is a TLB hit on the very next access.
From a state whose TLB victim pointer is inside the TLB, under either TLB
policy, after a call (readInt or writeInt) at `A`, a call at an in-range `B` of
the same virtual page is defined and leaves the TLB-miss counter (and the two
other counters) unchanged. -/
theorem next_access_same_page_hits (s s1 : VM) (a b : Access)
    (hp : s.controltable.tlb < s.sizeTLB_v)
    (hpage : a.address >>> s.offset = b.address >>> s.offset)
    (hb : b.address < s.data.length) (h1 : step s a = some s1) :
    (∃ s2 : VM, step s1 b = some s2) ∧
      ∀ s2 : VM, step s1 b = some s2 → s2.tlbmiss = s1.tlbmiss ∧ s2.stats = s1.stats := by
  obtain ⟨s', ht, hs1, hlen, -⟩ := step_some h1
  obtain ⟨o1, -, o3, -, -, -, -, -⟩ := step_static h1
  obtain ⟨j, hj, s3, hs3⟩ := translate_then_hit a.fault_cases ht hp
  have hj1 : tlbSearch s1.tlbtable (b.address >>> s1.offset) s1.sizeTLB_v 0 = some (some j) := by
    rw [o1, o3, ← hpage, hs1]
    exact hj
  have hst : ∀ s2 : VM, step s1 b = some s2 → s2.stats = s1.stats := by
    intro s2 h2
    rcases step_stats h2 with ⟨-, hs⟩ | ⟨hm, -⟩
    · exact hs
    · rw [hj1] at hm
      cases hm
  refine ⟨?_, fun s2 h2 => ⟨?_, hst s2 h2⟩⟩
  · obtain ⟨s4, hs4⟩ : ∃ s4 : VM, tlbHit s1 j = some s4 :=
      ⟨_, by rw [hs1, tlbHit_data, hs3]; rfl⟩
    have hs4st := (tlbHit_static hs4).1
    simp only [VM.static, Prod.mk.injEq] at hs4st
    have hin : b.address < s4.data.length := by rw [hs4st.1, hlen]; exact hb
    obtain ⟨x, hx⟩ : ∃ x : Int, s4.data[b.address]? = some x :=
      ⟨_, List.getElem?_eq_getElem hin⟩
    cases b with
    | read y =>
      simp only [Access.address] at hj1 hx
      have e : readInt s1 y = retInt s4 y := by
        unfold readInt
        rw [translate_hit_eq hj1, hs4]
        rfl
      simp only [step, e, retInt, hx]
      split_ifs <;> exact ⟨_, rfl⟩
    | write y v =>
      simp only [Access.address] at hj1 hx
      have e : writeInt s1 y v = putInt s4 y v := by
        unfold writeInt
        rw [translate_hit_eq hj1, hs4]
        rfl
      simp only [step, e, putInt, hx]
      split_ifs <;> exact ⟨_, rfl⟩
  · have := hst s2 h2
    simp only [VM.stats, Prod.mk.injEq] at this
    exact this.2.1

/-- Instance of C5 on the fresh engine of the configuration (4, 2, 2, 2, LRU,
LRU): a write at address 4 (page 2, a hard fault) followed by a read at address
5 of the same page. -/
theorem next_access_same_page_hits_witness :
    ∃ s0 s1 : VM, createVM 4 2 2 2 1 1 = .ok s0 ∧ step s0 (.write 4 7) = some s1 ∧
      s1.tlbmiss = 1 ∧ ∃ s2 : VM, step s1 (.read 5) = some s2 ∧ s2.tlbmiss = 1 := by
  obtain ⟨s0, h0⟩ : ∃ s0 : VM, createVM 4 2 2 2 1 1 = .ok s0 := ⟨_, rfl⟩
  have hs := createVM_ok_fields _ _ _ _ _ _ s0 h0
  obtain ⟨s1, h1, h2⟩ : ∃ s1 : VM, step s0 (.write 4 7) = some s1 ∧ s1.tlbmiss = 1 := by
    rw [hs]
    exact ⟨_, rfl, rfl⟩
  have h := next_access_same_page_hits s0 s1 (.write 4 7) (.read 5) (by rw [hs]; decide)
    (by rw [hs]; decide) (by rw [hs]; decide) h1
  obtain ⟨s2, h3⟩ := h.1
  exact ⟨s0, s1, h0, h1, h2, s2, h3, by rw [(h.2 s2 h3).1, h2]⟩

/-! ## The round-robin TLB victim pointer -/

theorem tlbReplRR_mod {n p : Nat} (hp : p < n) : tlbReplRR n p = (p + 1) % n := by
  unfold tlbReplRR usub1
  have hn : n ≠ 0 := by omega
  simp only [hn, if_false]
  split_ifs with h
  · exact (Nat.mod_eq_of_lt (by omega)).symm
  · have : p + 1 = n := by omega
    rw [this, Nat.mod_self]

/-- The TLB over one call under the round-robin TLB policy: a hit leaves the
table and the victim pointer as they are; a miss stores the page of the call
(and its frame) in the slot at the victim pointer, leaves every other slot and
every timestamp as they are, and steps the pointer cyclically. -/
theorem step_tlb_rr {s s1 : VM} {a : Access} (h0 : s.tlbReplAlg_v = 0)
    (hp : s.controltable.tlb < s.sizeTLB_v) (h : step s a = some s1) :
    (s1.tlbmiss = s.tlbmiss ∧ s1.tlbtable = s.tlbtable ∧
        s1.controltable.tlb = s.controltable.tlb) ∨
    (s1.tlbmiss = s.tlbmiss + 1 ∧
      (∃ t : tlbtbl_s, s.tlbtable[s.controltable.tlb]? = some t ∧
        ∃ f : Nat, s1.tlbtable = s.tlbtable.set s.controltable.tlb
          { vaddr := a.address >>> s.offset, paddr := f, tlbtimestamp := t.tlbtimestamp }) ∧
      s1.controltable.tlb = (s.controltable.tlb + 1) % s.sizeTLB_v) := by
  obtain ⟨s2, h1, h2, -⟩ := step_some h
  have e1 : s1.tlbtable = s2.tlbtable := by rw [h2]
  have e2 : s1.controltable = s2.controltable := by rw [h2]
  have e3 : s1.tlbmiss = s2.tlbmiss := by rw [h2]
  rcases translate_some h1 with ⟨i, hi, h3⟩ | ⟨hmiss, -⟩
  · left
    have hs := (tlbHit_static h3).2.1
    simp only [VM.stats, Prod.mk.injEq] at hs
    rcases tlbHit_tlb h3 with ⟨-, a1, a2, -⟩ | ⟨hc, -⟩
    · exact ⟨by rw [e3, hs.2.1], by rw [e1, a1], by rw [e2, a2]⟩
    · exact absurd h0 hc
  · right
    obtain ⟨t, e, ht, -, a1, a2, -⟩ := translate_miss_tlb a.fault_cases h1 hmiss
    have hs : s2.tlbmiss = s.tlbmiss + 1 := by
      rcases step_stats h with ⟨⟨i, hi⟩, -⟩ | ⟨-, p, -, ⟨-, hs⟩ | ⟨-, -, hs, -⟩⟩
      · rw [hmiss] at hi; cases hi
      · simp only [VM.stats, Prod.mk.injEq] at hs
        rw [← e3]; exact hs.2.1
      · rw [← e3]; exact hs
    refine ⟨by rw [e3, hs], ⟨t, ht, if e.mod = true then e.addr else s.controltable.page, ?_⟩, ?_⟩
    · rw [e1, a1]
      simp only [h0, if_true]
    · rw [e2, a2 h0, tlbReplRR_mod hp]

/-- The victim pointer after a sequence of calls under the round-robin TLB
policy has advanced, cyclically, by the number of TLB misses. -/
theorem run_tlb_rr {s s1 : VM} {tr : List Access} (h0 : s.tlbReplAlg_v = 0)
    (hp : s.controltable.tlb < s.sizeTLB_v) (h : run s tr = some s1) :
    s.tlbmiss ≤ s1.tlbmiss ∧ s1.tlbmiss - s.tlbmiss ≤ tr.length ∧
      s1.controltable.tlb =
        (s.controltable.tlb + (s1.tlbmiss - s.tlbmiss).toNat) % s.sizeTLB_v ∧
      s1.sizeTLB_v = s.sizeTLB_v ∧ s1.tlbReplAlg_v = 0 ∧ s1.offset = s.offset := by
  induction tr generalizing s with
  | nil =>
    injection h with h
    subst h
    simp [Nat.mod_eq_of_lt hp, h0]
  | cons a tr ih =>
    obtain ⟨sm, h1, h2⟩ := Option.bind_eq_some.mp h
    obtain ⟨o1, -, o3, -, o5, -⟩ := step_static h1
    have hpm : sm.controltable.tlb < sm.sizeTLB_v := by
      rw [o3]
      rcases step_tlb_rr h0 hp h1 with ⟨-, -, e⟩ | ⟨-, -, e⟩
      · rw [e]; exact hp
      · rw [e]; exact Nat.mod_lt _ (by omega)
    obtain ⟨i1, i2, i3, i4, i5, i6⟩ := ih (by rw [o5]; exact h0) hpm h2
    rw [o3] at i3 i4
    rw [o1] at i6
    simp only [List.length_cons]
    rcases step_tlb_rr h0 hp h1 with ⟨e1, -, e⟩ | ⟨e1, -, e⟩
    · rw [e, e1] at i3
      exact ⟨by omega, by omega, i3, i4, i5, i6⟩
    · refine ⟨by omega, by omega, ?_, i4, i5, i6⟩
      rw [i3, e, Nat.mod_add_mod]
      congr 1
      omega

/-! ## The LRU page scan -/

/-- C10, evaluation at the failing input. On the fresh engine of the
configuration (3, 3, 4, 1, LRU, round-robin), after `readInt(8)` (page 2) and
`readInt(4)` (page 1), two soft misses that both recompute the page victim
pointer, the resident entries 0, 1, 2 hold frames 0, 1, 2 with timestamps 0, 2,
1, and the page victim pointer is 1: the frame of the entry with the largest
timestamp, not frame 0, whose entry has the minimum timestamp. -/
theorem lru_page_scan_misses_minimum :
    ∃ s0 s1 : VM, createVM 3 3 4 1 1 0 = .ok s0 ∧ run s0 [.read 8, .read 4] = some s1 ∧
      s1.pagetable = [⟨0, true, 0, false⟩, ⟨1, true, 2, false⟩, ⟨2, true, 1, false⟩,
        ⟨999, false, 0, false⟩] ∧
      s1.stats = (0, 2, 0) ∧ s1.controltable.page = 1 :=
  ⟨_, _, rfl, rfl, rfl, rfl, rfl⟩

/-! ## The page table across an access -/

theorem findFrame_some {pagetbl : List pagetbl_s} {x k i0 i : Nat}
    (h : findFrame pagetbl x k i0 = some i) :
    i0 ≤ i ∧ (∃ v : pagetbl_s, pagetbl[i]? = some v ∧ v.addr = x) ∧
      ∀ m : Nat, i0 ≤ m → m < i → ∃ v : pagetbl_s, pagetbl[m]? = some v ∧ v.addr ≠ x := by
  induction k generalizing i0 with
  | zero => cases h
  | succ k ih =>
    rw [findFrame] at h
    split at h
    · cases h
    · next e he =>
      split_ifs at h with hx
      · injection h with h
        subst h
        exact ⟨le_rfl, ⟨e, he, hx⟩, fun m h1 h2 => by omega⟩
      · obtain ⟨h1, h2, h3⟩ := ih h
        refine ⟨by omega, h2, fun m hm1 hm2 => ?_⟩
        by_cases hm : m = i0
        · subst hm
          exact ⟨e, he, hx⟩
        · exact h3 m (by omega) hm2

/-- Restamping an entry does not change the keys of the table. -/
theorem key_set_stamp {pagetbl : List pagetbl_s} {i : Nat} {e : pagetbl_s} {ts : Int}
    (he : pagetbl[i]? = some e) (m : Nat) :
    ((pagetbl.set i { e with pagetimestamp := ts })[m]?).map pagetbl_s.key =
      (pagetbl[m]?).map pagetbl_s.key := by
  rw [List.getElem?_set]
  split_ifs with h1 h2
  · subst h1; rw [he]; rfl
  · subst h1; rw [List.getElem?_eq_none (not_lt.mp h2)]
  · rfl

/-- The page block of the soft miss keeps the keys of the table; the victim
pointer is unchanged under round-robin and the frame of a resident entry under
LRU. -/
theorem pageReplSoft_keys {s s1 : VM} {vpageno : Nat} (h : pageReplSoft s vpageno = some s1) :
    (∀ m : Nat, (s1.pagetable[m]?).map pagetbl_s.key = (s.pagetable[m]?).map pagetbl_s.key) ∧
    (s.pageReplAlg_v = 0 → s1.controltable.page = s.controltable.page) ∧
    (s.pageReplAlg_v ≠ 0 → ∃ (low : Nat) (el : pagetbl_s), s1.pagetable[low]? = some el ∧
      el.mod = true ∧ s1.controltable.page = el.addr) := by
  rcases pageReplSoft_some h with ⟨h0, rfl⟩ | ⟨h0, e, el, low, he, hel, hm, rfl⟩
  · exact ⟨fun m => rfl, fun _ => rfl, fun hc => absurd h0 hc⟩
  · exact ⟨fun m => key_set_stamp he m, fun hc => absurd hc h0, fun _ => ⟨low, el, hel, hm, rfl⟩⟩

/-- The page block of the hard fault keeps the keys of the table; the victim
pointer steps under round-robin and is the frame of a resident entry under
LRU. -/
theorem pageReplFault_keys {s s1 : VM} {vpageno pos1 : Nat}
    (h : pageReplFault s vpageno pos1 = some s1) :
    (∀ m : Nat, (s1.pagetable[m]?).map pagetbl_s.key = (s.pagetable[m]?).map pagetbl_s.key) ∧
    (s.pageReplAlg_v = 0 → s1.controltable.page = pageReplRR s.sizePM_v pos1) ∧
    (s.pageReplAlg_v ≠ 0 → ∃ (low : Nat) (el : pagetbl_s), s1.pagetable[low]? = some el ∧
      el.mod = true ∧ s1.controltable.page = el.addr) := by
  rcases pageReplFault_some h with ⟨h0, rfl⟩ | ⟨h0, e, el, low, he, hel, hm, rfl⟩
  · exact ⟨fun m => rfl, fun _ => rfl, fun hc => absurd h0 hc⟩
  · exact ⟨fun m => key_set_stamp he m, fun hc => absurd hc h0, fun _ => ⟨low, el, hel, hm, rfl⟩⟩

/-- The eviction and installation stores of a hard fault, on a table where 999
marks exactly the non-resident entries and the victim frame `pos1` is not 999:
the victim search stops on a resident entry `i` other than the faulting one;
afterwards the faulting entry holds `pos1`, entry `i` is evicted, and every
other entry is as before. `e1` is the faulting entry after the first stores
(`mod`, and `diskw` in writeInt). -/
theorem fault_stores {pagetbl : List pagetbl_s} {vpageno pos1 k i : Nat} {e e1 w : pagetbl_s}
    {alg : Int} {cd : Bool}
    (hJ : ∀ (j : Nat) (x : pagetbl_s), pagetbl[j]? = some x → (x.mod = false ↔ x.addr = 999))
    (he : pagetbl[vpageno]? = some e) (hm : e.mod = false) (hp : pos1 ≠ 999)
    (he1 : e1.addr = e.addr)
    (hi : findFrame (pagetbl.set vpageno e1) pos1 k 0 = some i) {v : pagetbl_s}
    (hv : (pagetbl.set vpageno e1)[i]? = some v)
    (hw : ((pagetbl.set vpageno e1).set i (evictEntry alg cd v))[vpageno]? = some w) :
    i ≠ vpageno ∧ pagetbl[i]? = some v ∧ v.addr = pos1 ∧ v.mod = true ∧ w = e1 ∧
      ∀ m : Nat,
        ((((pagetbl.set vpageno e1).set i (evictEntry alg cd v)).set vpageno
            { w with addr := pos1 })[m]?) =
          if m = vpageno then some { e1 with addr := pos1 }
          else if m = i then some (evictEntry alg cd v)
          else pagetbl[m]? := by
  have hlt : vpageno < pagetbl.length := (List.getElem?_eq_some.mp he).1
  obtain ⟨-, ⟨v', hv', hax⟩, -⟩ := findFrame_some hi
  rw [hv] at hv'
  injection hv' with hv'
  subst hv'
  have hne : i ≠ vpageno := by
    intro hc
    subst hc
    rw [List.getElem?_set_self hlt] at hv
    injection hv with hv
    subst hv
    rw [he1, (hJ _ e he).mp hm] at hax
    exact hp hax.symm
  rw [List.getElem?_set_ne (Ne.symm hne)] at hv
  have hvm : v.mod = true := by
    by_contra hc
    have := (hJ i v hv).mp (by simpa using hc)
    rw [this] at hax
    exact hp hax.symm
  have hilt : i < pagetbl.length := (List.getElem?_eq_some.mp hv).1
  rw [List.getElem?_set_ne hne, List.getElem?_set_self hlt] at hw
  injection hw with hw
  subst hw
  refine ⟨hne, hv, hax, hvm, rfl, fun m => ?_⟩
  by_cases h1 : m = vpageno
  · subst h1
    simp [List.getElem?_set_self, hlt]
  · by_cases h2 : m = i
    · subst h2
      simp [h1, List.getElem?_set_ne (Ne.symm h1), List.getElem?_set_self, hilt]
    · simp [h1, h2, List.getElem?_set_ne (Ne.symm h1), List.getElem?_set_ne (Ne.symm h2)]

theorem pageReplRR_ne_sentinel {n pos1 : Nat} (h1 : 1 ≤ n) (h2 : n ≤ 999) :
    pageReplRR n pos1 ≠ 999 := by
  unfold pageReplRR usub1
  have hn : n ≠ 0 := by omega
  simp only [hn, if_false]
  split_ifs <;> omega

/-- The entry part of `NoSentinelClash` only depends on the keys. -/
theorem sentinel_of_keys {pt pt1 : List pagetbl_s}
    (hk : ∀ m : Nat, (pt1[m]?).map pagetbl_s.key = (pt[m]?).map pagetbl_s.key)
    (hJ : ∀ (j : Nat) (x : pagetbl_s), pt[j]? = some x → (x.mod = false ↔ x.addr = 999)) :
    ∀ (j : Nat) (x : pagetbl_s), pt1[j]? = some x → (x.mod = false ↔ x.addr = 999) := by
  intro j x hx
  have h := hk j
  rw [hx] at h
  cases hy : pt[j]? with
  | none => rw [hy] at h; cases h
  | some y =>
    rw [hy] at h
    simp only [Option.map_some', Option.some.injEq, pagetbl_s.key, Prod.mk.injEq] at h
    rw [h.1, h.2.1]
    exact hJ j y hy

/-- The page table after the hard-fault body, for the fault body of readInt
(`wr = false`) and of writeInt (`wr = true`), from a state without sentinel
clash: the faulting entry `P` is resident in the victim frame, dirty on the
write path and as dirty as before on the read path; the entry `i` that held the
victim frame, a resident entry other than `P`, is evicted, its dirty flag
cleared on the write path and kept on the read path; the keys of the other
entries are unchanged. -/
theorem fault_pagetable {wr : Bool} {s s2 : VM} {pos P : Nat} {e : pagetbl_s}
    (hJ : NoSentinelClash s) (he : s.pagetable[P]? = some e) (hm : e.mod = false)
    (h : (if wr then writeFault else readFault) s pos P e = some s2) :
    NoSentinelClash s2 ∧
    ∃ (i : Nat) (v : pagetbl_s), i ≠ P ∧ s.pagetable[i]? = some v ∧ v.mod = true ∧
      v.addr = s.controltable.page ∧
      (s2.pagetable[P]?).map pagetbl_s.key = some (s.controltable.page, true, wr || e.diskw) ∧
      (s2.pagetable[i]?).map pagetbl_s.key = some (999, false, !wr && v.diskw) ∧
      ∀ m : Nat, m ≠ P → m ≠ i →
        (s2.pagetable[m]?).map pagetbl_s.key = (s.pagetable[m]?).map pagetbl_s.key := by
  obtain ⟨n1, n2, n3, n4⟩ := hJ
  have main : ∀ (e1 : pagetbl_s) (dw : Int) (i : Nat) (v w : pagetbl_s) (t : tlbtbl_s) (s1 : VM),
      e1.addr = e.addr → e1.mod = true → e1.diskw = (wr || e.diskw) →
      findFrame (s.pagetable.set P e1) s.controltable.page
        ((s.pagetable.set P e1).length + 1) 0 = some i →
      (s.pagetable.set P e1)[i]? = some v →
      ((s.pagetable.set P e1).set i (evictEntry s.pageReplAlg_v wr v))[P]? = some w →
      pageReplFault
        { s with
          pgfault := s.pgfault + 1
          diskwrites := dw
          pagetable := ((s.pagetable.set P e1).set i (evictEntry s.pageReplAlg_v wr v)).set P
            { w with addr := s.controltable.page }
          tlbtable := s.tlbtable.set pos { t with paddr := s.controltable.page } }
        P s.controltable.page = some s1 →
      tlbRepl s1 pos = some s2 →
      NoSentinelClash s2 ∧
      ∃ (i : Nat) (v : pagetbl_s), i ≠ P ∧ s.pagetable[i]? = some v ∧ v.mod = true ∧
        v.addr = s.controltable.page ∧
        (s2.pagetable[P]?).map pagetbl_s.key = some (s.controltable.page, true, wr || e.diskw) ∧
        (s2.pagetable[i]?).map pagetbl_s.key = some (999, false, !wr && v.diskw) ∧
        ∀ m : Nat, m ≠ P → m ≠ i →
          (s2.pagetable[m]?).map pagetbl_s.key = (s.pagetable[m]?).map pagetbl_s.key := by
    intro e1 dw i v w t s1 ha hmod hd hi hv hw h1 h2
    obtain ⟨f1, f2, f3, f4, f5, f6⟩ := fault_stores n4 he hm n3 ha hi hv hw
    obtain ⟨k1, k2, k3⟩ := pageReplFault_keys h1
    obtain ⟨st1, -, -⟩ := pageReplFault_static h1
    obtain ⟨st2, -, p2, c2, -⟩ := tlbRepl_static h2
    simp only [VM.static, Prod.mk.injEq] at st1 st2
    have keys2 : ∀ m : Nat, (s2.pagetable[m]?).map pagetbl_s.key =
        if m = P then some (s.controltable.page, true, wr || e.diskw)
        else if m = i then some (999, false, !wr && v.diskw)
        else (s.pagetable[m]?).map pagetbl_s.key := by
      intro m
      rw [p2, k1 m]
      simp only
      rw [f6 m]
      split_ifs
      · simp [pagetbl_s.key, hmod, hd]
      · cases wr <;> simp [pagetbl_s.key, evictEntry]
      · rfl
    have ent2 : ∀ (j : Nat) (x : pagetbl_s), s2.pagetable[j]? = some x →
        (x.mod = false ↔ x.addr = 999) := by
      intro j x hx
      have hkj := keys2 j
      rw [hx] at hkj
      split_ifs at hkj with c1 c2
      · simp only [Option.map_some', Option.some.injEq, pagetbl_s.key, Prod.mk.injEq] at hkj
        rw [hkj.1, hkj.2.1]
        simp [n3]
      · simp only [Option.map_some', Option.some.injEq, pagetbl_s.key, Prod.mk.injEq] at hkj
        rw [hkj.1, hkj.2.1]
        simp
      · cases hy : s.pagetable[j]? with
        | none => rw [hy] at hkj; cases hkj
        | some y =>
          rw [hy] at hkj
          simp only [Option.map_some', Option.some.injEq, pagetbl_s.key, Prod.mk.injEq] at hkj
          rw [hkj.1, hkj.2.1]
          exact n4 j y hy
    refine ⟨⟨by rw [st2.2.2.1, st1.2.2.1]; exact n1, by rw [st2.2.2.1, st1.2.2.1]; exact n2, ?_,
      ent2⟩, i, v, f1, f2, f4, f3, ?_, ?_, ?_⟩
    · rw [c2]
      by_cases h0 : s.pageReplAlg_v = 0
      · rw [k2 h0]
        exact pageReplRR_ne_sentinel n1 n2
      · obtain ⟨low, el, hel, hlm, hptr⟩ := k3 h0
        rw [hptr]
        intro hc
        have hel2 : s2.pagetable[low]? = some el := by rw [p2]; exact hel
        have := (ent2 low el hel2).mpr hc
        rw [hlm] at this
        cases this
    · rw [keys2 P]; simp
    · rw [keys2 i]; simp [f1]
    · intro m hm1 hm2
      rw [keys2 m]
      simp [hm1, hm2]
  cases wr with
  | false =>
    simp only [Bool.false_eq_true, if_false] at h
    obtain ⟨t, i, v, w, s1, -, hi, hv, hw, h1, h2⟩ := readFault_some h
    exact main { e with mod := true }
      (if ¬ e.mod ∧ e.diskw then s.diskwrites + 1 else s.diskwrites) i v w t s1 rfl rfl
      (by simp) hi hv hw h1 h2
  | true =>
    simp only [if_true] at h
    obtain ⟨t, i, v, w, s1, -, hi, hv, hw, h1, h2⟩ := writeFault_some h
    exact main { e with mod := true, diskw := true } (s.diskwrites + 1) i v w t s1 rfl rfl
      (by simp) hi hv hw h1 h2

theorem Access.fault_eq (a : Access) :
    a.fault = if a.isWrite then writeFault else readFault := by
  cases a <;> rfl

/-- The page table over one call, from a state without sentinel clash. The state
after the call has no sentinel clash either. Either the call is not a hard
fault: the page-fault and disk-write counters and the keys of all entries are
unchanged. Or it is a hard fault on page `P`: the TLB missed, `P` was
non-resident, one more page fault is counted, and one more disk write exactly
when the call is a write or `P` was dirty; `P` is resident in the victim frame,
dirty on a write and as dirty as before on a read; the resident entry `i` that
held the victim frame is evicted, its dirty flag cleared by a write and kept by
a read; the keys of the other entries are unchanged. -/
theorem step_pagetable {s s1 : VM} {a : Access} (hJ : NoSentinelClash s)
    (h : step s a = some s1) :
    NoSentinelClash s1 ∧
    ((s1.pgfault = s.pgfault ∧ s1.diskwrites = s.diskwrites ∧
        ∀ m : Nat, (s1.pagetable[m]?).map pagetbl_s.key = (s.pagetable[m]?).map pagetbl_s.key) ∨
     (s1.pgfault = s.pgfault + 1 ∧
        tlbSearch s.tlbtable (a.address >>> s.offset) s.sizeTLB_v 0 = some none ∧
        ∃ (e : pagetbl_s) (i : Nat) (v : pagetbl_s),
          s.pagetable[a.address >>> s.offset]? = some e ∧ e.mod = false ∧
          s1.diskwrites = s.diskwrites + (if a.isWrite || e.diskw then 1 else 0) ∧
          i ≠ a.address >>> s.offset ∧ s.pagetable[i]? = some v ∧ v.mod = true ∧
          v.addr = s.controltable.page ∧
          (s1.pagetable[a.address >>> s.offset]?).map pagetbl_s.key =
            some (s.controltable.page, true, a.isWrite || e.diskw) ∧
          (s1.pagetable[i]?).map pagetbl_s.key = some (999, false, !a.isWrite && v.diskw) ∧
          ∀ m : Nat, m ≠ a.address >>> s.offset → m ≠ i →
            (s1.pagetable[m]?).map pagetbl_s.key = (s.pagetable[m]?).map pagetbl_s.key)) := by
  obtain ⟨s2, h1, h2, -⟩ := step_some h
  have e1 : s1.pagetable = s2.pagetable := by rw [h2]
  have e2 : s1.controltable = s2.controltable := by rw [h2]
  have e3 : s1.pgfault = s2.pgfault := by rw [h2]
  have e4 : s1.sizePM_v = s2.sizePM_v := by rw [h2]
  have e5 : s1.diskwrites = s2.diskwrites := by rw [h2]
  have lift : NoSentinelClash s2 → NoSentinelClash s1 := by
    intro hn
    unfold NoSentinelClash
    rw [e1, e2, e4]
    exact hn
  obtain ⟨n1, n2, n3, n4⟩ := hJ
  rcases translate_some h1 with ⟨i, hi, h3⟩ | ⟨hmiss, t, e, ht, he, ⟨hm, h3⟩ | ⟨hm, h3⟩⟩
  · obtain ⟨st, hs, p, c, -⟩ := tlbHit_static h3
    simp only [VM.static, VM.stats, Prod.mk.injEq] at st hs
    refine ⟨lift ⟨by rw [st.2.2.1]; exact n1, by rw [st.2.2.1]; exact n2, by rw [c]; exact n3,
      by rw [p]; exact n4⟩, Or.inl ⟨by rw [e3, hs.1], by rw [e5, hs.2.2], fun m => by rw [e1, p]⟩⟩
  · obtain ⟨t1, sm, -, h4, h5⟩ := softMiss_some h3
    obtain ⟨st4, hs4, p4, c4, -⟩ := tlbRepl_static h4
    obtain ⟨st5, hs5, -⟩ := pageReplSoft_static h5
    obtain ⟨k1, k2, k3⟩ := pageReplSoft_keys h5
    simp only [VM.static, VM.stats, Prod.mk.injEq] at st4 hs4 st5 hs5
    have keys : ∀ m : Nat,
        (s2.pagetable[m]?).map pagetbl_s.key = (s.pagetable[m]?).map pagetbl_s.key := by
      intro m
      rw [k1 m, p4]
    have ent := sentinel_of_keys keys n4
    refine ⟨lift ⟨by rw [st5.2.2.1, st4.2.2.1]; exact n1, by rw [st5.2.2.1, st4.2.2.1]; exact n2,
      ?_, ent⟩, Or.inl ⟨by rw [e3, hs5.1, hs4.1], by rw [e5, hs5.2.2, hs4.2.2],
        fun m => by rw [e1]; exact keys m⟩⟩
    by_cases h0 : sm.pageReplAlg_v = 0
    · rw [k2 h0, c4]
      exact n3
    · obtain ⟨low, el, hel, hlm, hptr⟩ := k3 h0
      rw [hptr]
      intro hc
      have := (ent low el hel).mpr hc
      rw [hlm] at this
      cases this
  · have hst : s2.pgfault = s.pgfault + 1 ∧
        s2.diskwrites = s.diskwrites + (if a.isWrite || e.diskw then 1 else 0) := by
      cases a with
      | read x =>
        have h3' : readFault _ _ _ e = some s2 := h3
        have := (readFault_static h3').2
        simp only [VM.stats, Prod.mk.injEq] at this
        refine ⟨this.1, ?_⟩
        rw [this.2.2]
        simp only [hm, Access.isWrite, Bool.false_or]
        cases e.diskw <;> simp
      | write x y =>
        have h3' : writeFault _ _ _ e = some s2 := h3
        have := (writeFault_static h3').2
        simp only [VM.stats, Prod.mk.injEq] at this
        exact ⟨this.1, by rw [this.2.2]; simp [Access.isWrite]⟩
    rw [a.fault_eq] at h3
    have hJ' : NoSentinelClash
        { s with
          tlbmiss := s.tlbmiss + 1
          tlbtable := s.tlbtable.set s.controltable.tlb
            { t with vaddr := a.address >>> s.offset } } := ⟨n1, n2, n3, n4⟩
    obtain ⟨j2, i, v, f1, f2, f3, f4, f5, f6, f7⟩ := fault_pagetable hJ' he hm h3
    refine ⟨lift j2, Or.inr ⟨by rw [e3, hst.1], hmiss, e, i, v, he, hm, by rw [e5, hst.2], f1, f2,
      f3, f4, ?_, ?_, ?_⟩⟩
    · rw [e1]; exact f5
    · rw [e1]; exact f6
    · intro m hm1 hm2
      rw [e1]
      exact f7 m hm1 hm2

/-! ## Dirty pages and re-faults -/

theorem flags_of_key {s : VM} {P : Nat} {k : Nat × Bool × Bool}
    (h : (s.pagetable[P]?).map pagetbl_s.key = some k) :
    s.resident P = k.2.1 ∧ s.dirty P = k.2.2 := by
  unfold VM.resident VM.dirty
  cases hp : s.pagetable[P]? with
  | none => rw [hp] at h; cases h
  | some e =>
    rw [hp] at h
    simp only [Option.map_some', Option.some.injEq] at h
    subst h
    exact ⟨rfl, rfl⟩

theorem flags_of_keys_eq {s s1 : VM} {P : Nat}
    (h : (s1.pagetable[P]?).map pagetbl_s.key = (s.pagetable[P]?).map pagetbl_s.key) :
    s1.resident P = s.resident P ∧ s1.dirty P = s.dirty P := by
  unfold VM.resident VM.dirty
  cases hp : s.pagetable[P]? with
  | none =>
    rw [hp] at h
    cases hq : s1.pagetable[P]? with
    | none => exact ⟨rfl, rfl⟩
    | some e => rw [hq] at h; cases h
  | some e =>
    rw [hp] at h
    cases hq : s1.pagetable[P]? with
    | none => rw [hq] at h; cases h
    | some e1 =>
      rw [hq] at h
      simp only [Option.map_some', Option.some.injEq, pagetbl_s.key, Prod.mk.injEq] at h
      exact ⟨h.2.1, h.2.2⟩

/-- A fresh engine with at most 999 frames has no sentinel clash. -/
theorem createVM_noSentinelClash (sizeVM sizePM pageSize sizeTLB : Nat)
    (pageReplAlg tlbReplAlg : Int) (s : VM)
    (h : createVM sizeVM sizePM pageSize sizeTLB pageReplAlg tlbReplAlg = .ok s)
    (hPM : sizePM ≤ 999) : NoSentinelClash s := by
  have hv := createVM_ok_valid _ _ _ _ _ _ s h
  have hs := createVM_ok_fields _ _ _ _ _ _ s h
  refine ⟨by rw [hs]; exact hv.2.1, by rw [hs]; exact hPM, by rw [hs]; simp, ?_⟩
  intro j e he
  rw [hs] at he
  simp only [List.getElem?_map, Option.map_eq_some'] at he
  obtain ⟨i, -, rfl⟩ := he
  unfold initPageEntry
  split_ifs with hi
  · simp only [Bool.true_eq_false, false_iff]
    omega
  · simp

theorem run_noSentinelClash {s s1 : VM} {tr : List Access} (hJ : NoSentinelClash s)
    (h : run s tr = some s1) : NoSentinelClash s1 ∧ s1.offset = s.offset := by
  induction tr generalizing s with
  | nil =>
    injection h with h
    subst h
    exact ⟨hJ, rfl⟩
  | cons a tr ih =>
    obtain ⟨sm, h1, h2⟩ := Option.bind_eq_some.mp h
    obtain ⟨i1, i2⟩ := ih (step_pagetable hJ h1).1 h2
    exact ⟨i1, by rw [i2, (step_static h1).1]⟩

/-- A dirty page stays dirty over a sequence of calls none of whose writes
evicts it. -/
theorem run_keeps_dirty {P : Nat} {s s1 : VM} {tr : List Access} (hJ : NoSentinelClash s)
    (hd : s.dirty P = true) (h : run s tr = some s1)
    (hnw : NoWriteEvicts P s tr) : s1.dirty P = true := by
  induction tr generalizing s with
  | nil =>
    injection h with h
    subst h
    exact hd
  | cons a tr ih =>
    obtain ⟨sm, h1, h2⟩ := Option.bind_eq_some.mp h
    simp only [NoWriteEvicts, h1] at hnw
    obtain ⟨hw, hrest⟩ := hnw
    obtain ⟨jm, hcase⟩ := step_pagetable hJ h1
    refine ih jm ?_ h2 hrest
    rcases hcase with ⟨-, -, hk⟩ | ⟨-, -, e, i, v, he, hm, -, hne, hv, hvm, -, kP, ki, kother⟩
    · rw [(flags_of_keys_eq (hk P)).2]
      exact hd
    · by_cases hPQ : P = a.address >>> s.offset
      · subst hPQ
        rw [(flags_of_key kP).2]
        have : e.diskw = true := by
          have := hd
          unfold VM.dirty at this
          rw [he] at this
          exact this
        simp [this]
      · by_cases hPi : P = i
        · subst hPi
          rw [(flags_of_key ki).2]
          have hvd : v.diskw = true := by
            have := hd
            unfold VM.dirty at this
            rw [hv] at this
            exact this
          cases hwr : a.isWrite with
          | false => simp [hvd]
          | true =>
            exfalso
            have hres : s.resident P = true := by
              unfold VM.resident
              rw [hv]
              exact hvm
            have hx : ∃ (x : Nat) (y : Int), a = .write x y := by
              cases a with
              | read x => cases hwr
              | write x y => exact ⟨x, y, rfl⟩
            have := hw hx hres
            rw [(flags_of_key ki).1] at this
            cases this
        · rw [(flags_of_keys_eq (kother P hPQ hPi)).2]
          exact hd

/-- A sequence of reads contains no evicting write. -/
theorem noWriteEvicts_of_reads (P : Nat) (tr : List Access)
    (h : ∀ a : Access, a ∈ tr → a.isWrite = false) (s : VM) : NoWriteEvicts P s tr := by
  induction tr generalizing s with
  | nil => trivial
  | cons a tr ih =>
    simp only [NoWriteEvicts]
    split
    · trivial
    · refine ⟨fun hx => ?_, ih (fun b hb => h b (List.mem_cons_of_mem _ hb)) _⟩
      obtain ⟨x, v, rfl⟩ := hx
      have := h _ (List.mem_cons_self _ _)
      cases this

/-- C8 as stated fails when the eviction is done by a faulting writeInt. On the
fresh engine of the configuration (4, 2, 2, 1, round-robin, round-robin):
`writeInt(4)` faults page 2 in; `writeInt(6)` and `writeInt(0)` fault, the
second evicting page 2; `readInt(4)` then faults page 2 back in and leaves the
disk-write counter at 3. -/
theorem refault_after_write_eviction_counterexample :
    ∃ s0 s1 s2 s3 : VM, createVM 4 2 2 1 0 0 = .ok s0 ∧
      step s0 (.write 4 1) = some s1 ∧ s1.pgfault = s0.pgfault + 1 ∧ s1.resident 2 = true ∧
      run s1 [.write 6 2, .write 0 3] = some s2 ∧ s2.resident 2 = false ∧
      step s2 (.read 4) = some s3 ∧ s3.pgfault = s2.pgfault + 1 ∧ s3.resident 2 = true ∧
      s2.diskwrites = 3 ∧ s3.diskwrites = 3 :=
  ⟨_, _, _, _, rfl, rfl, rfl, rfl, rfl, rfl, rfl, rfl, rfl, rfl, rfl⟩

/-- C8, amended. On an engine created with at most 999 frames (so that the
sentinel 999 is not a frame id), in every access trace in which a page `P`
faults on a writeInt, is later evicted by a faulting readInt (no later writeInt
evicts `P`), and is then faulted back in by a readInt, that readInt increments
the disk-write counter by exactly one, whatever calls, resident hits included,
occurred in between. -/
theorem refault_read_counts_one_disk_write (sizeVM sizePM pageSize sizeTLB : Nat)
    (pageReplAlg tlbReplAlg : Int) (si s0 s1 s2 s3 : VM) (tr0 tr : List Access) (A B : Nat)
    (V : Int)
    (hc : createVM sizeVM sizePM pageSize sizeTLB pageReplAlg tlbReplAlg = .ok si)
    (hPM : sizePM ≤ 999) (h0 : run si tr0 = some s0)
    (hw : step s0 (.write A V) = some s1) (hwf : s1.pgfault = s0.pgfault + 1)
    (hrun : run s1 tr = some s2) (hnw : NoWriteEvicts (A >>> s0.offset) s1 tr)
    (hpage : B >>> s0.offset = A >>> s0.offset)
    (hr : step s2 (.read B) = some s3) (hrf : s3.pgfault = s2.pgfault + 1) :
    s3.diskwrites = s2.diskwrites + 1 := by
  have J0 := (run_noSentinelClash (createVM_noSentinelClash _ _ _ _ _ _ si hc hPM) h0).1
  obtain ⟨J1, hcase⟩ := step_pagetable J0 hw
  have o1 : s1.offset = s0.offset := (step_static hw).1
  have hd1 : s1.dirty (A >>> s0.offset) = true := by
    rcases hcase with ⟨hpf, -⟩ | ⟨-, -, e, i, v, -, -, -, -, -, -, -, kP, -⟩
    · omega
    · simp only [Access.address] at kP
      rw [(flags_of_key kP).2]
      simp [Access.isWrite]
  obtain ⟨J2, o2⟩ := run_noSentinelClash J1 hrun
  have hd2 := run_keeps_dirty J1 hd1 hrun hnw
  obtain ⟨-, hcase⟩ := step_pagetable J2 hr
  rcases hcase with ⟨hpf, -⟩ | ⟨-, -, e, i, v, he, -, hdw, -⟩
  · omega
  · simp only [Access.address, o2, o1, hpage] at he
    have hed : e.diskw = true := by
      unfold VM.dirty at hd2
      rw [he] at hd2
      exact hd2
    rw [hdw]
    simp [hed]

/-- Instance of C8 (amended) on the fresh engine of the configuration (4, 2, 2,
1, round-robin, round-robin): `writeInt(4)` faults page 2 in, `readInt(6)` and
`readInt(0)` fault, the second evicting page 2, and `readInt(4)` faults it back
in: the disk-write counter goes from 1 to 2. -/
theorem refault_read_counts_one_disk_write_witness :
    ∃ s0 s1 s2 s3 : VM, createVM 4 2 2 1 0 0 = .ok s0 ∧
      step s0 (.write 4 1) = some s1 ∧ run s1 [.read 6, .read 0] = some s2 ∧
      step s2 (.read 4) = some s3 ∧ s2.diskwrites = 1 ∧ s3.diskwrites = s2.diskwrites + 1 := by
  obtain ⟨s0, h0⟩ : ∃ s0 : VM, createVM 4 2 2 1 0 0 = .ok s0 := ⟨_, rfl⟩
  have hs := createVM_ok_fields _ _ _ _ _ _ s0 h0
  obtain ⟨s1, h1, h1f, s2, h2, h2n, h2d, s3, h3, h3f⟩ : ∃ s1 : VM,
      step s0 (.write 4 1) = some s1 ∧ s1.pgfault = s0.pgfault + 1 ∧
      ∃ s2 : VM, run s1 [.read 6, .read 0] = some s2 ∧
        NoWriteEvicts (4 >>> s0.offset) s1 [.read 6, .read 0] ∧ s2.diskwrites = 1 ∧
        ∃ s3 : VM, step s2 (.read 4) = some s3 ∧ s3.pgfault = s2.pgfault + 1 := by
    rw [hs]
    exact ⟨_, rfl, rfl, _, rfl, noWriteEvicts_of_reads _ _ (by decide) _, rfl, _, rfl, rfl⟩
  exact ⟨s0, s1, s2, s3, h0, h1, h2, h3, h2d,
    refault_read_counts_one_disk_write 4 2 2 1 0 0 s0 s0 s1 s2 s3 [] _ 4 4 1 h0 (by decide) rfl
      h1 h1f h2 h2n rfl h3 h3f⟩

/-! ## Frame 999 and the sentinel 999 -/

theorem bigMid_length : bigMid.length = 996 := by
  rw [bigMid, List.length_map, List.length_range]

theorem bigTable_zero (e0 : pagetbl_s) (tail : List pagetbl_s) :
    (bigTable e0 tail)[0]? = some e0 := by
  simp only [bigTable, List.getElem?_cons_zero]

theorem bigTable_tail (e0 : pagetbl_s) (tail : List pagetbl_s) (t : Nat) (ht : 997 ≤ t) :
    (bigTable e0 tail)[t]? = tail[t - 997]? := by
  obtain ⟨u, rfl⟩ : ∃ u, t = u + 1 := ⟨t - 1, by omega⟩
  unfold bigTable
  rw [List.getElem?_cons_succ, List.getElem?_append_right (by rw [bigMid_length]; omega),
    bigMid_length]
  have h : u - 996 = u + 1 - 997 := by omega
  rw [h]

theorem bigTable_set_tail (e0 x : pagetbl_s) (tail : List pagetbl_s) (t : Nat) (ht : 997 ≤ t) :
    (bigTable e0 tail).set t x = bigTable e0 (tail.set (t - 997) x) := by
  obtain ⟨u, rfl⟩ : ∃ u, t = u + 1 := ⟨t - 1, by omega⟩
  unfold bigTable
  rw [List.set_cons_succ, List.set_append_right _ _ (by rw [bigMid_length]; omega),
    bigMid_length]
  have h : u - 996 = u + 1 - 997 := by omega
  rw [h]

theorem bigTable_length (e0 : pagetbl_s) (tail : List pagetbl_s) :
    (bigTable e0 tail).length = tail.length + 997 := by
  simp only [bigTable, List.length_cons, List.length_append, bigMid_length]
  omega

theorem bigTable_mid (e0 : pagetbl_s) (tail : List pagetbl_s) (t : Nat) (h1 : 1 ≤ t)
    (h2 : t ≤ 996) :
    (bigTable e0 tail)[t]? =
      some { addr := t, mod := true, pagetimestamp := 0, diskw := false } := by
  obtain ⟨u, rfl⟩ : ∃ u, t = u + 1 := ⟨t - 1, by omega⟩
  have hu : u < 996 := by omega
  unfold bigTable
  rw [List.getElem?_cons_succ, List.getElem?_append_left (by rw [bigMid_length]; exact hu),
    bigMid]
  simp only [List.getElem?_map, List.getElem?_range hu, Option.map_some', initPageEntry]
  have : u + 1 < 1000 := by omega
  simp only [this, if_true]

theorem bigTable_set_zero (e0 x : pagetbl_s) (tail : List pagetbl_s) :
    (bigTable e0 tail).set 0 x = bigTable x tail := by
  simp only [bigTable, List.set_cons_zero]

theorem skip_mid (e0 : pagetbl_s) (tail : List pagetbl_s) (n t : Nat) (h1 : 1 ≤ t)
    (h2 : t ≤ 996) : skipNonResident (bigTable e0 tail) (n + 1) t = some t := by
  rw [skipNonResident, bigTable_mid e0 tail t h1 h2]
  rfl

theorem skip_zero (e0 : pagetbl_s) (tail : List pagetbl_s) (he0 : e0.mod = false) :
    skipNonResident (bigTable e0 tail) ((bigTable e0 tail).length + 1) 0 = some 1 := by
  rw [skipNonResident, bigTable_zero, bigTable_length]
  simp only [he0, Bool.false_eq_true, if_false]
  exact skip_mid e0 tail (tail.length + 996) 1 le_rfl (by omega)

theorem pageScan_mid (e0 : pagetbl_s) (tail : List pagetbl_s) (k j t : Nat) (h1 : 1 ≤ t)
    (h2 : t + j ≤ 996) :
    pageScan (bigTable e0 tail) (k + j) t 1 = pageScan (bigTable e0 tail) k (t + j) 1 := by
  induction j generalizing t with
  | zero => rfl
  | succ j ih =>
    have e : k + (j + 1) = (k + j) + 1 := by omega
    rw [e, pageScan, skip_mid e0 tail _ t h1 (by omega)]
    simp only
    rw [skip_mid e0 tail _ (t + 1) (by omega) (by omega)]
    simp only
    rw [bigTable_mid e0 tail (t + 1) (by omega) (by omega), bigTable_mid e0 tail t h1 (by omega),
      bigTable_mid e0 tail 1 le_rfl (by omega)]
    simp only [gt_iff_lt, lt_irrefl, if_false, if_true]
    have hlt : ¬ (t + 1 < 1) := by omega
    simp only [hlt, if_false]
    rw [ih (t + 1) (by omega) (by omega)]
    have e2 : t + 1 + j = t + (j + 1) := by omega
    rw [e2]

theorem pageScan_start (e0 : pagetbl_s) (tail : List pagetbl_s) (he0 : e0.mod = false) :
    pageScan (bigTable e0 tail) 999 0 1 = pageScan (bigTable e0 tail) 4 996 1 := by
  have key := pageScan_mid e0 tail 4 994 2 (by omega) (by omega)
  simp only [Nat.reduceAdd] at key
  rw [← key]
  have e : (999 : Nat) = 998 + 1 := by norm_num
  rw [e, pageScan, skip_zero e0 tail he0]
  simp only
  rw [skip_mid e0 tail _ 2 (by omega) (by omega)]
  simp only
  rw [bigTable_mid e0 tail 2 (by omega) (by omega), bigTable_mid e0 tail 1 le_rfl (by omega)]
  simp


theorem bigTable_get_997 (e0 a : pagetbl_s) (l : List pagetbl_s) :
    (bigTable e0 (a :: l))[997]? = some a := by
  rw [bigTable_tail e0 _ 997 (by omega)]
  simp only [Nat.reduceSub, List.getElem?_cons_succ, List.getElem?_cons_zero]

theorem bigTable_get_998 (e0 a b : pagetbl_s) (l : List pagetbl_s) :
    (bigTable e0 (a :: b :: l))[998]? = some b := by
  rw [bigTable_tail e0 _ 998 (by omega)]
  simp only [Nat.reduceSub, List.getElem?_cons_succ, List.getElem?_cons_zero]

theorem bigTable_get_999 (e0 a b c : pagetbl_s) (l : List pagetbl_s) :
    (bigTable e0 (a :: b :: c :: l))[999]? = some c := by
  rw [bigTable_tail e0 _ 999 (by omega)]
  simp only [Nat.reduceSub, List.getElem?_cons_succ, List.getElem?_cons_zero]

theorem bigTable_get_1000 (e0 a b c d : pagetbl_s) (l : List pagetbl_s) :
    (bigTable e0 (a :: b :: c :: d :: l))[1000]? = some d := by
  rw [bigTable_tail e0 _ 1000 (by omega)]
  simp only [Nat.reduceSub, List.getElem?_cons_succ, List.getElem?_cons_zero]

theorem bigTable_set_997 (e0 a x : pagetbl_s) (l : List pagetbl_s) :
    (bigTable e0 (a :: l)).set 997 x = bigTable e0 (x :: l) := by
  rw [bigTable_set_tail e0 _ _ 997 (by omega)]
  simp only [Nat.reduceSub, List.set_cons_succ, List.set_cons_zero]

theorem bigTable_set_998 (e0 a b x : pagetbl_s) (l : List pagetbl_s) :
    (bigTable e0 (a :: b :: l)).set 998 x = bigTable e0 (a :: x :: l) := by
  rw [bigTable_set_tail e0 _ _ 998 (by omega)]
  simp only [Nat.reduceSub, List.set_cons_succ, List.set_cons_zero]

theorem bigTable_set_1000 (e0 a b c d x : pagetbl_s) (l : List pagetbl_s) :
    (bigTable e0 (a :: b :: c :: d :: l)).set 1000 x = bigTable e0 (a :: b :: c :: x :: l) := by
  rw [bigTable_set_tail e0 _ _ 1000 (by omega)]
  simp only [Nat.reduceSub, List.set_cons_succ, List.set_cons_zero]

theorem bigTable_get_996 (e0 : pagetbl_s) (tail : List pagetbl_s) :
    (bigTable e0 tail)[996]? = some ⟨996, true, 0, false⟩ :=
  bigTable_mid e0 tail 996 (by omega) (by omega)

theorem bigTable_get_1 (e0 : pagetbl_s) (tail : List pagetbl_s) :
    (bigTable e0 tail)[1]? = some ⟨1, true, 0, false⟩ :=
  bigTable_mid e0 tail 1 (by omega) (by omega)


/-! ### Running the pieces forward -/

theorem pageReplLRU_eq (pagetbl : List pagetbl_s) (n : Nat) (ts : Int) (vpageno t0 low : Nat)
    (e el : pagetbl_s) (he : pagetbl[vpageno]? = some e)
    (ht0 : skipNonResident (pagetbl.set vpageno { e with pagetimestamp := ts })
      ((pagetbl.set vpageno { e with pagetimestamp := ts }).length + 1) 0 = some t0)
    (hscan : pageScan (pagetbl.set vpageno { e with pagetimestamp := ts }) (usub1 n) 0 t0 =
      some low)
    (hel : (pagetbl.set vpageno { e with pagetimestamp := ts })[low]? = some el) :
    pageReplLRU pagetbl n ts vpageno =
      some (pagetbl.set vpageno { e with pagetimestamp := ts }, el.addr) := by
  unfold pageReplLRU
  simp only [he, ht0, hscan, hel]

theorem pageReplSoft_lru_eq {s : VM} {vpageno : Nat} {r : List pagetbl_s × Nat}
    (h0 : s.pageReplAlg_v ≠ 0)
    (h : pageReplLRU s.pagetable s.sizePM_v (s.pgtabletimestamp + 1) vpageno = some r) :
    pageReplSoft s vpageno =
      some { s with
        pgtabletimestamp := s.pgtabletimestamp + 1
        pagetable := r.1
        controltable := { s.controltable with page := r.2 } } := by
  unfold pageReplSoft
  simp only [h0, ne_eq, not_false_eq_true, if_true, h, Option.map_some']

theorem pageReplFault_lru_eq {s : VM} {vpageno pos1 : Nat} {r : List pagetbl_s × Nat}
    (h0 : s.pageReplAlg_v ≠ 0)
    (h : pageReplLRU s.pagetable s.sizePM_v (s.pgtabletimestamp + 1) vpageno = some r) :
    pageReplFault s vpageno pos1 =
      some { s with
        pgtabletimestamp := s.pgtabletimestamp + 1
        pagetable := r.1
        controltable := { s.controltable with page := r.2 } } := by
  unfold pageReplFault
  simp only [h0, ne_eq, not_false_eq_true, if_true, h, Option.map_some']

theorem tlbRepl_rr_eq {s : VM} {pos : Nat} (h0 : s.tlbReplAlg_v = 0) :
    tlbRepl s pos =
      some { s with controltable := { s.controltable with tlb := tlbReplRR s.sizeTLB_v pos } } := by
  unfold tlbRepl
  simp only [h0, ne_eq, not_true_eq_false, if_false]

theorem softMiss_eq {s s1 s2 : VM} {pos vpageno : Nat} {e : pagetbl_s} {t : tlbtbl_s}
    (ht : s.tlbtable[pos]? = some t)
    (h1 : tlbRepl { s with tlbtable := s.tlbtable.set pos { t with paddr := e.addr } } pos =
      some s1)
    (h2 : pageReplSoft s1 vpageno = some s2) : softMiss s pos vpageno e = some s2 := by
  unfold softMiss storeAt
  simp only [ht, bind, Option.some_bind, h1, h2]

theorem writeFault_eq {s s1 s2 : VM} {pos vpageno i : Nat} {e v w : pagetbl_s} {t : tlbtbl_s}
    (ht : s.tlbtable[pos]? = some t)
    (hi : findFrame (s.pagetable.set vpageno { e with mod := true, diskw := true })
      s.controltable.page
      ((s.pagetable.set vpageno { e with mod := true, diskw := true }).length + 1) 0 = some i)
    (hv : (s.pagetable.set vpageno { e with mod := true, diskw := true })[i]? = some v)
    (hw : ((s.pagetable.set vpageno { e with mod := true, diskw := true }).set i
      (evictEntry s.pageReplAlg_v true v))[vpageno]? = some w)
    (h1 : pageReplFault
        { s with
          pgfault := s.pgfault + 1
          diskwrites := s.diskwrites + 1
          pagetable := (((s.pagetable.set vpageno { e with mod := true, diskw := true }).set i
            (evictEntry s.pageReplAlg_v true v))).set vpageno { w with addr := s.controltable.page }
          tlbtable := s.tlbtable.set pos { t with paddr := s.controltable.page } }
        vpageno s.controltable.page = some s1)
    (h2 : tlbRepl s1 pos = some s2) : writeFault s pos vpageno e = some s2 := by
  unfold writeFault storeAt
  simp only [ht, bind, Option.some_bind, hi, hv, hw, h1, h2]

theorem translate_miss_eq {fault : VM → Nat → Nat → pagetbl_s → Option VM} {s : VM}
    {address : Nat} {t : tlbtbl_s} {e : pagetbl_s}
    (hmiss : tlbSearch s.tlbtable (address >>> s.offset) s.sizeTLB_v 0 = some none)
    (ht : s.tlbtable[s.controltable.tlb]? = some t)
    (he : s.pagetable[address >>> s.offset]? = some e) :
    translate fault s address =
      if e.mod then
        softMiss { s with
            tlbmiss := s.tlbmiss + 1
            tlbtable := s.tlbtable.set s.controltable.tlb { t with vaddr := address >>> s.offset } }
          s.controltable.tlb (address >>> s.offset) e
      else
        fault { s with
            tlbmiss := s.tlbmiss + 1
            tlbtable := s.tlbtable.set s.controltable.tlb { t with vaddr := address >>> s.offset } }
          s.controltable.tlb (address >>> s.offset) e := by
  unfold translate storeAt
  simp only [hmiss, ht, he]


/-- One iteration of the page scan on two adjacent resident entries. -/
theorem pageScan_iter (pagetbl : List pagetbl_s) (k g h low : Nat) (eg eh el : pagetbl_s)
    (hgh : h = g + 1) (hg : pagetbl[g]? = some eg) (hgm : eg.mod = true)
    (hh : pagetbl[h]? = some eh) (hhm : eh.mod = true) (hl : pagetbl[low]? = some el) :
    pageScan pagetbl (k + 1) g low =
      pageScan pagetbl k h
        (if eh.pagetimestamp > eg.pagetimestamp then
          if eg.pagetimestamp < el.pagetimestamp then g
          else if eg.pagetimestamp = el.pagetimestamp then (if eg.addr < el.addr then g else low)
          else low
        else if eh.pagetimestamp > el.pagetimestamp then g
        else if eh.pagetimestamp = el.pagetimestamp then (if eh.addr < el.addr then h else low)
        else h) := by
  subst hgh
  rw [pageScan, skipNonResident, hg]
  simp only [hgm, if_true]
  rw [skipNonResident, hh]
  simp only [hhm, if_true, hh, hg, hl]
  split_ifs <;> rfl

theorem big_scan1 :
    pageScan (bigTable ⟨999, false, 0, false⟩
      [⟨997, true, 0, false⟩, ⟨998, true, 0, false⟩, ⟨999, true, 0, false⟩, ⟨0, true, 1, true⟩])
      999 0 1 = some 1 := by
  rw [pageScan_start _ _ rfl,
    pageScan_iter _ 3 996 997 1 _ _ _ rfl (bigTable_get_996 _ _) rfl (bigTable_get_997 _ _ _) rfl
      (bigTable_get_1 _ _)]
  norm_num
  rw [pageScan_iter _ 2 997 998 1 _ _ _ rfl (bigTable_get_997 _ _ _) rfl
      (bigTable_get_998 _ _ _ _) rfl (bigTable_get_1 _ _)]
  norm_num
  rw [pageScan_iter _ 1 998 999 1 _ _ _ rfl (bigTable_get_998 _ _ _ _) rfl
      (bigTable_get_999 _ _ _ _ _) rfl (bigTable_get_1 _ _)]
  norm_num
  rw [pageScan_iter _ 0 999 1000 1 _ _ _ rfl (bigTable_get_999 _ _ _ _ _) rfl
      (bigTable_get_1000 _ _ _ _ _ _) rfl (bigTable_get_1 _ _)]
  norm_num
  rfl


theorem big_lru1 :
    pageReplLRU (bigTable ⟨999, false, 0, false⟩
      [⟨997, true, 0, false⟩, ⟨998, true, 0, false⟩, ⟨999, true, 0, false⟩, ⟨0, true, 0, true⟩])
      1000 1 1000 =
    some (bigTable ⟨999, false, 0, false⟩
      [⟨997, true, 0, false⟩, ⟨998, true, 0, false⟩, ⟨999, true, 0, false⟩, ⟨0, true, 1, true⟩],
      1) := by
  have hset : (bigTable ⟨999, false, 0, false⟩
      [⟨997, true, 0, false⟩, ⟨998, true, 0, false⟩, ⟨999, true, 0, false⟩,
        ⟨0, true, 0, true⟩]).set 1000 ⟨0, true, 1, true⟩ =
      bigTable ⟨999, false, 0, false⟩
      [⟨997, true, 0, false⟩, ⟨998, true, 0, false⟩, ⟨999, true, 0, false⟩, ⟨0, true, 1, true⟩] :=
    bigTable_set_1000 _ _ _ _ _ _ _
  have h := pageReplLRU_eq _ 1000 1 1000 1 1 ⟨0, true, 0, true⟩ ⟨1, true, 0, false⟩
    (bigTable_get_1000 ⟨999, false, 0, false⟩ ⟨997, true, 0, false⟩ ⟨998, true, 0, false⟩
      ⟨999, true, 0, false⟩ ⟨0, true, 0, true⟩ [])
    (by rw [hset]; exact skip_zero _ _ rfl)
    (by rw [hset]; exact big_scan1)
    (by rw [hset]; exact bigTable_get_1 _ _)
  rw [hset] at h
  exact h


theorem findFrame_zero (e0 : pagetbl_s) (tail : List pagetbl_s) (x n : Nat) (h : e0.addr = x) :
    findFrame (bigTable e0 tail) x (n + 1) 0 = some 0 := by
  rw [findFrame, bigTable_zero]
  simp only [h, if_true]

/-- A faulting writeInt on a state of the family `bigState`, from the results of
its victim search and of its LRU block. -/
theorem bigState_write_fault (e0 : pagetbl_s) (tail : List pagetbl_s) (tlb : tlbtbl_s)
    (page : Nat) (pf tm dw pts : Int) (data : List Int) (A : Nat) (V x : Int)
    (e v w : pagetbl_s) (i : Nat) (e1 : pagetbl_s) (tail1 : List pagetbl_s) (page1 : Nat)
    (htlb : tlb.vaddr ≠ A) (he : (bigTable e0 tail)[A]? = some e) (hm : e.mod = false)
    (hd : data[A]? = some x)
    (hi : findFrame ((bigTable e0 tail).set A { e with mod := true, diskw := true }) page
      (((bigTable e0 tail).set A { e with mod := true, diskw := true }).length + 1) 0 = some i)
    (hv : ((bigTable e0 tail).set A { e with mod := true, diskw := true })[i]? = some v)
    (hw : (((bigTable e0 tail).set A { e with mod := true, diskw := true }).set i
      (evictEntry 1 true v))[A]? = some w)
    (hr : pageReplLRU
      ((((bigTable e0 tail).set A { e with mod := true, diskw := true }).set i
        (evictEntry 1 true v)).set A { w with addr := page }) 1000 (pts + 1) A =
      some (bigTable e1 tail1, page1)) :
    step (bigState e0 tail tlb page pf tm dw pts data) (.write A V) =
      some (bigState e1 tail1 { vaddr := A, paddr := page, tlbtimestamp := tlb.tlbtimestamp }
          page1 (pf + 1) (tm + 1) (dw + 1) (pts + 1) (data.set A V)) := by
  have htr : translate writeFault (bigState e0 tail tlb page pf tm dw pts data) A =
      some (bigState e1 tail1 { vaddr := A, paddr := page, tlbtimestamp := tlb.tlbtimestamp }
          page1 (pf + 1) (tm + 1) (dw + 1) (pts + 1) data) := by
    rw [translate_miss_eq (t := tlb) (e := e)
      (by simp [bigState, tlbSearch, htlb]) (by simp [bigState])
      (by simpa [bigState] using he)]
    simp only [hm, Bool.false_eq_true, if_false]
    refine writeFault_eq (t := { tlb with vaddr := A }) (i := i) (v := v) (w := w)
      (by simp [bigState]) (by simpa [bigState] using hi) (by simpa [bigState] using hv)
      (by simpa [bigState] using hw)
      (pageReplFault_lru_eq (r := (bigTable e1 tail1, page1)) (by simp [bigState]) ?_) ?_
    · simpa [bigState] using hr
    · rw [tlbRepl_rr_eq (by simp [bigState])]
      simp [bigState, tlbReplRR, usub1]
  simp only [step, writeInt, htr, Option.some_bind, putInt]
  simp [bigState, hd]

/-- A soft-missing readInt on a state of the family `bigState`, from the result
of its LRU block. -/
theorem bigState_read_soft (e0 : pagetbl_s) (tail : List pagetbl_s) (tlb : tlbtbl_s)
    (page : Nat) (pf tm dw pts : Int) (data : List Int) (A : Nat) (x : Int)
    (e : pagetbl_s) (e1 : pagetbl_s) (tail1 : List pagetbl_s) (page1 : Nat)
    (htlb : tlb.vaddr ≠ A) (he : (bigTable e0 tail)[A]? = some e) (hm : e.mod = true)
    (hd : data[A]? = some x)
    (hr : pageReplLRU (bigTable e0 tail) 1000 (pts + 1) A = some (bigTable e1 tail1, page1)) :
    step (bigState e0 tail tlb page pf tm dw pts data) (.read A) =
      some (bigState e1 tail1 { vaddr := A, paddr := e.addr, tlbtimestamp := tlb.tlbtimestamp }
          page1 pf (tm + 1) dw (pts + 1) data) := by
  have htr : translate readFault (bigState e0 tail tlb page pf tm dw pts data) A =
      some (bigState e1 tail1 { vaddr := A, paddr := e.addr, tlbtimestamp := tlb.tlbtimestamp }
          page1 pf (tm + 1) dw (pts + 1) data) := by
    rw [translate_miss_eq (t := tlb) (e := e)
      (by simp [bigState, tlbSearch, htlb]) (by simp [bigState])
      (by simpa [bigState] using he)]
    simp only [hm, if_true]
    refine softMiss_eq (t := { tlb with vaddr := A }) (by simp [bigState])
      (tlbRepl_rr_eq (by simp [bigState]))
      (by
        rw [pageReplSoft_lru_eq (r := (bigTable e1 tail1, page1)) (by simp [bigState])
          (by simpa [bigState] using hr)]
        simp [bigState, tlbReplRR, usub1])
  simp only [step, readInt, htr, Option.some_bind, retInt]
  simp [bigState, hd]


theorem big_scan2 :
    pageScan (bigTable ⟨999, false, 0, false⟩
      [⟨997, true, 0, false⟩, ⟨998, true, 2, false⟩, ⟨999, true, 0, false⟩, ⟨0, true, 1, true⟩])
      999 0 1 = some 1 := by
  rw [pageScan_start _ _ rfl,
    pageScan_iter _ 3 996 997 1 _ _ _ rfl (bigTable_get_996 _ _) rfl (bigTable_get_997 _ _ _) rfl
      (bigTable_get_1 _ _)]
  norm_num
  rw [pageScan_iter _ 2 997 998 1 _ _ _ rfl (bigTable_get_997 _ _ _) rfl
      (bigTable_get_998 _ _ _ _) rfl (bigTable_get_1 _ _)]
  norm_num
  rw [pageScan_iter _ 1 998 999 1 _ _ _ rfl (bigTable_get_998 _ _ _ _) rfl
      (bigTable_get_999 _ _ _ _ _) rfl (bigTable_get_1 _ _)]
  norm_num
  rw [pageScan_iter _ 0 999 1000 1 _ _ _ rfl (bigTable_get_999 _ _ _ _ _) rfl
      (bigTable_get_1000 _ _ _ _ _ _) rfl (bigTable_get_1 _ _)]
  norm_num
  rfl

theorem big_scan3 (e0 : pagetbl_s) (he0 : e0.mod = false) :
    pageScan (bigTable e0
      [⟨997, true, 3, false⟩, ⟨998, true, 2, false⟩, ⟨999, true, 0, false⟩, ⟨0, true, 1, true⟩])
      999 0 1 = some 999 := by
  rw [pageScan_start _ _ he0,
    pageScan_iter _ 3 996 997 1 _ _ _ rfl (bigTable_get_996 _ _) rfl (bigTable_get_997 _ _ _) rfl
      (bigTable_get_1 _ _)]
  norm_num
  rw [pageScan_iter _ 2 997 998 1 _ _ _ rfl (bigTable_get_997 _ _ _) rfl
      (bigTable_get_998 _ _ _ _) rfl (bigTable_get_1 _ _)]
  norm_num
  rw [pageScan_iter _ 1 998 999 997 _ _ _ rfl (bigTable_get_998 _ _ _ _) rfl
      (bigTable_get_999 _ _ _ _ _) rfl (bigTable_get_997 _ _ _)]
  norm_num
  rw [pageScan_iter _ 0 999 1000 999 _ _ _ rfl (bigTable_get_999 _ _ _ _ _) rfl
      (bigTable_get_1000 _ _ _ _ _ _) rfl (bigTable_get_999 _ _ _ _ _)]
  norm_num
  rfl

theorem big_lru2 :
    pageReplLRU (bigTable ⟨999, false, 0, false⟩
      [⟨997, true, 0, false⟩, ⟨998, true, 0, false⟩, ⟨999, true, 0, false⟩, ⟨0, true, 1, true⟩])
      1000 2 998 =
    some (bigTable ⟨999, false, 0, false⟩
      [⟨997, true, 0, false⟩, ⟨998, true, 2, false⟩, ⟨999, true, 0, false⟩, ⟨0, true, 1, true⟩],
      1) := by
  have hset : (bigTable ⟨999, false, 0, false⟩
      [⟨997, true, 0, false⟩, ⟨998, true, 0, false⟩, ⟨999, true, 0, false⟩,
        ⟨0, true, 1, true⟩]).set 998 ⟨998, true, 2, false⟩ =
      bigTable ⟨999, false, 0, false⟩
      [⟨997, true, 0, false⟩, ⟨998, true, 2, false⟩, ⟨999, true, 0, false⟩, ⟨0, true, 1, true⟩] :=
    bigTable_set_998 _ _ _ _ _
  have h := pageReplLRU_eq _ 1000 2 998 1 1 ⟨998, true, 0, false⟩ ⟨1, true, 0, false⟩
    (bigTable_get_998 _ _ _ _)
    (by rw [hset]; exact skip_zero _ _ rfl)
    (by rw [hset]; exact big_scan2)
    (by rw [hset]; exact bigTable_get_1 _ _)
  rw [hset] at h
  exact h

theorem big_lru3 :
    pageReplLRU (bigTable ⟨999, false, 0, false⟩
      [⟨997, true, 0, false⟩, ⟨998, true, 2, false⟩, ⟨999, true, 0, false⟩, ⟨0, true, 1, true⟩])
      1000 3 997 =
    some (bigTable ⟨999, false, 0, false⟩
      [⟨997, true, 3, false⟩, ⟨998, true, 2, false⟩, ⟨999, true, 0, false⟩, ⟨0, true, 1, true⟩],
      999) := by
  have hset : (bigTable ⟨999, false, 0, false⟩
      [⟨997, true, 0, false⟩, ⟨998, true, 2, false⟩, ⟨999, true, 0, false⟩,
        ⟨0, true, 1, true⟩]).set 997 ⟨997, true, 3, false⟩ =
      bigTable ⟨999, false, 0, false⟩
      [⟨997, true, 3, false⟩, ⟨998, true, 2, false⟩, ⟨999, true, 0, false⟩, ⟨0, true, 1, true⟩] :=
    bigTable_set_997 _ _ _ _
  have h := pageReplLRU_eq _ 1000 3 997 1 999 ⟨997, true, 0, false⟩ ⟨999, true, 0, false⟩
    (bigTable_get_997 _ _ _)
    (by rw [hset]; exact skip_zero _ _ rfl)
    (by rw [hset]; exact big_scan3 _ rfl)
    (by rw [hset]; exact bigTable_get_999 _ _ _ _ _)
  rw [hset] at h
  exact h

theorem big_lru4 :
    pageReplLRU (bigTable ⟨999, false, 0, false⟩
      [⟨997, true, 3, false⟩, ⟨998, true, 2, false⟩, ⟨999, true, 0, false⟩, ⟨0, true, 1, true⟩])
      1000 4 0 =
    some (bigTable ⟨999, false, 4, false⟩
      [⟨997, true, 3, false⟩, ⟨998, true, 2, false⟩, ⟨999, true, 0, false⟩, ⟨0, true, 1, true⟩],
      999) := by
  have hset : (bigTable ⟨999, false, 0, false⟩
      [⟨997, true, 3, false⟩, ⟨998, true, 2, false⟩, ⟨999, true, 0, false⟩,
        ⟨0, true, 1, true⟩]).set 0 ⟨999, false, 4, false⟩ =
      bigTable ⟨999, false, 4, false⟩
      [⟨997, true, 3, false⟩, ⟨998, true, 2, false⟩, ⟨999, true, 0, false⟩, ⟨0, true, 1, true⟩] :=
    bigTable_set_zero _ _ _
  have h := pageReplLRU_eq _ 1000 4 0 1 999 ⟨999, false, 0, false⟩ ⟨999, true, 0, false⟩
    (bigTable_zero _ _)
    (by rw [hset]; exact skip_zero _ _ rfl)
    (by rw [hset]; exact big_scan3 _ rfl)
    (by rw [hset]; exact bigTable_get_999 _ _ _ _ _)
  rw [hset] at h
  exact h


theorem big_step1 (data : List Int) (x : Int) (hd : data[1000]? = some x) :
    step (bigState ⟨0, true, 0, false⟩
        [⟨997, true, 0, false⟩, ⟨998, true, 0, false⟩, ⟨999, true, 0, false⟩,
          ⟨999, false, 0, false⟩] ⟨0, 0, 0⟩ 0 0 0 0 0 data)
      (.write 1000 5) =
    some (bigState ⟨999, false, 0, false⟩
        [⟨997, true, 0, false⟩, ⟨998, true, 0, false⟩, ⟨999, true, 0, false⟩,
          ⟨0, true, 1, true⟩] ⟨1000, 0, 0⟩ 1 1 1 1 1 (data.set 1000 5)) :=
  bigState_write_fault _ _ _ 0 0 0 0 0 data 1000 5 x ⟨999, false, 0, false⟩ ⟨0, true, 0, false⟩
    ⟨999, true, 0, true⟩ 0 _ _ 1 (by decide) (bigTable_get_1000 _ _ _ _ _ _) rfl hd
    (by rw [bigTable_set_1000]; exact findFrame_zero _ _ 0 _ rfl)
    (by rw [bigTable_set_1000]; exact bigTable_zero _ _)
    (by rw [bigTable_set_1000, bigTable_set_zero]; exact bigTable_get_1000 _ _ _ _ _ _)
    (by rw [bigTable_set_1000, bigTable_set_zero, bigTable_set_1000]; exact big_lru1)

theorem big_step2 (data : List Int) (x : Int) (hd : data[998]? = some x) :
    step (bigState ⟨999, false, 0, false⟩
        [⟨997, true, 0, false⟩, ⟨998, true, 0, false⟩, ⟨999, true, 0, false⟩,
          ⟨0, true, 1, true⟩] ⟨1000, 0, 0⟩ 1 1 1 1 1 data)
      (.read 998) =
    some (bigState ⟨999, false, 0, false⟩
        [⟨997, true, 0, false⟩, ⟨998, true, 2, false⟩, ⟨999, true, 0, false⟩,
          ⟨0, true, 1, true⟩] ⟨998, 998, 0⟩ 1 1 2 1 2 data) :=
  bigState_read_soft _ _ _ 1 1 1 1 1 data 998 x ⟨998, true, 0, false⟩ _ _ 1 (by decide)
    (bigTable_get_998 _ _ _ _) rfl hd big_lru2

theorem big_step3 (data : List Int) (x : Int) (hd : data[997]? = some x) :
    step (bigState ⟨999, false, 0, false⟩
        [⟨997, true, 0, false⟩, ⟨998, true, 2, false⟩, ⟨999, true, 0, false⟩,
          ⟨0, true, 1, true⟩] ⟨998, 998, 0⟩ 1 1 2 1 2 data)
      (.read 997) =
    some (bigState ⟨999, false, 0, false⟩
        [⟨997, true, 3, false⟩, ⟨998, true, 2, false⟩, ⟨999, true, 0, false⟩,
          ⟨0, true, 1, true⟩] ⟨997, 997, 0⟩ 999 1 3 1 3 data) :=
  bigState_read_soft _ _ _ 1 1 2 1 2 data 997 x ⟨997, true, 0, false⟩ _ _ 999 (by decide)
    (bigTable_get_997 _ _ _) rfl hd big_lru3

theorem big_step4 (data : List Int) (x : Int) (hd : data[0]? = some x) :
    step (bigState ⟨999, false, 0, false⟩
        [⟨997, true, 3, false⟩, ⟨998, true, 2, false⟩, ⟨999, true, 0, false⟩,
          ⟨0, true, 1, true⟩] ⟨997, 997, 0⟩ 999 1 3 1 3 data)
      (.write 0 7) =
    some (bigState ⟨999, false, 4, false⟩
        [⟨997, true, 3, false⟩, ⟨998, true, 2, false⟩, ⟨999, true, 0, false⟩,
          ⟨0, true, 1, true⟩] ⟨0, 999, 0⟩ 999 2 4 2 4 (data.set 0 7)) :=
  bigState_write_fault _ _ _ 999 1 3 1 3 data 0 7 x ⟨999, false, 0, false⟩ ⟨999, true, 0, true⟩
    ⟨999, false, 0, false⟩ 0 _ _ 999 (by decide) (bigTable_zero _ _) rfl hd
    (by rw [bigTable_set_zero]; exact findFrame_zero _ _ 999 _ rfl)
    (by rw [bigTable_set_zero]; exact bigTable_zero _ _)
    (by rw [bigTable_set_zero, bigTable_set_zero]; exact bigTable_zero _ _)
    (by rw [bigTable_set_zero, bigTable_set_zero, bigTable_set_zero]; exact big_lru4)


theorem big_fresh_table :
    (List.range 1001).map (initPageEntry 1000) =
      bigTable ⟨0, true, 0, false⟩
        [⟨997, true, 0, false⟩, ⟨998, true, 0, false⟩, ⟨999, true, 0, false⟩,
          ⟨999, false, 0, false⟩] := by
  have h1 : List.range 1001 = List.range 997 ++ [997, 998, 999, 1000] := by
    have h := List.range_add 997 4
    simp only [Nat.reduceAdd] at h
    rw [h]
    rfl
  have h2 : List.range 997 = 0 :: (List.range 996).map Nat.succ := by
    have h := List.range_succ_eq_map 996
    simp only [Nat.reduceAdd] at h
    exact h
  rw [h1, h2, bigTable, bigMid]
  simp only [List.map_append, List.map_cons, List.map_map, List.map_nil, List.cons_append]
  simp [initPageEntry, Function.comp_def]

theorem big_fresh :
    createVM 1001000 1000 1 1 1 0 =
      .ok (bigState ⟨0, true, 0, false⟩
        [⟨997, true, 0, false⟩, ⟨998, true, 0, false⟩, ⟨999, true, 0, false⟩,
          ⟨999, false, 0, false⟩] ⟨0, 0, 0⟩ 0 0 0 0 0 (List.replicate 1001000 0)) := by
  obtain ⟨s, hs⟩ : ∃ s : VM, createVM 1001000 1000 1 1 1 0 = .ok s := ⟨_, rfl⟩
  have hf := createVM_ok_fields _ _ _ _ _ _ s hs
  rw [hs, hf]
  simp only [Nat.reduceMul, Nat.reducePow, Nat.reduceMod, Nat.reduceDiv, big_fresh_table,
    bigState]
  rfl

/-- C7 under the hypothesis that excludes the defect: from a state without
sentinel clash (as on every engine created with at most 999 frames), a writeInt
that misses the TLB on a non-resident page counts one page fault and one disk
write and leaves the page resident and dirty. -/
theorem write_fault_without_clash {s s1 : VM} {A : Nat} {V : Int} (hJ : NoSentinelClash s)
    (h : step s (.write A V) = some s1)
    (hmiss : tlbSearch s.tlbtable (A >>> s.offset) s.sizeTLB_v 0 = some none)
    (hnr : s.resident (A >>> s.offset) = false) :
    s1.pgfault = s.pgfault + 1 ∧ s1.diskwrites = s.diskwrites + 1 ∧
      s1.resident (A >>> s.offset) = true ∧ s1.dirty (A >>> s.offset) = true := by
  have hpf : s1.pgfault = s.pgfault + 1 := by
    rcases step_stats h with ⟨⟨i, hi⟩, -⟩ | ⟨-, e, he, ⟨hm, -⟩ | ⟨-, hpf, -⟩⟩
    · simp only [Access.address] at hi
      rw [hmiss] at hi
      cases hi
    · simp only [Access.address] at he
      unfold VM.resident at hnr
      simp only [he, hm] at hnr
      cases hnr
    · exact hpf
  rcases (step_pagetable hJ h).2 with ⟨hc, -⟩ | ⟨-, -, e, i, v, -, -, hdw, -, -, -, -, kP, -⟩
  · omega
  · simp only [Access.address, Access.isWrite, Bool.true_or, if_true] at hdw kP
    exact ⟨hpf, hdw, (flags_of_key kP).1, (flags_of_key kP).2⟩

theorem run_cons_some {s s1 : VM} {a : Access} {tr : List Access} (h : step s a = some s1) :
    run s (a :: tr) = run s1 tr := by
  rw [run, h, Option.some_bind]

theorem bigState_tlb_miss (e0 : pagetbl_s) (tail : List pagetbl_s) (tlb : tlbtbl_s)
    (page : Nat) (pf tm dw pts : Int) (data : List Int) (A : Nat) (htlb : tlb.vaddr ≠ A) :
    tlbSearch (bigState e0 tail tlb page pf tm dw pts data).tlbtable
      (A >>> (bigState e0 tail tlb page pf tm dw pts data).offset)
      (bigState e0 tail tlb page pf tm dw pts data).sizeTLB_v 0 = some none := by
  simp [bigState, tlbSearch, htlb]

theorem bigState_resident (e0 : pagetbl_s) (tail : List pagetbl_s) (tlb : tlbtbl_s)
    (page : Nat) (pf tm dw pts : Int) (data : List Int) :
    (bigState e0 tail tlb page pf tm dw pts data).resident 0 = e0.mod := by
  simp only [VM.resident, bigState, bigTable_zero]

theorem bigState_dirty (e0 : pagetbl_s) (tail : List pagetbl_s) (tlb : tlbtbl_s)
    (page : Nat) (pf tm dw pts : Int) (data : List Int) :
    (bigState e0 tail tlb page pf tm dw pts data).dirty 0 = e0.diskw := by
  simp only [VM.dirty, bigState, bigTable_zero]

theorem bigState_stats (e0 : pagetbl_s) (tail : List pagetbl_s) (tlb : tlbtbl_s)
    (page : Nat) (pf tm dw pts : Int) (data : List Int) :
    (bigState e0 tail tlb page pf tm dw pts data).pgfault = pf ∧
      (bigState e0 tail tlb page pf tm dw pts data).diskwrites = dw ∧
      (bigState e0 tail tlb page pf tm dw pts data).controltable.page = page :=
  ⟨rfl, rfl, rfl⟩

theorem big_data (k : Nat) (hk : k < 1000) :
    ((List.replicate 1001000 (0 : Int)).set 1000 5)[k]? = some 0 := by
  rw [List.getElem?_set_ne (by omega), List.getElem?_replicate, if_pos (by omega)]

theorem big_run3 :
    run (bigState ⟨0, true, 0, false⟩
        [⟨997, true, 0, false⟩, ⟨998, true, 0, false⟩, ⟨999, true, 0, false⟩,
          ⟨999, false, 0, false⟩] ⟨0, 0, 0⟩ 0 0 0 0 0 (List.replicate 1001000 0))
      [.write 1000 5, .read 998, .read 997] =
    some (bigState ⟨999, false, 0, false⟩
        [⟨997, true, 3, false⟩, ⟨998, true, 2, false⟩, ⟨999, true, 0, false⟩,
          ⟨0, true, 1, true⟩] ⟨997, 997, 0⟩ 999 1 3 1 3
        ((List.replicate 1001000 0).set 1000 5)) := by
  have d0 : (List.replicate 1001000 (0 : Int))[1000]? = some 0 := by
    rw [List.getElem?_replicate, if_pos (by omega)]
  rw [run_cons_some (big_step1 _ 0 d0), run_cons_some (big_step2 _ 0 (big_data 998 (by omega))),
    run_cons_some (big_step3 _ 0 (big_data 997 (by omega))), run]

/-- C7, evaluation at the failing input. On the engine of the configuration
(1001000, 1000, 1, 1, LRU, round-robin), whose frame 999 is a real frame, after
`writeInt(1000, 5)`, `readInt(998)` and `readInt(997)` the page victim pointer is
999 and page 0, evicted by the first call, is non-resident and absent from the
TLB. `writeInt(0, 7)` then counts one page fault and one disk write, but its
victim search for frame 999 stops on entry 0 itself, whose frame field holds the
sentinel 999: the entry just marked resident and dirty is evicted again, and
after the call page 0 is neither resident nor dirty. -/
theorem write_fault_evicts_faulting_page :
    ∃ s0 s3 s4 : VM, createVM 1001000 1000 1 1 1 0 = .ok s0 ∧
      run s0 [.write 1000 5, .read 998, .read 997] = some s3 ∧
      tlbSearch s3.tlbtable (0 >>> s3.offset) s3.sizeTLB_v 0 = some none ∧
      s3.resident 0 = false ∧ s3.controltable.page = 999 ∧
      step s3 (.write 0 7) = some s4 ∧
      s4.pgfault = s3.pgfault + 1 ∧ s4.diskwrites = s3.diskwrites + 1 ∧
      s4.resident 0 = false ∧ s4.dirty 0 = false := by
  refine ⟨_, _, _, big_fresh, big_run3, bigState_tlb_miss _ _ _ _ _ _ _ _ _ 0 (by decide),
    bigState_resident _ _ _ _ _ _ _ _ _, (bigState_stats _ _ _ _ _ _ _ _ _).2.2,
    big_step4 _ 0 (big_data 0 (by omega)), ?_, ?_, bigState_resident _ _ _ _ _ _ _ _ _,
    bigState_dirty _ _ _ _ _ _ _ _ _⟩
  · rw [(bigState_stats _ _ _ _ _ _ _ _ _).1, (bigState_stats _ _ _ _ _ _ _ _ _).1]
    norm_num
  · rw [(bigState_stats _ _ _ _ _ _ _ _ _).2.1, (bigState_stats _ _ _ _ _ _ _ _ _).2.1]
    norm_num
/-! ## The two scenarios, the size check and the page-table size -/

/-- C11, counterexample. On the engine created with 4 virtual pages, 2 frames,
page size 1, a TLB of 2 slots and both policies round-robin, `writeInt(0,10)`
and `writeInt(1,20)` hit the TLB, seeded with the pages 0 and 1: after them no
TLB miss is counted, and the page table has 2 entries, none for page 2. The
three calls do not end with 1 page fault, 1 disk write and 3 TLB misses. -/
theorem scenario_round_robin_counterexample :
    ∃ s0 s2 : VM, createVM 4 2 1 2 0 0 = .ok s0 ∧
      run s0 [.write 0 10, .write 1 20] = some s2 ∧ s2.tlbmiss = 0 ∧
      s2.pagetable.length = 2 ∧
      ¬ ∃ s3 : VM, run s0 [.write 0 10, .write 1 20, .write 2 30] = some s3 ∧
        s3.pgfault = 1 ∧ s3.diskwrites = 1 ∧ s3.tlbmiss = 3 :=
  ⟨_, _, rfl, rfl, rfl, rfl, fun h => by
    obtain ⟨s3, h3, -⟩ := h
    cases h3⟩

/-- C11, amended. With 4 virtual pages, 2 frames, page size 1, a TLB of 2 slots
and both policies round-robin, `writeInt(0,10)` and `writeInt(1,20)` are TLB
hits and leave the three counters at 0, and `writeInt(2,30)` then misses the
TLB. With page size 2, where page 2 has a page-table entry, the writes to the
pages 0, 1, 2 (`writeInt(0,10)`, `writeInt(2,20)`, `writeInt(4,30)`) end with 1
page fault, 1 TLB miss and 1 disk write. -/
theorem scenario_round_robin_counters :
    (∃ s0 s2 : VM, createVM 4 2 1 2 0 0 = .ok s0 ∧
      run s0 [.write 0 10, .write 1 20] = some s2 ∧ s2.stats = (0, 0, 0) ∧
      tlbSearch s2.tlbtable (2 >>> s2.offset) s2.sizeTLB_v 0 = some none) ∧
    (∃ s0 s3 : VM, createVM 4 2 2 2 0 0 = .ok s0 ∧
      run s0 [.write 0 10, .write 2 20, .write 4 30] = some s3 ∧ s3.stats = (1, 1, 1)) :=
  ⟨⟨_, _, rfl, rfl, rfl, rfl⟩, ⟨_, _, rfl, rfl, rfl⟩⟩

/-- C12, counterexample. On the engine created with 4 virtual pages, 2 frames,
page size 1, a TLB of 2 slots and both policies LRU, `readInt(0)`, `readInt(1)`,
`readInt(0)` leave the page victim pointer at frame 0, the frame of virtual
page 0, and `writeInt(2,99)` does not return a state in which a page fault was
counted and page 1 is non-resident. -/
theorem scenario_lru_counterexample :
    ∃ s0 s3 : VM, createVM 4 2 1 2 1 1 = .ok s0 ∧
      run s0 [.read 0, .read 1, .read 0] = some s3 ∧
      s3.controltable.page = 0 ∧ s3.pagetable[0]? = some ⟨0, true, 0, false⟩ ∧
      s3.pagetable.length = 2 ∧
      ¬ ∃ s4 : VM, step s3 (.write 2 99) = some s4 ∧ s4.pgfault = s3.pgfault + 1 ∧
        s4.resident 1 = false :=
  ⟨_, _, rfl, rfl, rfl, rfl, rfl, fun h => by
    obtain ⟨s4, h4, -⟩ := h
    cases h4⟩

/-- C12, amended. With both policies LRU, 4 virtual pages, 2 frames, a TLB of 2
slots and page size 1, `readInt(0)`, `readInt(1)`, `readInt(0)` are TLB hits:
they count nothing and leave the page table and the page victim pointer as
created, so the victim of the next page fault is frame 0, held by virtual page
0. With page size 2, where page 2 has a page-table entry, after `readInt(0)`,
`readInt(2)`, `readInt(0)` the call `writeInt(4,99)` on page 2 counts a page
fault and evicts virtual page 0; page 1 stays resident and the next access to
page 1 counts no page fault. -/
theorem scenario_lru_evicts_page_zero :
    (∃ s0 s3 : VM, createVM 4 2 1 2 1 1 = .ok s0 ∧
      run s0 [.read 0, .read 1, .read 0] = some s3 ∧ s3.stats = (0, 0, 0) ∧
      s3.pagetable = s0.pagetable ∧ s3.controltable.page = 0 ∧
      s3.pagetable[0]? = some ⟨0, true, 0, false⟩) ∧
    (∃ s0 s3 s4 s5 : VM, createVM 4 2 2 2 1 1 = .ok s0 ∧
      run s0 [.read 0, .read 2, .read 0] = some s3 ∧
      step s3 (.write 4 99) = some s4 ∧ s4.pgfault = s3.pgfault + 1 ∧
      s4.resident 2 = true ∧ s4.resident 0 = false ∧ s4.resident 1 = true ∧
      step s4 (.read 2) = some s5 ∧ s5.pgfault = s4.pgfault) :=
  ⟨⟨_, _, rfl, rfl, rfl, rfl, rfl, rfl⟩, ⟨_, _, _, _, rfl, rfl, rfl, rfl, rfl, rfl, rfl, rfl, rfl⟩⟩

/-- C13, evaluation at the failing input. `createVM(2147483650, 1, 2, 1, 0, 0)`
returns an engine although the product of the virtual size and the page size,
`2 ^ 32 + 4`, exceeds `2 ^ 32`: the check runs on the wrapped product 4, and
the backing store has 4 slots. In the other direction
`createVM(1073741825, 1, 1, 1, 0, 0)` fails with the size error although the
product is below `2 ^ 32`. -/
theorem size_check_on_wrapped_product :
    (∃ s : VM, createVM 2147483650 1 2 1 0 0 = .ok s ∧ s.data.length = 4 ∧
      2147483650 * 2 > 2 ^ 32) ∧
    createVM 1073741825 1 1 1 0 0 = .error .vmTooLarge ∧ 1073741825 * 1 ≤ 2 ^ 32 :=
  ⟨⟨_, rfl, rfl, by norm_num⟩, rfl, by norm_num⟩

/-- C18, evaluation at the failing input. The engine created with 4 virtual
pages, 2 frames and page size 1 has a page table of `4 * 1 / 2 = 2` entries.
The address 2 is in range, its page number is 2, the page table has no entry 2,
and `readInt(2)` and `writeInt(2,30)` read `pagetbl[2]` outside the table. -/
theorem page_lookup_outside_table :
    ∃ s0 : VM, createVM 4 2 1 2 0 0 = .ok s0 ∧ 2 < 4 * 1 ∧ s0.pgtablesize = 4 * 1 / 2 ∧
      s0.pagetable.length = 2 ∧ 2 >>> s0.offset = 2 ∧ s0.pagetable[2 >>> s0.offset]? = none ∧
      step s0 (.read 2) = none ∧ step s0 (.write 2 30) = none :=
  ⟨_, rfl, by norm_num, rfl, rfl, rfl, rfl, rfl, rfl⟩
/-! ## The page-offset width -/

theorem offsetLoop_pow2 (k : Nat) (hk : k ≤ 16) : offsetLoop 32 (2 ^ k) 0 = k := by
  interval_cases k <;> rfl

/-- For a page size up to `2 ^ 16` the offset computed by `createVM` is the
base-2 logarithm of the page size, and the page number of an address is its
quotient by the page size. -/
theorem createVM_offset_small (sizeVM sizePM pageSize sizeTLB : Nat)
    (pageReplAlg tlbReplAlg : Int) (s : VM)
    (h : createVM sizeVM sizePM pageSize sizeTLB pageReplAlg tlbReplAlg = .ok s)
    (hp : pageSize ≤ 65536) :
    pageSize = 2 ^ s.offset ∧ ∀ A : Nat, A >>> s.offset = A / pageSize := by
  obtain ⟨-, -, ⟨k, hk⟩, -⟩ := createVM_ok_valid _ _ _ _ _ _ s h
  have hs := createVM_ok_fields _ _ _ _ _ _ s h
  have hk16 : k ≤ 16 := by
    by_contra hc
    have h17 : 17 ≤ k := by omega
    have : 2 ^ 17 ≤ 2 ^ k := Nat.pow_le_pow_right (by norm_num) h17
    omega
  have ho : s.offset = k := by
    rw [hs, hk]
    exact offsetLoop_pow2 k hk16
  rw [ho, hk]
  exact ⟨rfl, fun A => Nat.shiftRight_eq_div_pow A k⟩

/-- C16, evaluation at the failing input. `createVM(1, 1, 131072, 1, 0, 0)`
returns an engine whose page size is `2 ^ 17` and whose offset is 0, not 17:
the loop test `((off>>1) & 0xFFFF) > 0` is false at once. The page number the
calls compute for the address 131071 is 131071, not `131071 / 131072 = 0`. -/
theorem offset_zero_for_large_page :
    ∃ s : VM, createVM 1 1 131072 1 0 0 = .ok s ∧ 131072 = 2 ^ 17 ∧ s.offset = 0 ∧
      131071 >>> s.offset = 131071 ∧ 131071 / 131072 = 0 := by
  obtain ⟨s, hs⟩ : ∃ s : VM, createVM 1 1 131072 1 0 0 = .ok s := ⟨_, rfl⟩
  have hf := createVM_ok_fields _ _ _ _ _ _ s hs
  have ho : s.offset = 0 := by
    rw [hf]
    rfl
  refine ⟨s, hs, by norm_num, ho, ?_, by norm_num⟩
  rw [ho]
  rfl
/-! ## The LRU scan of the TLB -/

theorem tlbScan_firstMin (tlbtbl : List tlbtbl_s) (k t low : Nat)
    (hlen : t + k < tlbtbl.length) (hinv : IsLruSlot tlbtbl (t + 1) low) :
    ∃ r : Nat, tlbScan tlbtbl k t low = some r ∧ IsLruSlot tlbtbl (t + k + 1) r := by
  induction k generalizing t low with
  | zero => exact ⟨low, rfl, hinv⟩
  | succ k ih =>
    obtain ⟨hlt, el, hel, hmin⟩ := hinv
    obtain ⟨a, ha⟩ : ∃ a : tlbtbl_s, tlbtbl[t + 1]? = some a :=
      ⟨_, List.getElem?_eq_getElem (by omega)⟩
    obtain ⟨b, hb⟩ : ∃ b : tlbtbl_s, tlbtbl[t]? = some b :=
      ⟨_, List.getElem?_eq_getElem (by omega)⟩
    have hbmin := (hmin t b (by omega) hb).1
    have e : t + (k + 1) + 1 = t + 1 + k + 1 := by omega
    have keep : a.tlbtimestamp ≥ el.tlbtimestamp → IsLruSlot tlbtbl (t + 1 + 1) low := by
      intro hge
      refine ⟨by omega, el, hel, fun j ej hj hej => ?_⟩
      by_cases hjt : j < t + 1
      · exact hmin j ej hjt hej
      · have hj1 : j = t + 1 := by omega
        subst hj1
        rw [ha] at hej
        cases hej
        exact ⟨hge, fun hc => by omega⟩
    simp only [tlbScan, ha, hb, hel]
    rw [e]
    by_cases h1 : a.tlbtimestamp > b.tlbtimestamp
    · rw [if_pos h1]
      exact ih (t + 1) low (by omega) (keep (by omega))
    · rw [if_neg h1]
      by_cases h2 : a.tlbtimestamp > el.tlbtimestamp
      · rw [if_pos h2]
        exact ih (t + 1) low (by omega) (keep (by omega))
      · rw [if_neg h2]
        by_cases h3 : a.tlbtimestamp = el.tlbtimestamp
        · rw [if_pos h3]
          exact ih (t + 1) low (by omega) (keep (by omega))
        · rw [if_neg h3]
          refine ih (t + 1) (t + 1) (by omega) ⟨by omega, a, ha, fun j ej hj hej => ?_⟩
          by_cases hjt : j < t + 1
          · have := (hmin j ej hjt hej).1
            exact ⟨by omega, fun _ => by omega⟩
          · have hj1 : j = t + 1 := by omega
            subst hj1
            rw [ha] at hej
            cases hej
            exact ⟨le_refl _, fun hc => by omega⟩

theorem isLruSlot_one {tlbtbl : List tlbtbl_s} (h : 1 ≤ tlbtbl.length) :
    IsLruSlot tlbtbl (0 + 1) 0 := by
  obtain ⟨a, ha⟩ : ∃ a : tlbtbl_s, tlbtbl[0]? = some a :=
    ⟨_, List.getElem?_eq_getElem (by omega)⟩
  refine ⟨by omega, a, ha, fun j ej hj hej => ?_⟩
  have hj0 : j = 0 := by omega
  subst hj0
  rw [ha] at hej
  cases hej
  exact ⟨le_refl _, fun hc => by omega⟩

theorem usub1_pos {n : Nat} (h : 1 ≤ n) : usub1 n = n - 1 := by
  unfold usub1
  rw [if_neg (by omega)]

theorem tlbReplLRU_firstMin {tlbtbl : List tlbtbl_s} {n : Nat} (ts : Int) {i : Nat}
    (hn : tlbtbl.length = n) (hi : i < n) :
    ∃ (e : tlbtbl_s) (low : Nat), tlbtbl[i]? = some e ∧
      tlbReplLRU tlbtbl n ts i = some (tlbtbl.set i { e with tlbtimestamp := ts }, low) ∧
      IsLruSlot (tlbtbl.set i { e with tlbtimestamp := ts }) n low := by
  obtain ⟨e, he⟩ : ∃ e : tlbtbl_s, tlbtbl[i]? = some e :=
    ⟨_, List.getElem?_eq_getElem (by omega)⟩
  have hlen : (tlbtbl.set i { e with tlbtimestamp := ts }).length = n := by
    rw [List.length_set, hn]
  obtain ⟨r, hr, hmin⟩ := tlbScan_firstMin (tlbtbl.set i { e with tlbtimestamp := ts })
    (n - 1) 0 0 (by omega) (isLruSlot_one (by omega))
  have e1 : 0 + (n - 1) + 1 = n := by omega
  rw [e1] at hmin
  refine ⟨e, r, he, ?_, hmin⟩
  simp only [tlbReplLRU, he, usub1_pos (show 1 ≤ n by omega), hr]

theorem step_tlb_lru {s s1 : VM} {a : Access} (hl : s.tlbReplAlg_v ≠ 0)
    (h : step s a = some s1) :
    s1.tlbtable.length = s.tlbtable.length ∧
      tlbScan s1.tlbtable (usub1 s.sizeTLB_v) 0 0 = some s1.controltable.tlb := by
  obtain ⟨s2, h1, h2, -⟩ := step_some h
  have e1 : s1.tlbtable = s2.tlbtable := by rw [h2]
  have e2 : s1.controltable = s2.controltable := by rw [h2]
  rw [e1, e2]
  rcases translate_some h1 with ⟨i, hi, h3⟩ | ⟨hmiss, -⟩
  · rcases tlbHit_tlb h3 with ⟨hc, -⟩ | ⟨-, e, -, a1, a2⟩
    · exact absurd hc hl
    · exact ⟨by rw [a1, List.length_set], a2⟩
  · obtain ⟨t, e, -, -, a1, -, a2⟩ := translate_miss_tlb a.fault_cases h1 hmiss
    exact ⟨by rw [a1, List.length_set], a2 hl⟩

/-- C14. The scan of the "TLB table replacement in LRU" block, run over a TLB of
`N ≥ 1` slots with arbitrary timestamps, returns the smallest slot index whose
timestamp is the minimum over the `N` slots; and under the LRU TLB policy the
TLB victim pointer stored by a call (hit, soft miss or hard fault) is that slot
of the TLB the call leaves. -/
theorem tlb_lru_pointer_is_first_minimum :
    (∀ tlbtbl : List tlbtbl_s, 1 ≤ tlbtbl.length →
      ∃ low : Nat, tlbScan tlbtbl (usub1 tlbtbl.length) 0 0 = some low ∧
        IsLruSlot tlbtbl tlbtbl.length low) ∧
    (∀ (s s1 : VM) (a : Access), s.tlbReplAlg_v ≠ 0 → s.tlbtable.length = s.sizeTLB_v →
      1 ≤ s.sizeTLB_v → step s a = some s1 →
      IsLruSlot s1.tlbtable s1.sizeTLB_v s1.controltable.tlb) := by
  have main : ∀ tlbtbl : List tlbtbl_s, 1 ≤ tlbtbl.length →
      ∃ low : Nat, tlbScan tlbtbl (usub1 tlbtbl.length) 0 0 = some low ∧
        IsLruSlot tlbtbl tlbtbl.length low := by
    intro tlbtbl hN
    obtain ⟨r, hr, hmin⟩ := tlbScan_firstMin tlbtbl (tlbtbl.length - 1) 0 0
      (by omega) (isLruSlot_one hN)
    have e1 : 0 + (tlbtbl.length - 1) + 1 = tlbtbl.length := by omega
    rw [e1] at hmin
    exact ⟨r, by rw [usub1_pos hN]; exact hr, hmin⟩
  refine ⟨main, fun s s1 a hl hn hN h => ?_⟩
  obtain ⟨a1, a2⟩ := step_tlb_lru hl h
  have hsz : s1.sizeTLB_v = s.sizeTLB_v := (step_static h).2.2.1
  have hlen : s1.tlbtable.length = s.sizeTLB_v := by rw [a1, hn]
  obtain ⟨low, b1, b2⟩ := main s1.tlbtable (by omega)
  rw [hlen, a2] at b1
  injection b1 with b1
  rw [hsz, b1, ← hlen]
  exact b2

theorem tlb_lru_pointer_is_first_minimum_witness :
    (∃ low : Nat, tlbScan [⟨0, 0, 5⟩, ⟨1, 1, 2⟩, ⟨2, 2, 7⟩, ⟨3, 3, 2⟩] (usub1 4) 0 0 = some low ∧
        IsLruSlot [⟨0, 0, 5⟩, ⟨1, 1, 2⟩, ⟨2, 2, 7⟩, ⟨3, 3, 2⟩] 4 low) ∧
      tlbScan [⟨0, 0, 5⟩, ⟨1, 1, 2⟩, ⟨2, 2, 7⟩, ⟨3, 3, 2⟩] (usub1 4) 0 0 = some 1 ∧
      ∃ s0 s1 : VM, createVM 4 2 2 2 1 1 = .ok s0 ∧ step s0 (.read 4) = some s1 ∧
        s1.controltable.tlb = 1 ∧ IsLruSlot s1.tlbtable s1.sizeTLB_v s1.controltable.tlb := by
  obtain ⟨s0, h0⟩ : ∃ s0 : VM, createVM 4 2 2 2 1 1 = .ok s0 := ⟨_, rfl⟩
  have hs := createVM_ok_fields _ _ _ _ _ _ s0 h0
  obtain ⟨s1, h1, h2⟩ : ∃ s1 : VM, step s0 (.read 4) = some s1 ∧ s1.controltable.tlb = 1 := by
    rw [hs]
    exact ⟨_, rfl, rfl⟩
  exact ⟨tlb_lru_pointer_is_first_minimum.1 [⟨0, 0, 5⟩, ⟨1, 1, 2⟩, ⟨2, 2, 7⟩, ⟨3, 3, 2⟩]
      (by decide), rfl, s0, s1, h0, h1, h2,
    tlb_lru_pointer_is_first_minimum.2 s0 s1 (.read 4) (by rw [hs]; decide) (by rw [hs]; rfl)
      (by rw [hs]; decide) h1⟩
/-! ## The TLB hit -/

theorem tlbHit_total {s : VM} {i : Nat} (hn : s.tlbtable.length = s.sizeTLB_v)
    (hi : i < s.sizeTLB_v) : ∃ s1 : VM, tlbHit s i = some s1 := by
  by_cases hl : s.tlbReplAlg_v = 0
  · exact ⟨s, by simp [tlbHit, hl]⟩
  · obtain ⟨e, low, -, h1, -⟩ := tlbReplLRU_firstMin (s.tlbtabletimestamp + 1) hn hi
    have h2 : tlbHit s i = some
        { s with
          tlbtabletimestamp := s.tlbtabletimestamp + 1
          tlbtable := s.tlbtable.set i { e with tlbtimestamp := s.tlbtabletimestamp + 1 }
          controltable := { s.controltable with tlb := low } } := by
      simp only [tlbHit, ne_eq, hl, not_false_eq_true, if_true, h1, Option.map_some']
    exact ⟨_, h2⟩

theorem tlbHit_pairs {s s1 : VM} {i : Nat} (h : tlbHit s i = some s1) :
    s1.tlbtable.map (fun e => (e.vaddr, e.paddr)) =
      s.tlbtable.map (fun e => (e.vaddr, e.paddr)) := by
  rcases tlbHit_tlb h with ⟨-, a1, -⟩ | ⟨-, e, he, a1, -⟩
  · rw [a1]
  · rw [a1, List.map_set]
    exact set_same (by rw [List.getElem?_map, he]; rfl)

theorem step_of_translate {s s2 : VM} {a : Access} (h : translate a.fault s a.address = some s2)
    (hd : s2.data = s.data) (hA : a.address < s.data.length) :
    ∃ s1 : VM, step s a = some s1 ∧ s1 = { s2 with data := s1.data } ∧
      (a.isWrite = false → s1.data = s.data) := by
  have hx : s2.data[a.address]? = some (s.data[a.address]) := by
    rw [hd]
    exact List.getElem?_eq_getElem hA
  cases a with
  | read A =>
    simp only [Access.address, Access.fault] at h hx
    by_cases hf : s2.isfloat = true
    · exact ⟨s2, by simp [step, readInt, h, retInt, hf], rfl, fun _ => hd⟩
    · exact ⟨s2, by simp [step, readInt, h, retInt, hf, hx], rfl, fun _ => hd⟩
  | write A V =>
    simp only [Access.address, Access.fault] at h hx
    by_cases hf : s2.isfloat = true
    · exact ⟨s2, by simp [step, writeInt, h, putInt, hf, hx], rfl, fun hw => by cases hw⟩
    · exact ⟨{ s2 with data := s2.data.set A V },
        by simp [step, writeInt, h, putInt, hf, hx], rfl, fun hw => by cases hw⟩

/-- C15. In a state whose TLB has `sizeTLB_v` slots, a call at an address inside
the backing store whose page number is stored in a TLB slot returns, and leaves
the three counters, the page table, the page victim pointer and the (virtual
page, frame) pair of every TLB slot unchanged; under the round-robin TLB policy
the TLB and the TLB victim pointer are unchanged; and `readInt` leaves the
backing store unchanged. -/
theorem tlb_hit_touches_only_recency (s : VM) (a : Access) (j : Nat) (e : tlbtbl_s)
    (hn : s.tlbtable.length = s.sizeTLB_v) (hA : a.address < s.data.length)
    (hj : j < s.sizeTLB_v) (he : s.tlbtable[j]? = some e)
    (hv : e.vaddr = a.address >>> s.offset) :
    ∃ s1 : VM, step s a = some s1 ∧ s1.stats = s.stats ∧ s1.pagetable = s.pagetable ∧
      s1.controltable.page = s.controltable.page ∧
      s1.tlbtable.map (fun e => (e.vaddr, e.paddr)) =
        s.tlbtable.map (fun e => (e.vaddr, e.paddr)) ∧
      (s.tlbReplAlg_v = 0 → s1.tlbtable = s.tlbtable ∧
        s1.controltable.tlb = s.controltable.tlb) ∧
      (a.isWrite = false → s1.data = s.data) := by
  obtain ⟨i, hi⟩ := tlbSearch_found s.tlbtable (a.address >>> s.offset) j s.sizeTLB_v 0
    (Nat.zero_le _) (by omega)
    (fun m _ hm => ⟨_, List.getElem?_eq_getElem (by omega)⟩) ⟨e, he, hv⟩
  have hi2 := (tlbSearch_some hi).2.1
  obtain ⟨s2, h2⟩ := tlbHit_total hn (show i < s.sizeTLB_v by omega)
  have htr : translate a.fault s a.address = some s2 := by rw [translate_hit_eq hi, h2]
  obtain ⟨b1, b2, b3, b4, -⟩ := tlbHit_static h2
  have hd : s2.data = s.data := by
    simp only [VM.static, Prod.mk.injEq] at b1
    exact b1.1
  obtain ⟨s1, h1, e1, e2⟩ := step_of_translate htr hd hA
  have p1 : s1.stats = s2.stats := by rw [e1]; rfl
  have p2 : s1.pagetable = s2.pagetable := by rw [e1]
  have p3 : s1.controltable = s2.controltable := by rw [e1]
  have p4 : s1.tlbtable = s2.tlbtable := by rw [e1]
  refine ⟨s1, h1, by rw [p1, b2], by rw [p2, b3], by rw [p3, b4], ?_, ?_, e2⟩
  · rw [p4]
    exact tlbHit_pairs h2
  · intro h0
    rcases tlbHit_tlb h2 with ⟨-, a1, a2, -⟩ | ⟨hc, -⟩
    · exact ⟨by rw [p4, a1], by rw [p3, a2]⟩
    · exact absurd h0 hc

theorem tlb_hit_touches_only_recency_witness :
    ∃ s0 s1 : VM, createVM 4 2 2 2 1 1 = .ok s0 ∧ step s0 (.write 2 7) = some s1 ∧
      s1.stats = s0.stats ∧ s1.pagetable = s0.pagetable ∧
      s1.tlbtable = [⟨0, 0, 0⟩, ⟨1, 1, 1⟩] := by
  obtain ⟨s0, h0⟩ : ∃ s0 : VM, createVM 4 2 2 2 1 1 = .ok s0 := ⟨_, rfl⟩
  have hs := createVM_ok_fields _ _ _ _ _ _ s0 h0
  obtain ⟨s1, h1, h2, h3, -⟩ := tlb_hit_touches_only_recency s0 (.write 2 7) 1 ⟨1, 1, 0⟩
    (by rw [hs]; rfl) (by rw [hs]; decide) (by rw [hs]; decide) (by rw [hs]; rfl)
    (by rw [hs]; rfl)
  have h4 : s1.tlbtable = [⟨0, 0, 0⟩, ⟨1, 1, 1⟩] := by
    rw [hs] at h1
    cases h1
    rfl
  exact ⟨s0, s1, h0, h1, h2, h3, h4⟩
/-! ## The loops stay inside the tables -/

theorem tlbSearch_total (tlbtbl : List tlbtbl_s) (v k i : Nat) (h : i + k ≤ tlbtbl.length) :
    ∃ r : Option Nat, tlbSearch tlbtbl v k i = some r := by
  induction k generalizing i with
  | zero => exact ⟨none, rfl⟩
  | succ k ih =>
    obtain ⟨e, he⟩ : ∃ e : tlbtbl_s, tlbtbl[i]? = some e :=
      ⟨_, List.getElem?_eq_getElem (by omega)⟩
    simp only [tlbSearch, he]
    by_cases hv : e.vaddr = v
    · exact ⟨some i, by rw [if_pos hv]⟩
    · rw [if_neg hv]
      exact ih (i + 1) (by omega)

theorem tlbReplRR_lt {n pos : Nat} (hn : 1 ≤ n) : tlbReplRR n pos < n := by
  unfold tlbReplRR
  rw [usub1_pos hn]
  split_ifs <;> omega

theorem pageReplRR_lt {n pos : Nat} (hn : 1 ≤ n) : pageReplRR n pos < n := by
  unfold pageReplRR
  rw [usub1_pos hn]
  split_ifs <;> omega

theorem tlbRepl_total {s : VM} {pos : Nat} (hn : s.tlbtable.length = s.sizeTLB_v)
    (hp : pos < s.sizeTLB_v) :
    ∃ s1 : VM, tlbRepl s pos = some s1 ∧ s1.tlbtable.length = s.sizeTLB_v ∧
      s1.controltable.tlb < s.sizeTLB_v := by
  by_cases hl : s.tlbReplAlg_v = 0
  · exact ⟨_, tlbRepl_rr_eq hl, hn, tlbReplRR_lt (by omega)⟩
  · obtain ⟨e, low, -, h1, h2⟩ := tlbReplLRU_firstMin (s.tlbtabletimestamp + 1) hn hp
    have h3 : tlbRepl s pos = some
        { s with
          tlbtabletimestamp := s.tlbtabletimestamp + 1
          tlbtable := s.tlbtable.set pos { e with tlbtimestamp := s.tlbtabletimestamp + 1 }
          controltable := { s.controltable with tlb := low } } := by
      simp only [tlbRepl, ne_eq, hl, not_false_eq_true, if_true, h1, Option.map_some']
    exact ⟨_, h3, by simp only [List.length_set, hn], h2.1⟩

/-- Replacing one entry of a page table changes the number of resident entries by
the difference of the two resident flags. -/
theorem countP_set_mod (pt : List pagetbl_s) (i : Nat) (x y : pagetbl_s)
    (hx : pt[i]? = some x) :
    (pt.set i y).countP (fun e => e.mod) + (if x.mod then 1 else 0) =
      pt.countP (fun e => e.mod) + (if y.mod then 1 else 0) := by
  induction pt generalizing i with
  | nil => simp at hx
  | cons a l ih =>
    cases i with
    | zero =>
      simp only [List.getElem?_cons_zero, Option.some.injEq] at hx
      subst hx
      simp only [List.set_cons_zero, List.countP_cons]
      omega
    | succ i =>
      simp only [List.getElem?_cons_succ] at hx
      have := ih i hx
      simp only [List.set_cons_succ, List.countP_cons]
      omega

theorem countP_set_toNat (pt : List pagetbl_s) (i : Nat) (x y : pagetbl_s)
    (hx : pt[i]? = some x) :
    (pt.set i y).countP (fun e => e.mod) + x.mod.toNat =
      pt.countP (fun e => e.mod) + y.mod.toNat := by
  have h := countP_set_mod pt i x y hx
  cases hxm : x.mod <;> cases hym : y.mod <;> rw [hxm, hym] at h <;>
    simp only [Bool.toNat_false, Bool.toNat_true, Bool.false_eq_true, if_false, if_true] at h ⊢ <;>
    omega

theorem skipNonResident_total (pt : List pagetbl_s) (k t : Nat)
    (hc : 1 ≤ (pt.drop t).countP (fun e => e.mod)) (hk : pt.length - t < k) :
    ∃ g : Nat, skipNonResident pt k t = some g ∧ t ≤ g ∧ g < pt.length ∧
      (pt.drop (g + 1)).countP (fun e => e.mod) + 1 = (pt.drop t).countP (fun e => e.mod) := by
  induction k generalizing t with
  | zero => omega
  | succ k ih =>
    have hlt : t < pt.length := by
      by_contra hge
      rw [List.drop_eq_nil_of_le (by omega)] at hc
      simp at hc
    have hd : pt.drop t = pt[t] :: pt.drop (t + 1) := List.drop_eq_getElem_cons hlt
    have he : pt[t]? = some pt[t] := List.getElem?_eq_getElem hlt
    simp only [skipNonResident, he]
    by_cases hm : pt[t].mod = true
    · rw [if_pos hm]
      refine ⟨t, rfl, le_refl _, hlt, ?_⟩
      rw [hd, List.countP_cons, if_pos hm]
    · rw [if_neg hm]
      rw [hd, List.countP_cons, if_neg hm] at hc
      obtain ⟨g, h1, h2, h3, h4⟩ := ih (t + 1) (by simpa using hc) (by omega)
      refine ⟨g, h1, by omega, h3, ?_⟩
      rw [h4, hd, List.countP_cons, if_neg hm]
      rfl

theorem pageScan_total (pt : List pagetbl_s) (k t low : Nat)
    (hc : k + 1 ≤ (pt.drop t).countP (fun e => e.mod)) (hlow : low < pt.length) :
    ∃ r : Nat, pageScan pt k t low = some r := by
  induction k generalizing t low with
  | zero => exact ⟨low, rfl⟩
  | succ k ih =>
    obtain ⟨g, g1, g2, g3, g4⟩ := skipNonResident_total pt (pt.length + 1) t (by omega) (by omega)
    obtain ⟨h, h1, h2, h3, h4⟩ := skipNonResident_total pt (pt.length + 1) (g + 1) (by omega)
      (by omega)
    have hres : ∃ e : pagetbl_s, pt[h]? = some e ∧ e.mod = true := (skipNonResident_some h1).2
    obtain ⟨eh, heh, hehm⟩ := hres
    have hdh : pt.drop h = pt[h] :: pt.drop (h + 1) := List.drop_eq_getElem_cons h3
    have hehe : pt[h] = eh := by
      have := List.getElem?_eq_getElem h3
      rw [heh] at this
      injection this with this
      exact this.symm
    have hch : k + 1 ≤ (pt.drop h).countP (fun e => e.mod) := by
      rw [hdh, List.countP_cons, hehe, if_pos hehm]
      omega
    obtain ⟨eg, heg⟩ : ∃ e : pagetbl_s, pt[g]? = some e := ⟨_, List.getElem?_eq_getElem g3⟩
    obtain ⟨el, hel⟩ : ∃ e : pagetbl_s, pt[low]? = some e := ⟨_, List.getElem?_eq_getElem hlow⟩
    simp only [pageScan, g1, h1, heh, heg, hel]
    split_ifs
    all_goals first
      | exact ih h g hch g3
      | exact ih h low hch hlow
      | exact ih h h hch h3

theorem findFrame_total (pt : List pagetbl_s) (x k i0 j : Nat) (v : pagetbl_s)
    (hj : pt[j]? = some v) (hv : v.addr = x) (h1 : i0 ≤ j) (h2 : j - i0 < k) :
    ∃ i : Nat, findFrame pt x k i0 = some i := by
  induction k generalizing i0 with
  | zero => omega
  | succ k ih =>
    have hjl : j < pt.length := (List.getElem?_eq_some.mp hj).1
    obtain ⟨e, he⟩ : ∃ e : pagetbl_s, pt[i0]? = some e :=
      ⟨_, List.getElem?_eq_getElem (by omega)⟩
    simp only [findFrame, he]
    by_cases hx : e.addr = x
    · exact ⟨i0, by rw [if_pos hx]⟩
    · rw [if_neg hx]
      have hne : i0 ≠ j := by
        intro hc
        subst hc
        rw [hj] at he
        injection he with he
        subst he
        exact hx hv
      exact ih (i0 + 1) (by omega) (by omega)

theorem pageReplLRU_total (pt : List pagetbl_s) (n : Nat) (ts : Int) (P : Nat) (e : pagetbl_s)
    (he : pt[P]? = some e) (hn : 1 ≤ n) (hc : pt.countP (fun x => x.mod) = n) :
    ∃ (low : Nat) (el : pagetbl_s),
      pageReplLRU pt n ts P = some (pt.set P { e with pagetimestamp := ts }, el.addr) ∧
      (pt.set P { e with pagetimestamp := ts })[low]? = some el ∧ el.mod = true := by
  have hc1 : (pt.set P { e with pagetimestamp := ts }).countP (fun x => x.mod) = n := by
    have := countP_set_mod pt P e { e with pagetimestamp := ts } he
    simp only at this
    omega
  have hlen : (pt.set P { e with pagetimestamp := ts }).length = pt.length :=
    List.length_set _ _ _
  obtain ⟨t0, a1, -, a3, -⟩ := skipNonResident_total (pt.set P { e with pagetimestamp := ts })
    ((pt.set P { e with pagetimestamp := ts }).length + 1) 0
    (by rw [List.drop_zero, hc1]; exact hn) (by omega)
  obtain ⟨r, hr⟩ := pageScan_total (pt.set P { e with pagetimestamp := ts }) (n - 1) 0 t0
    (by rw [List.drop_zero, hc1]; omega) a3
  obtain ⟨el, hel, hm⟩ := pageScan_resident hr (skipNonResident_some a1).2
  refine ⟨r, el, ?_, hel, hm⟩
  exact pageReplLRU_eq pt n ts P t0 r e el he a1 (by rw [usub1_pos hn]; exact hr) hel
/-! ## Well-formed states -/

theorem WellFormed.noClash {s : VM} (h : WellFormed s) : NoSentinelClash s := by
  refine ⟨h.framesPos, h.framesMax, ?_, fun j e he => ⟨h.sentinel j e he, fun ha => ?_⟩⟩
  · have := h.pagePointer
    have := h.framesMax
    omega
  · by_contra hm
    have := h.residentFrame j e he (by simpa using hm)
    have := h.framesMax
    omega

theorem WellFormed.tlb_update {s : VM} (h : WellFormed s) (tm : Int) (p : Nat) (y : tlbtbl_s) :
    WellFormed { s with tlbmiss := tm, tlbtable := s.tlbtable.set p y } :=
  { tlbLength := by simp only [List.length_set]; exact h.tlbLength
    tlbPointer := h.tlbPointer
    framesPos := h.framesPos
    framesMax := h.framesMax
    pagePointer := h.pagePointer
    residentCount := h.residentCount
    residentFrame := h.residentFrame
    sentinel := h.sentinel
    cover := h.cover
    distinct := h.distinct }

theorem readFault_eq {s s1 s2 : VM} {pos vpageno i : Nat} {e v w : pagetbl_s} {t : tlbtbl_s}
    (ht : s.tlbtable[pos]? = some t)
    (hi : findFrame (s.pagetable.set vpageno { e with mod := true }) s.controltable.page
      ((s.pagetable.set vpageno { e with mod := true }).length + 1) 0 = some i)
    (hv : (s.pagetable.set vpageno { e with mod := true })[i]? = some v)
    (hw : ((s.pagetable.set vpageno { e with mod := true }).set i
      (evictEntry s.pageReplAlg_v false v))[vpageno]? = some w)
    (h1 : pageReplFault
        { s with
          pgfault := s.pgfault + 1
          diskwrites := if ¬ e.mod ∧ e.diskw then s.diskwrites + 1 else s.diskwrites
          pagetable := (((s.pagetable.set vpageno { e with mod := true }).set i
            (evictEntry s.pageReplAlg_v false v))).set vpageno { w with addr := s.controltable.page }
          tlbtable := s.tlbtable.set pos { t with paddr := s.controltable.page } }
        vpageno s.controltable.page = some s1)
    (h2 : tlbRepl s1 pos = some s2) : readFault s pos vpageno e = some s2 := by
  unfold readFault storeAt
  simp only [ht, bind, Option.some_bind, hi, hv, hw, h1, h2]

/-- The victim search and the eviction stores of a hard fault succeed on a
well-formed page table, and leave as many resident entries as before. -/
theorem fault_table_total {pt : List pagetbl_s} {P f j : Nat} {e vj : pagetbl_s}
    (e1 : pagetbl_s) (alg : Int) (cd : Bool)
    (hJ : ∀ (j : Nat) (x : pagetbl_s), pt[j]? = some x → (x.mod = false ↔ x.addr = 999))
    (he : pt[P]? = some e) (hm : e.mod = false) (hf : f ≠ 999)
    (he1 : e1.addr = e.addr) (hm1 : e1.mod = true)
    (hj : pt[j]? = some vj) (hvj : vj.addr = f) :
    ∃ (i : Nat) (v w : pagetbl_s),
      findFrame (pt.set P e1) f ((pt.set P e1).length + 1) 0 = some i ∧
      (pt.set P e1)[i]? = some v ∧
      ((pt.set P e1).set i (evictEntry alg cd v))[P]? = some w ∧
      (((pt.set P e1).set i (evictEntry alg cd v)).set P { w with addr := f }).countP
        (fun x => x.mod) = pt.countP (fun x => x.mod) := by
  have hPl : P < pt.length := (List.getElem?_eq_some.mp he).1
  have hjP : j ≠ P := by
    intro hc
    subst hc
    rw [he] at hj
    injection hj with hj
    subst hj
    exact hf (hvj ▸ (hJ _ e he).mp hm)
  have hj1 : (pt.set P e1)[j]? = some vj := by
    rw [List.getElem?_set_ne (Ne.symm hjP)]
    exact hj
  obtain ⟨i, hi⟩ := findFrame_total (pt.set P e1) f ((pt.set P e1).length + 1) 0 j vj hj1 hvj
    (Nat.zero_le _) (by
      have := (List.getElem?_eq_some.mp hj1).1
      omega)
  obtain ⟨-, ⟨v, hv, -⟩, -⟩ := findFrame_some hi
  have hil : i < (pt.set P e1).length := (List.getElem?_eq_some.mp hv).1
  obtain ⟨w, hw⟩ : ∃ w : pagetbl_s,
      ((pt.set P e1).set i (evictEntry alg cd v))[P]? = some w :=
    ⟨_, List.getElem?_eq_getElem (by simp only [List.length_set]; exact hPl)⟩
  obtain ⟨f1, f2, f3, f4, f5, -⟩ := fault_stores hJ he hm hf he1 hi hv hw
  refine ⟨i, v, w, hi, hv, hw, ?_⟩
  have c1 := countP_set_toNat pt P e e1 he
  have c2 := countP_set_toNat (pt.set P e1) i v (evictEntry alg cd v) hv
  have c3 := countP_set_toNat ((pt.set P e1).set i (evictEntry alg cd v)) P w
    { w with addr := f } hw
  have m2 : (evictEntry alg cd v).mod = false := rfl
  have m3 : ({ w with addr := f } : pagetbl_s).mod = w.mod := rfl
  rw [hm, hm1] at c1
  rw [f4, m2] at c2
  rw [m3] at c3
  simp only [Bool.toNat_false, Bool.toNat_true] at c1 c2
  omega

theorem pageReplFault_rr_eq {s : VM} {vpageno pos1 : Nat} (h0 : s.pageReplAlg_v = 0) :
    pageReplFault s vpageno pos1 =
      some { s with
        controltable := { s.controltable with page := pageReplRR s.sizePM_v pos1 } } := by
  unfold pageReplFault
  simp only [h0, ne_eq, not_true_eq_false, if_false]

theorem pageReplSoft_total {s : VM} {P : Nat} {x : pagetbl_s} (hx : s.pagetable[P]? = some x)
    (hn : 1 ≤ s.sizePM_v) (hc : s.pagetable.countP (fun e => e.mod) = s.sizePM_v) :
    ∃ s1 : VM, pageReplSoft s P = some s1 := by
  by_cases h0 : s.pageReplAlg_v = 0
  · exact ⟨s, by simp only [pageReplSoft, h0, ne_eq, not_true_eq_false, if_false]⟩
  · obtain ⟨low, el, h1, -⟩ := pageReplLRU_total s.pagetable s.sizePM_v (s.pgtabletimestamp + 1)
      P x hx hn hc
    exact ⟨_, pageReplSoft_lru_eq h0 h1⟩

theorem pageReplFault_total {s : VM} {P : Nat} (pos1 : Nat) {x : pagetbl_s}
    (hx : s.pagetable[P]? = some x) (hn : 1 ≤ s.sizePM_v)
    (hc : s.pagetable.countP (fun e => e.mod) = s.sizePM_v) :
    ∃ s1 : VM, pageReplFault s P pos1 = some s1 := by
  by_cases h0 : s.pageReplAlg_v = 0
  · exact ⟨_, pageReplFault_rr_eq h0⟩
  · obtain ⟨low, el, h1, -⟩ := pageReplLRU_total s.pagetable s.sizePM_v (s.pgtabletimestamp + 1)
      P x hx hn hc
    exact ⟨_, pageReplFault_lru_eq h0 h1⟩

/-- The hard-fault body returns on a well-formed state. -/
theorem fault_total (wr : Bool) {s : VM} {pos P : Nat} {e : pagetbl_s} (h : WellFormed s)
    (hpos : pos < s.sizeTLB_v) (he : s.pagetable[P]? = some e) (hm : e.mod = false) :
    ∃ s2 : VM, (if wr then writeFault else readFault) s pos P e = some s2 := by
  obtain ⟨t, ht⟩ : ∃ t : tlbtbl_s, s.tlbtable[pos]? = some t :=
    ⟨_, List.getElem?_eq_getElem (by rw [h.tlbLength]; exact hpos)⟩
  obtain ⟨j, vj, hj, -, hvj⟩ := h.cover _ h.pagePointer
  have hJ := h.noClash
  have hPl : P < s.pagetable.length := (List.getElem?_eq_some.mp he).1
  have tail : ∀ (e1 : pagetbl_s) (dw : Int) (i : Nat) (v w : pagetbl_s),
      (((s.pagetable.set P e1).set i (evictEntry s.pageReplAlg_v wr v)).set P
        { w with addr := s.controltable.page }).countP (fun x => x.mod) =
          s.pagetable.countP (fun x => x.mod) →
      ∃ s1 s2 : VM, pageReplFault
        { s with
          pgfault := s.pgfault + 1
          diskwrites := dw
          pagetable := ((s.pagetable.set P e1).set i (evictEntry s.pageReplAlg_v wr v)).set P
            { w with addr := s.controltable.page }
          tlbtable := s.tlbtable.set pos { t with paddr := s.controltable.page } }
        P s.controltable.page = some s1 ∧ tlbRepl s1 pos = some s2 := by
    intro e1 dw i v w hcount
    obtain ⟨s1, h1⟩ := pageReplFault_total
      (s := { s with
          pgfault := s.pgfault + 1
          diskwrites := dw
          pagetable := ((s.pagetable.set P e1).set i (evictEntry s.pageReplAlg_v wr v)).set P
            { w with addr := s.controltable.page }
          tlbtable := s.tlbtable.set pos { t with paddr := s.controltable.page } })
      (P := P) s.controltable.page
      (List.getElem?_eq_getElem (by simp only [List.length_set]; exact hPl)) h.framesPos
      (by rw [← h.residentCount]; exact hcount)
    obtain ⟨st1, -, p1, -, -⟩ := pageReplFault_static h1
    simp only [VM.static, Prod.mk.injEq] at st1
    obtain ⟨s2, h2, -⟩ := tlbRepl_total (s := s1)
      (by rw [p1, st1.2.2.2.1]; simp only [List.length_set]; exact h.tlbLength)
      (by rw [st1.2.2.2.1]; exact hpos)
    exact ⟨s1, s2, h1, h2⟩
  cases wr with
  | false =>
    obtain ⟨i, v, w, hi, hv, hw, hcount⟩ := fault_table_total { e with mod := true }
      s.pageReplAlg_v false hJ.2.2.2 he hm hJ.2.2.1 rfl rfl hj hvj
    obtain ⟨s1, s2, h1, h2⟩ := tail { e with mod := true }
      (if ¬ e.mod ∧ e.diskw then s.diskwrites + 1 else s.diskwrites) i v w hcount
    exact ⟨s2, readFault_eq ht hi hv hw h1 h2⟩
  | true =>
    obtain ⟨i, v, w, hi, hv, hw, hcount⟩ := fault_table_total
      { e with mod := true, diskw := true } s.pageReplAlg_v true hJ.2.2.2 he hm hJ.2.2.1 rfl rfl hj hvj
    obtain ⟨s1, s2, h1, h2⟩ := tail { e with mod := true, diskw := true }
      (s.diskwrites + 1) i v w hcount
    exact ⟨s2, writeFault_eq ht hi hv hw h1 h2⟩

/-- The soft-miss body returns on a well-formed state. -/
theorem softMiss_total {s : VM} {pos P : Nat} {e : pagetbl_s} (h : WellFormed s)
    (hpos : pos < s.sizeTLB_v) (he : s.pagetable[P]? = some e) :
    ∃ s2 : VM, softMiss s pos P e = some s2 := by
  obtain ⟨t, ht⟩ : ∃ t : tlbtbl_s, s.tlbtable[pos]? = some t :=
    ⟨_, List.getElem?_eq_getElem (by rw [h.tlbLength]; exact hpos)⟩
  obtain ⟨s1, h1, -⟩ := tlbRepl_total
    (s := { s with tlbtable := s.tlbtable.set pos { t with paddr := e.addr } })
    (by simp only [List.length_set]; exact h.tlbLength) hpos
  obtain ⟨st1, -, p1, -, -⟩ := tlbRepl_static h1
  simp only [VM.static, Prod.mk.injEq] at st1
  obtain ⟨s2, h2⟩ := pageReplSoft_total (s := s1) (P := P) (x := e) (by rw [p1]; exact he)
    (by rw [st1.2.2.1]; exact h.framesPos) (by rw [p1, st1.2.2.1]; exact h.residentCount)
  exact ⟨s2, softMiss_eq ht h1 h2⟩

/-- The address translation returns on a well-formed state, for a page inside
the page table. -/
theorem translate_total {fault : VM → Nat → Nat → pagetbl_s → Option VM}
    (hf : fault = readFault ∨ fault = writeFault) {s : VM} {A : Nat} (h : WellFormed s)
    (hP : A >>> s.offset < s.pagetable.length) : ∃ s1 : VM, translate fault s A = some s1 := by
  obtain ⟨r, hr⟩ := tlbSearch_total s.tlbtable (A >>> s.offset) s.sizeTLB_v 0
    (by rw [h.tlbLength]; omega)
  cases r with
  | some i =>
    have hi := (tlbSearch_some hr).2.1
    obtain ⟨s1, h1⟩ := tlbHit_total h.tlbLength (show i < s.sizeTLB_v by omega)
    exact ⟨s1, by rw [translate_hit_eq hr, h1]⟩
  | none =>
    obtain ⟨t, ht⟩ : ∃ t : tlbtbl_s, s.tlbtable[s.controltable.tlb]? = some t :=
      ⟨_, List.getElem?_eq_getElem (by rw [h.tlbLength]; exact h.tlbPointer)⟩
    obtain ⟨e, he⟩ : ∃ e : pagetbl_s, s.pagetable[A >>> s.offset]? = some e :=
      ⟨_, List.getElem?_eq_getElem hP⟩
    have h1 := h.tlb_update (s.tlbmiss + 1) s.controltable.tlb { t with vaddr := A >>> s.offset }
    rw [translate_miss_eq hr ht he]
    by_cases hm : e.mod = true
    · rw [if_pos hm]
      exact softMiss_total h1 h.tlbPointer he
    · rw [if_neg hm]
      have hm0 : e.mod = false := by simpa using hm
      rcases hf with rfl | rfl
      · exact fault_total false h1 h.tlbPointer he hm0
      · exact fault_total true h1 h.tlbPointer he hm0

/-- Totality of the calls: `readInt` and `writeInt` return on a well-formed
state, for an address inside the backing store whose page is inside the page
table. -/
theorem step_total {s : VM} {a : Access} (h : WellFormed s) (hA : a.address < s.data.length)
    (hP : a.address >>> s.offset < s.pagetable.length) : ∃ s1 : VM, step s a = some s1 := by
  obtain ⟨s2, h2⟩ := translate_total a.fault_cases h hP
  have hst := translate_static a.fault_cases h2
  simp only [VM.static, Prod.mk.injEq] at hst
  obtain ⟨s1, h1, -⟩ := step_of_translate h2 hst.1 hA
  exact ⟨s1, h1⟩
/-! ## The hard fault, exactly -/

/-- The page table and the round-robin page victim pointer after the hard-fault
body, from a state without sentinel clash: the entry `i` that held the victim
frame, a resident entry other than the faulting one, is replaced by its
eviction, and the faulting entry `P` holds the victim frame, resident, with the
new timestamp under LRU. -/
theorem fault_exact {wr : Bool} {s s2 : VM} {pos P : Nat} {e : pagetbl_s}
    (hJ : NoSentinelClash s) (he : s.pagetable[P]? = some e) (hm : e.mod = false)
    (h : (if wr then writeFault else readFault) s pos P e = some s2) :
    ∃ (i : Nat) (v : pagetbl_s), i ≠ P ∧ s.pagetable[i]? = some v ∧ v.mod = true ∧
      v.addr = s.controltable.page ∧
      s2.pagetable = (s.pagetable.set i (evictEntry s.pageReplAlg_v wr v)).set P
        { addr := s.controltable.page
          mod := true
          pagetimestamp :=
            if s.pageReplAlg_v ≠ 0 then s.pgtabletimestamp + 1 else e.pagetimestamp
          diskw := wr || e.diskw } ∧
      (s.pageReplAlg_v = 0 →
        s2.controltable.page = pageReplRR s.sizePM_v s.controltable.page) ∧
      (s.pageReplAlg_v ≠ 0 → ∃ (low : Nat) (el : pagetbl_s), s2.pagetable[low]? = some el ∧
        el.mod = true ∧ s2.controltable.page = el.addr) := by
  obtain ⟨n1, n2, n3, n4⟩ := hJ
  have hPl : P < s.pagetable.length := (List.getElem?_eq_some.mp he).1
  have main : ∀ (e1 : pagetbl_s) (dw : Int) (i : Nat) (v w : pagetbl_s) (t : tlbtbl_s) (s1 : VM),
      e1 = { addr := e.addr, mod := true, pagetimestamp := e.pagetimestamp,
             diskw := wr || e.diskw } →
      findFrame (s.pagetable.set P e1) s.controltable.page
        ((s.pagetable.set P e1).length + 1) 0 = some i →
      (s.pagetable.set P e1)[i]? = some v →
      ((s.pagetable.set P e1).set i (evictEntry s.pageReplAlg_v wr v))[P]? = some w →
      pageReplFault
        { s with
          pgfault := s.pgfault + 1
          diskwrites := dw
          pagetable := ((s.pagetable.set P e1).set i (evictEntry s.pageReplAlg_v wr v)).set P
            { w with addr := s.controltable.page }
          tlbtable := s.tlbtable.set pos { t with paddr := s.controltable.page } }
        P s.controltable.page = some s1 →
      tlbRepl s1 pos = some s2 →
      ∃ (i : Nat) (v : pagetbl_s), i ≠ P ∧ s.pagetable[i]? = some v ∧ v.mod = true ∧
        v.addr = s.controltable.page ∧
        s2.pagetable = (s.pagetable.set i (evictEntry s.pageReplAlg_v wr v)).set P
          { addr := s.controltable.page
            mod := true
            pagetimestamp :=
              if s.pageReplAlg_v ≠ 0 then s.pgtabletimestamp + 1 else e.pagetimestamp
            diskw := wr || e.diskw } ∧
        (s.pageReplAlg_v = 0 →
          s2.controltable.page = pageReplRR s.sizePM_v s.controltable.page) ∧
        (s.pageReplAlg_v ≠ 0 → ∃ (low : Nat) (el : pagetbl_s), s2.pagetable[low]? = some el ∧
          el.mod = true ∧ s2.controltable.page = el.addr) := by
    intro e1 dw i v w t s1 hE hi hv hw h1 h2
    obtain ⟨f1, f2, f3, f4, f5, f6⟩ := fault_stores n4 he hm n3 (by rw [hE]) hi hv hw
    have hil : i < s.pagetable.length := (List.getElem?_eq_some.mp f2).1
    have hpt3 : ((s.pagetable.set P e1).set i (evictEntry s.pageReplAlg_v wr v)).set P
          { w with addr := s.controltable.page } =
        (s.pagetable.set i (evictEntry s.pageReplAlg_v wr v)).set P
          { e1 with addr := s.controltable.page } := by
      apply List.ext_getElem?
      intro m
      rw [f6 m]
      by_cases c1 : m = P
      · subst c1
        rw [if_pos rfl, List.getElem?_set_self (by simp only [List.length_set]; exact hPl)]
      · rw [if_neg c1, List.getElem?_set_ne (Ne.symm c1)]
        by_cases c2 : m = i
        · subst c2
          rw [if_pos rfl, List.getElem?_set_self hil]
        · rw [if_neg c2, List.getElem?_set_ne (Ne.symm c2)]
    obtain ⟨-, -, p2, c2, -⟩ := tlbRepl_static h2
    refine ⟨i, v, f1, f2, f4, f3, ?_, ?_, ?_⟩
    · rw [p2]
      rcases pageReplFault_some h1 with ⟨h0, hs1⟩ | ⟨h0, x, el, low, hx, -, -, hs1⟩
      · have h0' : s.pageReplAlg_v = 0 := h0
        have hp1 : s1.pagetable =
            ((s.pagetable.set P e1).set i (evictEntry s.pageReplAlg_v wr v)).set P
              { w with addr := s.controltable.page } := by rw [hs1]
        rw [hp1, hpt3, hE]
        simp only [h0', ne_eq, not_true_eq_false, if_false]
      · have h0' : s.pageReplAlg_v ≠ 0 := h0
        have hx' : (((s.pagetable.set P e1).set i (evictEntry s.pageReplAlg_v wr v)).set P
              { w with addr := s.controltable.page })[P]? = some x := hx
        have hp1 : s1.pagetable =
            (((s.pagetable.set P e1).set i (evictEntry s.pageReplAlg_v wr v)).set P
              { w with addr := s.controltable.page }).set P
                { x with pagetimestamp := s.pgtabletimestamp + 1 } := by rw [hs1]
        rw [hpt3, List.getElem?_set_self (by simp only [List.length_set]; exact hPl)] at hx'
        injection hx' with hx'
        rw [hp1, hpt3, List.set_set, ← hx', hE]
        simp only [h0', ne_eq, not_false_eq_true, if_true]
    · intro h0
      rw [c2]
      exact (pageReplFault_keys h1).2.1 h0
    · intro h0
      obtain ⟨low, el, k1, k2, k3⟩ := (pageReplFault_keys h1).2.2 h0
      exact ⟨low, el, by rw [p2]; exact k1, k2, by rw [c2]; exact k3⟩
  cases wr with
  | false =>
    simp only [Bool.false_eq_true, if_false] at h
    obtain ⟨t, i, v, w, s1, -, hi, hv, hw, h1, h2⟩ := readFault_some h
    exact main { e with mod := true }
      (if ¬ e.mod ∧ e.diskw then s.diskwrites + 1 else s.diskwrites) i v w t s1
      (by simp) hi hv hw h1 h2
  | true =>
    simp only [if_true] at h
    obtain ⟨t, i, v, w, s1, -, hi, hv, hw, h1, h2⟩ := writeFault_some h
    exact main { e with mod := true, diskw := true } (s.diskwrites + 1) i v w t s1
      (by simp) hi hv hw h1 h2

/-- The state after a call that misses the TLB on a non-resident page, from a
state without sentinel clash: the page table and page victim pointer of
`fault_exact`, and the TLB slot at the former TLB victim pointer. -/
theorem step_fault_exact {s s1 : VM} {a : Access} {e : pagetbl_s} (hJ : NoSentinelClash s)
    (h : step s a = some s1)
    (hmiss : tlbSearch s.tlbtable (a.address >>> s.offset) s.sizeTLB_v 0 = some none)
    (he : s.pagetable[a.address >>> s.offset]? = some e) (hm : e.mod = false) :
    ∃ (i : Nat) (v : pagetbl_s) (t : tlbtbl_s),
      i ≠ a.address >>> s.offset ∧ s.pagetable[i]? = some v ∧ v.mod = true ∧
      v.addr = s.controltable.page ∧
      s1.pagetable = (s.pagetable.set i (evictEntry s.pageReplAlg_v a.isWrite v)).set
        (a.address >>> s.offset)
        { addr := s.controltable.page
          mod := true
          pagetimestamp :=
            if s.pageReplAlg_v ≠ 0 then s.pgtabletimestamp + 1 else e.pagetimestamp
          diskw := a.isWrite || e.diskw } ∧
      (s.pageReplAlg_v = 0 →
        s1.controltable.page = pageReplRR s.sizePM_v s.controltable.page) ∧
      (s.pageReplAlg_v ≠ 0 → ∃ (low : Nat) (el : pagetbl_s), s1.pagetable[low]? = some el ∧
        el.mod = true ∧ s1.controltable.page = el.addr) ∧
      s.tlbtable[s.controltable.tlb]? = some t ∧
      s1.tlbtable = s.tlbtable.set s.controltable.tlb
        { vaddr := a.address >>> s.offset
          paddr := s.controltable.page
          tlbtimestamp :=
            if s.tlbReplAlg_v = 0 then t.tlbtimestamp else s.tlbtabletimestamp + 1 } := by
  obtain ⟨s2, h2, hs1, -⟩ := step_some h
  have e1 : s1.pagetable = s2.pagetable := by rw [hs1]
  have e2 : s1.controltable = s2.controltable := by rw [hs1]
  have e3 : s1.tlbtable = s2.tlbtable := by rw [hs1]
  obtain ⟨t, e', ht, he', g1, -, -⟩ := translate_miss_tlb a.fault_cases h2 hmiss
  rw [he] at he'
  injection he' with he'
  subst he'
  have h3 := h2
  rw [translate_miss_eq hmiss ht he, hm, a.fault_eq] at h3
  simp only [Bool.false_eq_true, if_false] at h3
  obtain ⟨n1, n2, n3, n4⟩ := hJ
  have hJ' : NoSentinelClash
      { s with
        tlbmiss := s.tlbmiss + 1
        tlbtable := s.tlbtable.set s.controltable.tlb
          { t with vaddr := a.address >>> s.offset } } := ⟨n1, n2, n3, n4⟩
  obtain ⟨i, v, f1, f2, f3, f4, f5, f6, f7⟩ : ∃ (i : Nat) (v : pagetbl_s),
      i ≠ a.address >>> s.offset ∧ s.pagetable[i]? = some v ∧ v.mod = true ∧
      v.addr = s.controltable.page ∧
      s2.pagetable = (s.pagetable.set i (evictEntry s.pageReplAlg_v a.isWrite v)).set
        (a.address >>> s.offset)
        { addr := s.controltable.page
          mod := true
          pagetimestamp :=
            if s.pageReplAlg_v ≠ 0 then s.pgtabletimestamp + 1 else e.pagetimestamp
          diskw := a.isWrite || e.diskw } ∧
      (s.pageReplAlg_v = 0 →
        s2.controltable.page = pageReplRR s.sizePM_v s.controltable.page) ∧
      (s.pageReplAlg_v ≠ 0 → ∃ (low : Nat) (el : pagetbl_s), s2.pagetable[low]? = some el ∧
        el.mod = true ∧ s2.controltable.page = el.addr) :=
    fault_exact
      (s := { s with
        tlbmiss := s.tlbmiss + 1
        tlbtable := s.tlbtable.set s.controltable.tlb
          { t with vaddr := a.address >>> s.offset } }) hJ' he hm h3
  refine ⟨i, v, t, f1, f2, f3, f4, by rw [e1, f5], fun h0 => by rw [e2, f6 h0], fun h0 => ?_,
    ht, ?_⟩
  · obtain ⟨low, el, k1, k2, k3⟩ := f7 h0
    exact ⟨low, el, by rw [e1]; exact k1, k2, by rw [e2]; exact k3⟩
  · rw [e3, g1]
    simp only [hm, Bool.false_eq_true, if_false]

theorem initTable_get {n L j : Nat} {e : pagetbl_s}
    (h : ((List.range L).map (initPageEntry n))[j]? = some e) :
    j < L ∧ e = initPageEntry n j := by
  simp only [List.getElem?_map, Option.map_eq_some'] at h
  obtain ⟨i, hi, rfl⟩ := h
  have hj : j < (List.range L).length := (List.getElem?_eq_some.mp hi).1
  rw [List.length_range] at hj
  rw [List.getElem?_range hj] at hi
  injection hi with hi
  subst hi
  exact ⟨hj, rfl⟩

theorem initTable_at {n L j : Nat} (hj : j < L) :
    ((List.range L).map (initPageEntry n))[j]? = some (initPageEntry n j) := by
  rw [List.getElem?_map, List.getElem?_range hj]
  rfl

theorem initTable_count (n L : Nat) :
    ((List.range L).map (initPageEntry n)).countP (fun e => e.mod) = min L n := by
  induction L with
  | zero => simp
  | succ L ih =>
    rw [List.range_succ, List.map_append, List.countP_append, ih]
    simp only [List.map_cons, List.map_nil, List.countP_cons, List.countP_nil, initPageEntry]
    by_cases h : L < n
    · simp only [h, if_true]
      omega
    · simp only [h, if_false, Bool.false_eq_true]
      omega

theorem createVM_wellFormed (sizeVM sizePM pageSize sizeTLB : Nat)
    (pageReplAlg tlbReplAlg : Int) (s : VM)
    (h : createVM sizeVM sizePM pageSize sizeTLB pageReplAlg tlbReplAlg = .ok s)
    (hPM : sizePM ≤ 999) (hlen : sizePM ≤ s.pagetable.length) : WellFormed s := by
  obtain ⟨-, v2, -, v4, v5, -⟩ := createVM_ok_valid _ _ _ _ _ _ s h
  have hs := createVM_ok_fields _ _ _ _ _ _ s h
  have hpt : s.pagetable =
      (List.range (sizeVM * pageSize % 2 ^ 32 / sizePM)).map (initPageEntry sizePM) := by
    rw [hs]
  have hsz : s.sizePM_v = sizePM := by rw [hs]
  have hL : sizePM ≤ sizeVM * pageSize % 2 ^ 32 / sizePM := by
    rw [hpt, List.length_map, List.length_range] at hlen
    exact hlen
  refine
    { tlbLength := by rw [hs]; simp
      tlbPointer := by rw [hs]; exact v4
      framesPos := by rw [hsz]; exact v2
      framesMax := by rw [hsz]; exact hPM
      pagePointer := by rw [hs]; exact v2
      residentCount := by rw [hpt, hsz, initTable_count]; omega
      residentFrame := ?_
      sentinel := ?_
      cover := ?_
      distinct := ?_ }
  · intro j e he hm
    rw [hpt] at he
    obtain ⟨-, rfl⟩ := initTable_get he
    rw [hsz]
    by_cases c : j < sizePM
    · simp [initPageEntry, c]
    · simp [initPageEntry, c] at hm
  · intro j e he hm
    rw [hpt] at he
    obtain ⟨-, rfl⟩ := initTable_get he
    by_cases c : j < sizePM
    · simp [initPageEntry, c] at hm
    · simp [initPageEntry, c]
  · intro f hf
    rw [hsz] at hf
    refine ⟨f, initPageEntry sizePM f, ?_, ?_, ?_⟩
    · rw [hpt]
      exact initTable_at (by omega)
    · simp only [initPageEntry, hf, if_true]
    · simp only [initPageEntry, hf, if_true]
  · intro j1 j2 e1 e2 h1 h2 m1 m2 ha
    rw [hpt] at h1 h2
    obtain ⟨-, rfl⟩ := initTable_get h1
    obtain ⟨-, rfl⟩ := initTable_get h2
    by_cases c1 : j1 < sizePM
    · by_cases c2 : j2 < sizePM
      · simpa [initPageEntry, c1, c2] using ha
      · simp [initPageEntry, c2] at m2
    · simp [initPageEntry, c1] at m1

theorem entry_of_keys {pt pt1 : List pagetbl_s}
    (hk : ∀ m : Nat, (pt1[m]?).map pagetbl_s.key = (pt[m]?).map pagetbl_s.key) {j : Nat}
    {x : pagetbl_s} (hx : pt1[j]? = some x) :
    ∃ y : pagetbl_s, pt[j]? = some y ∧ y.addr = x.addr ∧ y.mod = x.mod := by
  have h := hk j
  rw [hx] at h
  cases hy : pt[j]? with
  | none => rw [hy] at h; cases h
  | some y =>
    rw [hy] at h
    simp only [Option.map_some', Option.some.injEq, pagetbl_s.key, Prod.mk.injEq] at h
    exact ⟨y, rfl, h.1.symm, h.2.1.symm⟩

/-- The residency structure only depends on the keys of the table. -/
theorem ResidentFrames.of_keys {pt pt1 : List pagetbl_s} {n : Nat} (h : ResidentFrames pt n)
    (hk : ∀ m : Nat, (pt1[m]?).map pagetbl_s.key = (pt[m]?).map pagetbl_s.key) :
    ResidentFrames pt1 n := by
  have hk' : ∀ m : Nat, (pt[m]?).map pagetbl_s.key = (pt1[m]?).map pagetbl_s.key :=
    fun m => (hk m).symm
  have hmap : pt1.map pagetbl_s.key = pt.map pagetbl_s.key :=
    List.ext_getElem? (fun m => by rw [List.getElem?_map, List.getElem?_map]; exact hk m)
  have hc : ∀ l : List pagetbl_s,
      l.countP (fun e => e.mod) = (l.map pagetbl_s.key).countP (fun k => k.2.1) :=
    fun l => by rw [List.countP_map]; rfl
  refine
    { residentCount := by rw [hc pt1, hmap, ← hc pt]; exact h.residentCount
      residentFrame := fun j x hx hm => ?_
      sentinel := fun j x hx hm => ?_
      cover := fun f hf => ?_
      distinct := fun j1 j2 x1 x2 h1 h2 m1 m2 ha => ?_ }
  · obtain ⟨y, hy, ya, ym⟩ := entry_of_keys hk hx
    rw [← ya]
    exact h.residentFrame j y hy (by rw [ym, hm])
  · obtain ⟨y, hy, ya, ym⟩ := entry_of_keys hk hx
    rw [← ya]
    exact h.sentinel j y hy (by rw [ym, hm])
  · obtain ⟨j, y, hy, ym, ya⟩ := h.cover f hf
    obtain ⟨x, hx, xa, xm⟩ := entry_of_keys hk' hy
    exact ⟨j, x, hx, by rw [xm, ym], by rw [xa, ya]⟩
  · obtain ⟨y1, hy1, ya1, ym1⟩ := entry_of_keys hk h1
    obtain ⟨y2, hy2, ya2, ym2⟩ := entry_of_keys hk h2
    exact h.distinct j1 j2 y1 y2 hy1 hy2 (by rw [ym1, m1]) (by rw [ym2, m2])
      (by rw [ya1, ya2, ha])

/-- The residency structure after a hard fault: the resident entry `i` holding
frame `f` is replaced by a non-resident entry holding the sentinel, and the
non-resident entry `P` by a resident entry holding `f`. -/
theorem ResidentFrames.fault {pt : List pagetbl_s} {n i P f : Nat} {v e x y : pagetbl_s}
    (h : ResidentFrames pt n) (hf : f < n) (hi : pt[i]? = some v) (hvm : v.mod = true)
    (hva : v.addr = f) (hP : pt[P]? = some e) (hem : e.mod = false)
    (hxm : x.mod = false) (hxa : x.addr = 999) (hym : y.mod = true) (hya : y.addr = f) :
    ResidentFrames ((pt.set i x).set P y) n := by
  have hiP : i ≠ P := by
    intro hc
    subst hc
    rw [hi] at hP
    injection hP with hP
    subst hP
    rw [hvm] at hem
    cases hem
  have hil : i < pt.length := (List.getElem?_eq_some.mp hi).1
  have hPl : P < pt.length := (List.getElem?_eq_some.mp hP).1
  have get : ∀ m : Nat, ((pt.set i x).set P y)[m]? =
      if m = P then some y else if m = i then some x else pt[m]? := by
    intro m
    by_cases c1 : m = P
    · subst c1
      rw [if_pos rfl, List.getElem?_set_self (by simp only [List.length_set]; exact hPl)]
    · rw [if_neg c1, List.getElem?_set_ne (Ne.symm c1)]
      by_cases c2 : m = i
      · subst c2
        rw [if_pos rfl, List.getElem?_set_self hil]
      · rw [if_neg c2, List.getElem?_set_ne (Ne.symm c2)]
  have old : ∀ (m : Nat) (z : pagetbl_s), ((pt.set i x).set P y)[m]? = some z →
      z.mod = true → m = P ∨ (m ≠ P ∧ m ≠ i ∧ pt[m]? = some z) := by
    intro m z hz hzm
    rw [get m] at hz
    split_ifs at hz with c1 c2
    · exact Or.inl c1
    · injection hz with hz
      subst hz
      rw [hxm] at hzm
      cases hzm
    · exact Or.inr ⟨c1, c2, hz⟩
  refine
    { residentCount := ?_
      residentFrame := fun j z hz hm => ?_
      sentinel := fun j z hz hm => ?_
      cover := fun g hg => ?_
      distinct := fun j1 j2 z1 z2 h1 h2 m1 m2 ha => ?_ }
  · have c1 := countP_set_toNat pt i v x hi
    have c2 := countP_set_toNat (pt.set i x) P e y
      (by rw [List.getElem?_set_ne hiP]; exact hP)
    rw [hvm, hxm] at c1
    rw [hem, hym] at c2
    simp only [Bool.toNat_false, Bool.toNat_true] at c1 c2
    have := h.residentCount
    omega
  · rw [get j] at hz
    split_ifs at hz with c1 c2
    · injection hz with hz
      subst hz
      rw [hya]
      exact hf
    · injection hz with hz
      subst hz
      rw [hxm] at hm
      cases hm
    · exact h.residentFrame j z hz hm
  · rw [get j] at hz
    split_ifs at hz with c1 c2
    · injection hz with hz
      subst hz
      rw [hym] at hm
      cases hm
    · injection hz with hz
      subst hz
      exact hxa
    · exact h.sentinel j z hz hm
  · by_cases c : g = f
    · subst c
      exact ⟨P, y, by rw [get P, if_pos rfl], hym, hya⟩
    · obtain ⟨j, z, hz, zm, za⟩ := h.cover g hg
      have hjP : j ≠ P := by
        intro hc
        subst hc
        rw [hP] at hz
        injection hz with hz
        subst hz
        rw [hem] at zm
        cases zm
      have hji : j ≠ i := by
        intro hc
        subst hc
        rw [hi] at hz
        injection hz with hz
        subst hz
        exact c (za.symm.trans hva)
      exact ⟨j, z, by rw [get j, if_neg hjP, if_neg hji]; exact hz, zm, za⟩
  · have key : ∀ (m : Nat) (z : pagetbl_s), m ≠ P → m ≠ i → pt[m]? = some z → z.mod = true →
        z.addr ≠ f := by
      intro m z c1 c2 hz zm za
      exact c2 (h.distinct m i z v hz hi zm hvm (by rw [za, hva]))
    have yP : ∀ z : pagetbl_s, ((pt.set i x).set P y)[P]? = some z → z.addr = f := by
      intro z hz
      rw [get P, if_pos rfl] at hz
      injection hz with hz
      subst hz
      exact hya
    rcases old j1 z1 h1 m1 with rfl | ⟨a1, a2, a3⟩
    · rcases old j2 z2 h2 m2 with rfl | ⟨b1, b2, b3⟩
      · rfl
      · exact absurd (by rw [← ha, yP z1 h1]) (key j2 z2 b1 b2 b3 m2)
    · rcases old j2 z2 h2 m2 with rfl | ⟨b1, b2, b3⟩
      · exact absurd (by rw [ha, yP z2 h2]) (key j1 z1 a1 a2 a3 m1)
      · exact h.distinct j1 j2 z1 z2 a3 b3 m1 m2 ha

theorem step_tlb_length {s s1 : VM} {a : Access} (h : step s a = some s1) :
    s1.tlbtable.length = s.tlbtable.length := by
  obtain ⟨s2, h1, h2, -⟩ := step_some h
  have e1 : s1.tlbtable = s2.tlbtable := by rw [h2]
  rw [e1]
  rcases translate_some h1 with ⟨i, hi, h3⟩ | ⟨hmiss, -⟩
  · rcases tlbHit_tlb h3 with ⟨-, a1, -⟩ | ⟨-, e, -, a1, -⟩
    · rw [a1]
    · rw [a1, List.length_set]
  · obtain ⟨t, e, -, -, a1, -⟩ := translate_miss_tlb a.fault_cases h1 hmiss
    rw [a1, List.length_set]

theorem step_tlb_pointer {s s1 : VM} {a : Access} (hn : s.tlbtable.length = s.sizeTLB_v)
    (hp : s.controltable.tlb < s.sizeTLB_v) (h : step s a = some s1) :
    s1.controltable.tlb < s.sizeTLB_v := by
  by_cases h0 : s.tlbReplAlg_v = 0
  · rcases step_tlb_rr h0 hp h with ⟨-, -, c⟩ | ⟨-, -, c⟩
    · rw [c]; exact hp
    · rw [c]; exact Nat.mod_lt _ (by omega)
  · obtain ⟨a1, a2⟩ := step_tlb_lru h0 h
    obtain ⟨r, hr, hmin⟩ := tlbScan_firstMin s1.tlbtable (s.sizeTLB_v - 1) 0 0
      (by rw [a1, hn]; omega) (isLruSlot_one (by rw [a1, hn]; omega))
    rw [usub1_pos (by omega), hr] at a2
    injection a2 with a2
    have := hmin.1
    omega

theorem step_page_pointer {s s1 : VM} {a : Access} (h : step s a = some s1) :
    s1.controltable.page = s.controltable.page ∨
    s1.controltable.page = pageReplRR s.sizePM_v s.controltable.page ∨
    ∃ (low : Nat) (el : pagetbl_s), s1.pagetable[low]? = some el ∧ el.mod = true ∧
      s1.controltable.page = el.addr := by
  obtain ⟨s2, h1, h2, -⟩ := step_some h
  have e1 : s1.pagetable = s2.pagetable := by rw [h2]
  have e2 : s1.controltable = s2.controltable := by rw [h2]
  rw [e1, e2]
  have fault : ∀ (S sm : VM) (pos : Nat),
      pageReplFault S (a.address >>> s.offset) s.controltable.page = some sm →
      tlbRepl sm pos = some s2 → S.sizePM_v = s.sizePM_v →
      s2.controltable.page = s.controltable.page ∨
      s2.controltable.page = pageReplRR s.sizePM_v s.controltable.page ∨
      ∃ (low : Nat) (el : pagetbl_s), s2.pagetable[low]? = some el ∧ el.mod = true ∧
        s2.controltable.page = el.addr := by
    intro S sm pos k1 k2 hS
    obtain ⟨-, -, p2, c2, -⟩ := tlbRepl_static k2
    obtain ⟨-, r1, r2⟩ := pageReplFault_keys k1
    by_cases h0 : S.pageReplAlg_v = 0
    · exact Or.inr (Or.inl (by rw [c2, r1 h0, hS]))
    · obtain ⟨low, el, b1, b2, b3⟩ := r2 h0
      exact Or.inr (Or.inr ⟨low, el, by rw [p2]; exact b1, b2, by rw [c2]; exact b3⟩)
  rcases translate_some h1 with ⟨i, hi, h3⟩ | ⟨hmiss, t, e, ht, he, ⟨hm, h3⟩ | ⟨hm, h3⟩⟩
  · exact Or.inl (tlbHit_static h3).2.2.2.1
  · obtain ⟨t1, sm, -, h4, h5⟩ := softMiss_some h3
    obtain ⟨st4, -, -, c4, -⟩ := tlbRepl_static h4
    obtain ⟨-, r1, r2⟩ := pageReplSoft_keys h5
    by_cases h0 : sm.pageReplAlg_v = 0
    · exact Or.inl (by rw [r1 h0, c4])
    · exact Or.inr (Or.inr (r2 h0))
  · rcases a.fault_cases with hf | hf
    · rw [hf] at h3
      obtain ⟨t1, i, v, w, sm, -, -, -, -, k1, k2⟩ := readFault_some h3
      exact fault _ sm _ k1 k2 rfl
    · rw [hf] at h3
      obtain ⟨t1, i, v, w, sm, -, -, -, -, k1, k2⟩ := writeFault_some h3
      exact fault _ sm _ k1 k2 rfl

/-- One call keeps the state well-formed. -/
theorem step_wellFormed {s s1 : VM} {a : Access} (hwf : WellFormed s)
    (h : step s a = some s1) : WellFormed s1 := by
  obtain ⟨-, q2, q3, -⟩ := step_static h
  have frames : ResidentFrames s1.pagetable s.sizePM_v := by
    rcases (step_pagetable hwf.noClash h).2 with ⟨-, -, keys⟩ | ⟨-, hmiss, e, i, v, he, hm, -⟩
    · exact hwf.toResidentFrames.of_keys keys
    · obtain ⟨i, v, t, f1, f2, f3, f4, f5, -⟩ := step_fault_exact hwf.noClash h hmiss he hm
      rw [f5]
      exact hwf.toResidentFrames.fault hwf.pagePointer f2 f3 f4 he hm rfl rfl rfl rfl
  refine
    { toResidentFrames := by rw [q2]; exact frames
      tlbLength := by rw [step_tlb_length h, q3]; exact hwf.tlbLength
      tlbPointer := by rw [q3]; exact step_tlb_pointer hwf.tlbLength hwf.tlbPointer h
      framesPos := by rw [q2]; exact hwf.framesPos
      framesMax := by rw [q2]; exact hwf.framesMax
      pagePointer := ?_ }
  rw [q2]
  rcases step_page_pointer h with c | c | ⟨low, el, c1, c2, c3⟩
  · rw [c]; exact hwf.pagePointer
  · rw [c]; exact pageReplRR_lt hwf.framesPos
  · rw [c3]; exact frames.residentFrame low el c1 c2

theorem step_pagetable_length {s s1 : VM} {a : Access} (hJ : NoSentinelClash s)
    (h : step s a = some s1) : s1.pagetable.length = s.pagetable.length := by
  rcases (step_pagetable hJ h).2 with ⟨-, -, keys⟩ | ⟨-, hmiss, e, i, v, he, hm, -⟩
  · have hmap : s1.pagetable.map pagetbl_s.key = s.pagetable.map pagetbl_s.key :=
      List.ext_getElem? (fun m => by rw [List.getElem?_map, List.getElem?_map]; exact keys m)
    have := congrArg List.length hmap
    rw [List.length_map, List.length_map] at this
    exact this
  · obtain ⟨i, v, t, -, -, -, -, f5, -⟩ := step_fault_exact hJ h hmiss he hm
    rw [f5, List.length_set, List.length_set]

/-- A sequence of calls, each at an address inside the backing store whose page
is inside the page table, returns from a well-formed state and ends in a
well-formed state. -/
theorem run_wellFormed {s : VM} (tr : List Access) (hwf : WellFormed s)
    (hin : ∀ a : Access, a ∈ tr →
      a.address < s.data.length ∧ a.address >>> s.offset < s.pagetable.length) :
    ∃ s1 : VM, run s tr = some s1 ∧ WellFormed s1 := by
  induction tr generalizing s with
  | nil => exact ⟨s, rfl, hwf⟩
  | cons a tr ih =>
    obtain ⟨hA, hP⟩ := hin a (List.mem_cons_self a tr)
    obtain ⟨s1, h1⟩ := step_total hwf hA hP
    obtain ⟨q1, -, -, -, -, -, -, q8⟩ := step_static h1
    have ql := step_pagetable_length hwf.noClash h1
    obtain ⟨s2, h2, hw2⟩ := ih (step_wellFormed hwf h1) (fun b hb => by
      rw [q8, q1, ql]
      exact hin b (List.mem_cons_of_mem a hb))
    exact ⟨s2, by rw [run_cons_some h1]; exact h2, hw2⟩

/-- For at most 999 frames, a page size up to `2 ^ 16` and a page table with at
least one entry per virtual page, well-formedness is an invariant: the fresh
engine is well-formed, and every sequence of calls at addresses inside the
backing store returns and ends in a well-formed state. -/
theorem wellFormed_invariant (sizeVM sizePM pageSize sizeTLB : Nat)
    (pageReplAlg tlbReplAlg : Int) (s0 : VM) (tr : List Access)
    (h : createVM sizeVM sizePM pageSize sizeTLB pageReplAlg tlbReplAlg = .ok s0)
    (hPM : sizePM ≤ 999) (hps : pageSize ≤ 65536) (hcov : sizeVM ≤ s0.pagetable.length)
    (hin : ∀ a : Access, a ∈ tr → a.address < s0.data.length) :
    WellFormed s0 ∧ ∃ s1 : VM, run s0 tr = some s1 ∧ WellFormed s1 := by
  obtain ⟨v1, -⟩ := createVM_ok_valid _ _ _ _ _ _ s0 h
  have hwf : WellFormed s0 :=
    createVM_wellFormed _ _ _ _ _ _ s0 h hPM (le_trans v1 hcov)
  obtain ⟨o1, o2⟩ := createVM_offset_small _ _ _ _ _ _ s0 h hps
  have hs := createVM_ok_fields _ _ _ _ _ _ s0 h
  have hd : s0.data.length = sizeVM * pageSize % 2 ^ 32 := by
    rw [hs]
    simp only [List.length_replicate]
  refine ⟨hwf, run_wellFormed tr hwf (fun a ha => ⟨hin a ha, ?_⟩)⟩
  have hA := hin a ha
  rw [hd] at hA
  have hA2 : a.address < sizeVM * pageSize := lt_of_lt_of_le hA (Nat.mod_le _ _)
  rw [o2]
  exact lt_of_lt_of_le ((Nat.div_lt_iff_lt_mul (by rw [o1]; positivity)).mpr hA2) hcov
/-! ## The invariant and the page-offset width -/

theorem step_lookup_outside {s : VM} {a : Access} {t : tlbtbl_s}
    (hmiss : tlbSearch s.tlbtable (a.address >>> s.offset) s.sizeTLB_v 0 = some none)
    (ht : s.tlbtable[s.controltable.tlb]? = some t)
    (hnone : s.pagetable[a.address >>> s.offset]? = none) : step s a = none := by
  have htr : ∀ fault : VM → Nat → Nat → pagetbl_s → Option VM,
      translate fault s a.address = none := by
    intro fault
    unfold translate storeAt
    simp only [hmiss, ht, hnone]
  cases a with
  | read A =>
    have h1 := htr readFault
    simp only [Access.address] at h1
    simp only [step, readInt, h1, Option.none_bind, Option.map_none']
  | write A V =>
    have h1 := htr writeFault
    simp only [Access.address] at h1
    simp only [step, writeInt, h1, Option.none_bind]

/-- C20, evaluation at the failing input. The engine created by
`createVM(2, 2, 131072, 1, 0, 0)` has 2 frames, a page table of 131072 entries
for 2 virtual pages, and is well-formed. Its offset is 0, so for the address
131072, inside the backing store and in virtual page 1, the calls compute the
page number 131072: `readInt(131072)` and `writeInt(131072, 1)` miss the TLB and
read `pagetbl[131072]` outside the page table. -/
theorem large_page_lookup_outside_table :
    ∃ s0 : VM, createVM 2 2 131072 1 0 0 = .ok s0 ∧ s0.sizePM_v = 2 ∧
      s0.pagetable.length = 131072 ∧ WellFormed s0 ∧ 131072 < s0.data.length ∧
      131072 / 131072 = 1 ∧ 131072 >>> s0.offset = 131072 ∧
      s0.pagetable[131072 >>> s0.offset]? = none ∧
      step s0 (.read 131072) = none ∧ step s0 (.write 131072 1) = none := by
  obtain ⟨s0, h0⟩ : ∃ s0 : VM, createVM 2 2 131072 1 0 0 = .ok s0 := ⟨_, rfl⟩
  have hs := createVM_ok_fields _ _ _ _ _ _ s0 h0
  have hlen : s0.pagetable.length = 131072 := by
    rw [hs]
    simp only [List.length_map, List.length_range]
    norm_num
  have hd : s0.data.length = 262144 := by
    rw [hs]
    simp only [List.length_replicate]
    norm_num
  have ho : s0.offset = 0 := by
    rw [hs]
    rfl
  have hsh : 131072 >>> s0.offset = 131072 := by
    rw [ho]
    rfl
  have hnone : s0.pagetable[131072 >>> s0.offset]? = none := by
    rw [hsh]
    exact List.getElem?_eq_none (by rw [hlen])
  have hmiss : ∀ a : Access, a.address = 131072 →
      tlbSearch s0.tlbtable (a.address >>> s0.offset) s0.sizeTLB_v 0 = some none := by
    intro a ha
    rw [ha, hsh, hs]
    rfl
  have ht : s0.tlbtable[s0.controltable.tlb]? = some ⟨0, 0, 0⟩ := by
    rw [hs]
    rfl
  have hwf : WellFormed s0 :=
    createVM_wellFormed _ _ _ _ _ _ s0 h0 (by norm_num) (by rw [hlen]; norm_num)
  exact ⟨s0, h0, by rw [hs], hlen, hwf, by rw [hd]; norm_num, by norm_num, hsh, hnone,
    step_lookup_outside (hmiss (.read 131072) rfl) ht hnone,
    step_lookup_outside (hmiss (.write 131072 1) rfl) ht hnone⟩
/-! ## Page faults and the TLB -/

/-- C17, counterexample. On the engine of the configuration (4, 3, 4, 2,
round-robin, round-robin), after `readInt(8)`, `readInt(12)`, `readInt(4)` and
`readInt(0)` the page-table entry of page 1 is non-resident (the last call
evicted it) while TLB slot 0 still holds page 1. `readInt(4)`, on page 1, then
hits the TLB and leaves the page-fault counter unchanged. -/
theorem tlb_hit_on_evicted_page_counterexample :
    ∃ s0 s4 s5 : VM, createVM 4 3 4 2 0 0 = .ok s0 ∧
      run s0 [.read 8, .read 12, .read 4, .read 0] = some s4 ∧
      4 < s4.data.length ∧ 4 >>> s4.offset = 1 ∧ s4.resident (4 >>> s4.offset) = false ∧
      s4.tlbtable[0]? = some ⟨1, 1, 0⟩ ∧
      step s4 (.read 4) = some s5 ∧ s5.pgfault = s4.pgfault ∧
      ¬ (s5.pgfault = s4.pgfault + 1) :=
  ⟨_, _, _, rfl, rfl, by decide, rfl, rfl, rfl, rfl, rfl, by decide⟩

/-- C17, amended. A call that misses the TLB on a page whose page-table entry is
non-resident counts one page fault: from a well-formed state and for an address
inside the backing store it returns with the page-fault counter one higher, and
from any state, if it returns, the counter is one higher. A call whose page is
found in the TLB leaves the page-fault counter unchanged, whether or not the
page is resident. -/
theorem tlb_miss_on_non_resident_page_faults :
    (∀ (s : VM) (a : Access) (e : pagetbl_s), WellFormed s → a.address < s.data.length →
      tlbSearch s.tlbtable (a.address >>> s.offset) s.sizeTLB_v 0 = some none →
      s.pagetable[a.address >>> s.offset]? = some e → e.mod = false →
      ∃ s1 : VM, step s a = some s1 ∧ s1.pgfault = s.pgfault + 1) ∧
    (∀ (s s1 : VM) (a : Access) (e : pagetbl_s), step s a = some s1 →
      tlbSearch s.tlbtable (a.address >>> s.offset) s.sizeTLB_v 0 = some none →
      s.pagetable[a.address >>> s.offset]? = some e → e.mod = false →
      s1.pgfault = s.pgfault + 1) ∧
    (∀ (s s1 : VM) (a : Access) (i : Nat), step s a = some s1 →
      tlbSearch s.tlbtable (a.address >>> s.offset) s.sizeTLB_v 0 = some (some i) →
      s1.pgfault = s.pgfault) := by
  have miss : ∀ (s s1 : VM) (a : Access) (e : pagetbl_s), step s a = some s1 →
      tlbSearch s.tlbtable (a.address >>> s.offset) s.sizeTLB_v 0 = some none →
      s.pagetable[a.address >>> s.offset]? = some e → e.mod = false →
      s1.pgfault = s.pgfault + 1 := by
    intro s s1 a e h hmiss he hm
    rcases step_stats h with ⟨⟨i, hi⟩, -⟩ | ⟨-, e', he', ⟨hm', -⟩ | ⟨-, hpf, -⟩⟩
    · rw [hmiss] at hi
      cases hi
    · rw [he] at he'
      injection he' with he'
      subst he'
      rw [hm] at hm'
      cases hm'
    · exact hpf
  refine ⟨fun s a e hwf hA hmiss he hm => ?_, miss, fun s s1 a i h hit => ?_⟩
  · obtain ⟨s1, h1⟩ := step_total hwf hA (List.getElem?_eq_some.mp he).1
    exact ⟨s1, h1, miss s s1 a e h1 hmiss he hm⟩
  · rcases step_stats h with ⟨-, hs⟩ | ⟨hmiss, -⟩
    · simp only [VM.stats, Prod.mk.injEq] at hs
      exact hs.1
    · rw [hit] at hmiss
      cases hmiss

theorem tlb_miss_on_non_resident_page_faults_witness :
    ∃ s0 s4 s5 : VM, createVM 4 3 4 2 0 0 = .ok s0 ∧
      (∃ s1 : VM, step s0 (.read 12) = some s1 ∧ s1.pgfault = s0.pgfault + 1) ∧
      run s0 [.read 8, .read 12, .read 4, .read 0] = some s4 ∧
      step s4 (.read 4) = some s5 ∧ s5.pgfault = s4.pgfault := by
  obtain ⟨s0, h0⟩ : ∃ s0 : VM, createVM 4 3 4 2 0 0 = .ok s0 := ⟨_, rfl⟩
  have hs := createVM_ok_fields _ _ _ _ _ _ s0 h0
  have hwf : WellFormed s0 :=
    createVM_wellFormed _ _ _ _ _ _ s0 h0 (by decide) (by rw [hs]; decide)
  obtain ⟨s4, s5, h4, h5, hit⟩ : ∃ s4 s5 : VM,
      run s0 [.read 8, .read 12, .read 4, .read 0] = some s4 ∧ step s4 (.read 4) = some s5 ∧
      tlbSearch s4.tlbtable ((Access.read 4).address >>> s4.offset) s4.sizeTLB_v 0 =
        some (some 0) := by
    rw [hs]
    exact ⟨_, _, rfl, rfl, rfl⟩
  exact ⟨s0, s4, s5, h0,
    tlb_miss_on_non_resident_page_faults.1 s0 (.read 12) ⟨999, false, 0, false⟩ hwf
      (by rw [hs]; decide) (by rw [hs]; rfl) (by rw [hs]; rfl) rfl,
    h4, h5, tlb_miss_on_non_resident_page_faults.2.2 s4 s5 (.read 4) 0 h5 hit⟩
/-! ## The round-robin TLB pointer -/

theorem tlbSearch_miss (tlbtbl : List tlbtbl_s) (q k i : Nat) (hlen : i + k ≤ tlbtbl.length)
    (hq : ∀ (m : Nat) (e : tlbtbl_s), tlbtbl[m]? = some e → e.vaddr ≠ q) :
    tlbSearch tlbtbl q k i = some none := by
  induction k generalizing i with
  | zero => rfl
  | succ k ih =>
    obtain ⟨e, he⟩ : ∃ e : tlbtbl_s, tlbtbl[i]? = some e :=
      ⟨_, List.getElem?_eq_getElem (by omega)⟩
    simp only [tlbSearch, he]
    rw [if_neg (hq i e he)]
    exact ih (i + 1) (by omega)

theorem tlbSearch_miss_of_not_mem {tlbtbl : List tlbtbl_s} {q n : Nat}
    (hn : tlbtbl.length = n) (hq : q ∉ tlbtbl.map fun e => e.vaddr) :
    tlbSearch tlbtbl q n 0 = some none := by
  refine tlbSearch_miss tlbtbl q n 0 (by omega) (fun m e he hc => hq ?_)
  rw [List.mem_map]
  exact ⟨e, List.getElem?_mem he, hc⟩

theorem run_cons_inv {s s1 : VM} {a : Access} {tr : List Access}
    (h : run s (a :: tr) = some s1) : ∃ s2 : VM, step s a = some s2 ∧ run s2 tr = some s1 := by
  rw [run] at h
  cases hs : step s a with
  | none => rw [hs] at h; cases h
  | some s2 =>
    rw [hs, Option.some_bind] at h
    exact ⟨s2, rfl, h⟩

/-- Under the round-robin TLB policy, a call made when its page is in no TLB
slot counts a TLB miss, overwrites the slot at the victim pointer and advances
the pointer cyclically. -/
theorem step_miss_rr {s s1 : VM} {a : Access} (h0 : s.tlbReplAlg_v = 0)
    (hp : s.controltable.tlb < s.sizeTLB_v)
    (hmiss : tlbSearch s.tlbtable (a.address >>> s.offset) s.sizeTLB_v 0 = some none)
    (h : step s a = some s1) :
    s1.tlbmiss = s.tlbmiss + 1 ∧
      (∃ (t : tlbtbl_s) (f : Nat), s.tlbtable[s.controltable.tlb]? = some t ∧
        s1.tlbtable = s.tlbtable.set s.controltable.tlb
          { vaddr := a.address >>> s.offset, paddr := f, tlbtimestamp := t.tlbtimestamp }) ∧
      s1.controltable.tlb = (s.controltable.tlb + 1) % s.sizeTLB_v := by
  have hm : s1.tlbmiss = s.tlbmiss + 1 := by
    rcases step_stats h with ⟨⟨i, hi⟩, -⟩ | ⟨-, e, -, ⟨-, hs⟩ | ⟨-, -, hs, -⟩⟩
    · rw [hmiss] at hi
      cases hi
    · simp only [VM.stats, Prod.mk.injEq] at hs
      exact hs.2.1
    · exact hs
  rcases step_tlb_rr h0 hp h with ⟨c, -⟩ | ⟨-, ⟨t, ht, f, e⟩, c⟩
  · omega
  · exact ⟨hm, ⟨t, f, ht, e⟩, c⟩

/-- Under the round-robin TLB policy, a call whose page is found in a TLB slot
leaves the TLB-miss counter, the TLB and its victim pointer unchanged. -/
theorem step_hit_rr {s s1 : VM} {a : Access} {i : Nat} (h0 : s.tlbReplAlg_v = 0)
    (hit : tlbSearch s.tlbtable (a.address >>> s.offset) s.sizeTLB_v 0 = some (some i))
    (h : step s a = some s1) :
    s1.tlbmiss = s.tlbmiss ∧ s1.tlbtable = s.tlbtable ∧
      s1.controltable.tlb = s.controltable.tlb := by
  obtain ⟨s2, h1, h2, -⟩ := step_some h
  have e1 : s1.tlbtable = s2.tlbtable := by rw [h2]
  have e2 : s1.controltable = s2.controltable := by rw [h2]
  have e3 : s1.tlbmiss = s2.tlbmiss := by rw [h2]
  rw [translate_hit_eq hit] at h1
  have hs := (tlbHit_static h1).2.1
  simp only [VM.stats, Prod.mk.injEq] at hs
  rcases tlbHit_tlb h1 with ⟨-, a1, a2, -⟩ | ⟨hc, -⟩
  · exact ⟨by rw [e3, hs.2.1], by rw [e1, a1], by rw [e2, a2]⟩
  · exact absurd h0 hc

theorem set_append_length {α : Type} (l1 l2 : List α) (x y : α) :
    (l1 ++ y :: l2).set l1.length x = l1 ++ x :: l2 := by
  induction l1 with
  | nil => rfl
  | cons a l ih => simp only [List.cons_append, List.length_cons, List.set_cons_succ, ih]

/-- First touches under the round-robin TLB policy, from a state whose TLB holds
the pages `done` in its first slots and the seeded pages in the others, with
the victim pointer after `done`: every call misses, and the calls fill the
following slots in order. -/
theorem run_first_touches (N o : Nat) (tr : List Access) :
    ∀ (s s1 : VM) (done : List Nat), s.tlbReplAlg_v = 0 → s.sizeTLB_v = N → s.offset = o →
      done.length + tr.length ≤ N →
      s.tlbtable.map (fun e => e.vaddr) = done ++ List.range' done.length (N - done.length) →
      s.controltable.tlb = done.length % N →
      (done ++ tr.map fun a => a.address >>> o).Nodup →
      (∀ (k j : Nat) (a : Access), tr[k]? = some a → done.length + k ≤ j → j < N →
        a.address >>> o ≠ j) →
      run s tr = some s1 →
      s1.tlbtable.map (fun e => e.vaddr) =
        (done ++ tr.map fun a => a.address >>> o) ++
          List.range' (done.length + tr.length) (N - (done.length + tr.length)) ∧
      s1.controltable.tlb = (done.length + tr.length) % N ∧
      s1.tlbmiss = s.tlbmiss + tr.length ∧
      s1.tlbReplAlg_v = 0 ∧ s1.sizeTLB_v = N ∧ s1.offset = o := by
  induction tr with
  | nil =>
    intro s s1 done h0 hN ho hle hmap hptr hnd hseed hrun
    simp only [run, Option.some.injEq] at hrun
    subst hrun
    simp [hmap, hptr, h0, hN, ho]
  | cons a tr ih =>
    intro s s1 done h0 hN ho hle hmap hptr hnd hseed hrun
    obtain ⟨s2, hstep, hrun2⟩ := run_cons_inv hrun
    simp only [List.length_cons] at hle
    have hk : done.length < N := by omega
    have hptr' : s.controltable.tlb = done.length := by rw [hptr, Nat.mod_eq_of_lt hk]
    have hlenT : s.tlbtable.length = N := by
      have := congrArg List.length hmap
      simp only [List.length_map, List.length_append, List.length_range'] at this
      omega
    simp only [List.map_cons] at hnd
    have hq1 : a.address >>> o ∉ done := fun hc =>
      (List.nodup_append.mp hnd).2.2 hc (List.mem_cons_self _ _)
    have hq2 : a.address >>> o ∉ List.range' done.length (N - done.length) := by
      intro hc
      rw [List.mem_range'_1] at hc
      exact hseed 0 (a.address >>> o) a (by simp) (by omega) (by omega) rfl
    have hmiss : tlbSearch s.tlbtable (a.address >>> s.offset) s.sizeTLB_v 0 = some none := by
      rw [ho, hN]
      refine tlbSearch_miss_of_not_mem hlenT ?_
      rw [hmap, List.mem_append]
      exact fun hc => hc.elim hq1 hq2
    obtain ⟨m1, ⟨t, f, ht, e⟩, c⟩ := step_miss_rr h0 (by rw [hptr', hN]; exact hk) hmiss hstep
    obtain ⟨q1, -, q3, -, q5, -⟩ := step_static hstep
    obtain ⟨d, hd⟩ : ∃ d : Nat, N - done.length = d + 1 := ⟨N - done.length - 1, by omega⟩
    have hd2 : N - (done.length + 1) = d := by omega
    have hmap2 : s2.tlbtable.map (fun e => e.vaddr) =
        (done ++ [a.address >>> o]) ++
          List.range' (done ++ [a.address >>> o]).length
            (N - (done ++ [a.address >>> o]).length) := by
      rw [e, List.map_set, hmap, hptr', ho, hd, List.range'_succ, set_append_length,
        List.length_append, List.length_singleton, hd2, List.append_assoc,
        List.singleton_append]
    have hnd2 : ((done ++ [a.address >>> o]) ++ tr.map fun b => b.address >>> o).Nodup := by
      rw [List.append_assoc, List.singleton_append]
      exact hnd
    have hl2 : (done ++ [a.address >>> o]).length = done.length + 1 := by
      rw [List.length_append, List.length_singleton]
    obtain ⟨r1, r2, r3, r4, r5, r6⟩ := ih s2 s1 (done ++ [a.address >>> o])
      (by rw [q5]; exact h0) (by rw [q3]; exact hN) (by rw [q1]; exact ho)
      (by rw [hl2]; omega) hmap2
      (by rw [c, hptr', hN, hl2]) hnd2
      (fun k j b hb hkj hj => hseed (k + 1) j b (by rw [List.getElem?_cons_succ]; exact hb)
        (by rw [hl2] at hkj; omega) hj)
      hrun2
    have e1 : done.length + 1 + tr.length = done.length + (tr.length + 1) := by omega
    refine ⟨?_, ?_, ?_, r4, r5, r6⟩
    · rw [r1, hl2, e1]
      simp only [List.append_assoc, List.singleton_append, List.map_cons, List.length_cons,
        List.cons_append, List.nil_append]
    · rw [r2, hl2, e1, List.length_cons]
    · rw [r3, m1, List.length_cons]
      push_cast
      ring

theorem run_append_inv {s s2 : VM} {tr : List Access} {a : Access}
    (h : run s (tr ++ [a]) = some s2) : ∃ s1 : VM, run s tr = some s1 ∧ step s1 a = some s2 := by
  induction tr generalizing s with
  | nil =>
    obtain ⟨s1, h1, h2⟩ := run_cons_inv (by simpa using h)
    simp only [run, Option.some.injEq] at h2
    subst h2
    exact ⟨s, rfl, h1⟩
  | cons b tr ih =>
    obtain ⟨s', h1, h2⟩ := run_cons_inv (by simpa using h)
    obtain ⟨s1, h3, h4⟩ := ih h2
    exact ⟨s1, by rw [run_cons_some h1]; exact h3, h4⟩

/-- C9. Under the round-robin TLB policy the TLB victim pointer is a cyclic
counter. (1) A call made when its page is in no TLB slot counts a TLB miss,
overwrites the slot at the current pointer value `p` with its page, leaves every
other slot unchanged, and leaves the pointer at `(p + 1) mod N`. (2) A call whose
page is in a TLB slot leaves the TLB-miss counter, the TLB and the pointer
unchanged. (3) From a well-formed state the calls return. (4) On a fresh engine
with TLB capacity `N`, after `N` calls that are first touches of pairwise
distinct pages not in the TLB, the TLB holds their pages in slots `0, ..., N-1`
in order, `N` misses are counted and the pointer is back at 0; one more first
touch overwrites exactly slot 0 and leaves the pointer at `1 mod N`. (5) These
calls return when there are at most 999 frames and the addresses and their pages
are inside the backing store and the page table. -/
theorem tlb_round_robin_cyclic :
    (∀ (s s1 : VM) (a : Access), s.tlbReplAlg_v = 0 → s.controltable.tlb < s.sizeTLB_v →
      tlbSearch s.tlbtable (a.address >>> s.offset) s.sizeTLB_v 0 = some none →
      step s a = some s1 →
      s1.tlbmiss = s.tlbmiss + 1 ∧
        (∃ (t : tlbtbl_s) (f : Nat), s.tlbtable[s.controltable.tlb]? = some t ∧
          s1.tlbtable = s.tlbtable.set s.controltable.tlb
            { vaddr := a.address >>> s.offset, paddr := f, tlbtimestamp := t.tlbtimestamp }) ∧
        s1.controltable.tlb = (s.controltable.tlb + 1) % s.sizeTLB_v) ∧
    (∀ (s s1 : VM) (a : Access) (i : Nat), s.tlbReplAlg_v = 0 →
      tlbSearch s.tlbtable (a.address >>> s.offset) s.sizeTLB_v 0 = some (some i) →
      step s a = some s1 →
      s1.tlbmiss = s.tlbmiss ∧ s1.tlbtable = s.tlbtable ∧
        s1.controltable.tlb = s.controltable.tlb) ∧
    (∀ (s : VM) (a : Access), WellFormed s → a.address < s.data.length →
      a.address >>> s.offset < s.pagetable.length → ∃ s1 : VM, step s a = some s1) ∧
    (∀ (sizeVM sizePM pageSize N : Nat) (pageReplAlg : Int) (s0 s1 s2 : VM)
      (tr : List Access) (a : Access),
      createVM sizeVM sizePM pageSize N pageReplAlg 0 = .ok s0 → tr.length = N →
      FirstTouches N s0.offset (tr ++ [a]) → run s0 tr = some s1 → step s1 a = some s2 →
      s1.tlbmiss = N ∧ s1.controltable.tlb = 0 ∧
        s1.tlbtable.map (fun e => e.vaddr) = tr.map (fun b => b.address >>> s0.offset) ∧
        s2.tlbmiss = N + 1 ∧
        (∃ (t : tlbtbl_s) (f : Nat), s1.tlbtable[0]? = some t ∧
          s2.tlbtable = s1.tlbtable.set 0
            { vaddr := a.address >>> s0.offset, paddr := f,
              tlbtimestamp := t.tlbtimestamp }) ∧
        s2.controltable.tlb = 1 % N) ∧
    (∀ (sizeVM sizePM pageSize N : Nat) (pageReplAlg : Int) (s0 : VM) (tr : List Access)
      (a : Access),
      createVM sizeVM sizePM pageSize N pageReplAlg 0 = .ok s0 → sizePM ≤ 999 →
      sizePM ≤ s0.pagetable.length →
      (∀ b : Access, b ∈ tr ++ [a] →
        b.address < s0.data.length ∧ b.address >>> s0.offset < s0.pagetable.length) →
      ∃ s1 s2 : VM, run s0 tr = some s1 ∧ step s1 a = some s2) := by
  refine ⟨fun s s1 a h0 hp hmiss h => step_miss_rr h0 hp hmiss h,
    fun s s1 a i h0 hit h => step_hit_rr h0 hit h,
    fun s a hwf hA hP => step_total hwf hA hP, ?_, ?_⟩
  · intro sizeVM sizePM pageSize N pageReplAlg s0 s1 s2 tr a hc hlen hft hrun hstep
    obtain ⟨-, -, -, vN, -⟩ := createVM_ok_valid _ _ _ _ _ _ s0 hc
    have hs := createVM_ok_fields _ _ _ _ _ _ s0 hc
    have h0 : s0.tlbReplAlg_v = 0 := by rw [hs]
    have hn : s0.sizeTLB_v = N := by rw [hs]
    have hp0 : s0.controltable.tlb = 0 := by rw [hs]
    have hm0 : s0.tlbmiss = 0 := by rw [hs]
    have hmap0 : s0.tlbtable.map (fun e => e.vaddr) = List.range' 0 N := by
      rw [hs]
      simp only [List.map_map, List.range_eq_range']
      exact List.map_id' _
    obtain ⟨hnd, hseed⟩ := hft
    rw [List.map_append, List.map_cons, List.map_nil] at hnd
    obtain ⟨nd1, -, nd3⟩ := List.nodup_append.mp hnd
    obtain ⟨r1, r2, r3, r4, r5, r6⟩ := run_first_touches N s0.offset tr s0 s1 [] h0 hn rfl
      (by rw [List.length_nil, hlen]; omega) (by simpa using hmap0)
      (by rw [hp0, List.length_nil, Nat.zero_mod]) (by simpa using nd1)
      (fun k j b hb hkj hj => hseed k j b
        (by
          have hk : k < tr.length := (List.getElem?_eq_some.mp hb).1
          rw [List.getElem?_append_left hk]
          exact hb)
        (by simpa using hkj) hj)
      hrun
    simp only [List.nil_append, List.length_nil, Nat.zero_add, hlen, Nat.sub_self,
      List.range'_zero, List.append_nil, Nat.mod_self] at r1 r2 r3
    have hq : a.address >>> s0.offset ∉ tr.map (fun b => b.address >>> s0.offset) :=
      fun hc => nd3 hc (List.mem_singleton_self _)
    have hlen1 : s1.tlbtable.length = N := by
      have := congrArg List.length r1
      simp only [List.length_map] at this
      rw [this, hlen]
    have hmiss : tlbSearch s1.tlbtable (a.address >>> s1.offset) s1.sizeTLB_v 0 = some none := by
      rw [r6, r5]
      exact tlbSearch_miss_of_not_mem hlen1 (by rw [r1]; exact hq)
    obtain ⟨m1, ⟨t, f, ht, e⟩, c⟩ := step_miss_rr r4 (by rw [r2, r5]; omega) hmiss hstep
    rw [r2] at ht e c
    rw [r6] at e
    rw [r5] at c
    refine ⟨by rw [r3, hm0]; simp, r2, r1, by rw [m1, r3, hm0]; simp, ⟨t, f, ht, e⟩, c⟩
  · intro sizeVM sizePM pageSize N pageReplAlg s0 tr a hc hPM hlen hin
    have hwf := createVM_wellFormed _ _ _ _ _ _ s0 hc hPM hlen
    obtain ⟨s2, h2, -⟩ := run_wellFormed (tr ++ [a]) hwf hin
    obtain ⟨s1, h1, h3⟩ := run_append_inv h2
    exact ⟨s1, s2, h1, h3⟩

/-- Instance of C9 on the fresh engine of the configuration (8, 2, 2, 2,
round-robin, round-robin), whose TLB is seeded with the pages 0 and 1: the calls
at the addresses 4 and 6 (pages 2 and 3) are two first touches; after them the
TLB holds the pages 2 and 3 and the pointer is 0; the first touch of page 4, at
address 8, overwrites slot 0. -/
theorem tlb_round_robin_cyclic_witness :
    ∃ s0 s1 s2 : VM, createVM 8 2 2 2 0 0 = .ok s0 ∧
      run s0 [.read 4, .write 6 1] = some s1 ∧ step s1 (.read 8) = some s2 ∧
      s2.tlbtable.map (fun e => e.vaddr) = [4, 3] ∧
      s1.tlbmiss = (2 : Nat) ∧ s1.controltable.tlb = 0 ∧
      s1.tlbtable.map (fun e => e.vaddr) =
        [Access.read 4, Access.write 6 1].map (fun b => b.address >>> s0.offset) ∧
      s2.tlbmiss = (2 : Nat) + 1 ∧
      (∃ (t : tlbtbl_s) (f : Nat), s1.tlbtable[0]? = some t ∧
        s2.tlbtable = s1.tlbtable.set 0
          { vaddr := (Access.read 8).address >>> s0.offset, paddr := f,
            tlbtimestamp := t.tlbtimestamp }) ∧
      s2.controltable.tlb = 1 % 2 := by
  obtain ⟨s0, h0⟩ : ∃ s0 : VM, createVM 8 2 2 2 0 0 = .ok s0 := ⟨_, rfl⟩
  have hs := createVM_ok_fields _ _ _ _ _ _ s0 h0
  have ho : s0.offset = 1 := by
    rw [hs]
    rfl
  obtain ⟨s1, s2, h1, h2⟩ := tlb_round_robin_cyclic.2.2.2.2 8 2 2 2 0 s0
    [.read 4, .write 6 1] (.read 8) h0 (by decide) (by rw [hs]; decide)
    (by
      intro b hb
      simp only [List.cons_append, List.nil_append, List.mem_cons, List.mem_singleton,
        List.not_mem_nil, or_false] at hb
      rcases hb with rfl | rfl | rfl <;> (rw [hs]; decide))
  have hft : FirstTouches 2 s0.offset ([.read 4, .write 6 1] ++ [.read 8]) := by
    rw [ho]
    refine ⟨by decide, fun k j b hb hkj hj => ?_⟩
    rcases k with _ | _ | _ | k
    · obtain rfl : b = .read 4 := by simpa using hb.symm
      simp only [Access.address]
      omega
    · obtain rfl : b = .write 6 1 := by simpa using hb.symm
      simp only [Access.address]
      omega
    · obtain rfl : b = .read 8 := by simpa using hb.symm
      simp only [Access.address]
      omega
    · simp at hb
  have hv : s2.tlbtable.map (fun e => e.vaddr) = [4, 3] := by
    rw [hs] at h1
    cases h1
    cases h2
    rfl
  exact ⟨s0, s1, s2, h0, h1, h2, hv,
    tlb_round_robin_cyclic.2.2.2.1 8 2 2 2 0 s0 s1 s2 [.read 4, .write 6 1] (.read 8) h0 rfl
      hft h1 h2⟩
/-! ## The counters as 32-bit integers -/

theorem int32_of_range {x : Int} (h0 : -2147483648 ≤ x) (h1 : x ≤ 2147483647) :
    int32 x = x := by
  unfold int32
  rw [Int.emod_eq_of_lt (by omega) (by omega)]
  omega

/-- The stored value follows the compiled `++`. -/
theorem int32_succ (x : Int) : int32 (x + 1) = incInt32 (int32 x) := by
  unfold int32 incInt32
  split_ifs with h <;> omega

theorem twoPages_fresh : createVM 2 1 1 1 0 0 = .ok (twoPages false 0) := rfl

theorem twoPages_even (n : Int) :
    step (twoPages false n) (.read 1) = some (twoPages true (n + 1)) := rfl

theorem twoPages_odd (n : Int) :
    step (twoPages true n) (.read 0) = some (twoPages false (n + 1)) := rfl

theorem run_append_some {s s1 s2 : VM} {tr : List Access} {a : Access}
    (h1 : run s tr = some s1) (h2 : step s1 a = some s2) : run s (tr ++ [a]) = some s2 := by
  induction tr generalizing s with
  | nil =>
    simp only [run, Option.some.injEq] at h1
    subst h1
    rw [List.nil_append, run_cons_some h2, run]
  | cons b tr ih =>
    obtain ⟨s', h3, h4⟩ := run_cons_inv h1
    rw [List.cons_append, run_cons_some h3]
    exact ih h4

theorem alternatingReads_succ (n : Nat) :
    alternatingReads (n + 1) = alternatingReads n ++ [.read ((n + 1) % 2)] := by
  unfold alternatingReads
  rw [List.range_succ, List.map_append, List.map_cons, List.map_nil]

/-- The state after `n` alternating reads on the two-page engine: every call
is a TLB miss and a page fault, none a disk write. -/
theorem twoPages_run (n : Nat) :
    run (twoPages false 0) (alternatingReads n) = some (twoPages (n % 2 == 1) n) := by
  induction n with
  | zero => rfl
  | succ n ih =>
    rw [alternatingReads_succ]
    rcases Nat.mod_two_eq_zero_or_one n with h | h
    · have e1 : (n + 1) % 2 = 1 := by omega
      rw [h] at ih
      rw [e1]
      have h2 : step (twoPages false n) (.read 1) = some (twoPages true ((n + 1 : Nat) : Int)) := by
        rw [twoPages_even]
        push_cast
        rfl
      exact run_append_some ih h2
    · have e1 : (n + 1) % 2 = 0 := by omega
      rw [h] at ih
      rw [e1]
      have h2 : step (twoPages true n) (.read 0) = some (twoPages false ((n + 1 : Nat) : Int)) := by
        rw [twoPages_odd]
        push_cast
        rfl
      exact run_append_some ih h2

theorem run_tlbmiss_le {s s1 : VM} {tr : List Access} (h : run s tr = some s1) :
    s1.tlbmiss - s.tlbmiss ≤ tr.length := by
  induction tr generalizing s with
  | nil =>
    simp only [run, Option.some.injEq] at h
    subst h
    simp
  | cons a tr ih =>
    obtain ⟨s2, h1, h2⟩ := run_cons_inv h
    have := ih h2
    have := (step_counters h1).2.2.2
    rw [List.length_cons]
    push_cast
    omega

/-- C6, counterexample. The counters are 32-bit `int` fields. On the engine of
the configuration (2, 1, 1, 1, round-robin, round-robin), each of the
`2 ^ 31 - 1` calls `readInt(1)`, `readInt(0)`, ..., `readInt(1)` is a TLB miss
and a page fault: afterwards the page-fault and TLB-miss counters hold
2147483647. The next call, `readInt(0)`, increments both once more, and they
hold -2147483648: both counters have decreased over the call, and
`diskwrites ≤ pgfault` fails in the state reached. -/
theorem counters_wrap_counterexample :
    ∃ s0 s1 s2 : VM, createVM 2 1 1 1 0 0 = .ok s0 ∧
      run s0 (alternatingReads 2147483647) = some s1 ∧
      int32 s1.pgfault = 2147483647 ∧ int32 s1.tlbmiss = 2147483647 ∧
      int32 s1.diskwrites = 0 ∧
      step s1 (.read 0) = some s2 ∧
      int32 s2.pgfault = -2147483648 ∧ int32 s2.tlbmiss = -2147483648 ∧
      int32 s2.diskwrites = 0 ∧
      ¬ (0 ≤ int32 s2.pgfault - int32 s1.pgfault) ∧
      ¬ (int32 s1.tlbmiss ≤ int32 s2.tlbmiss) ∧
      ¬ (int32 s2.diskwrites ≤ int32 s2.pgfault) := by
  have hrun := twoPages_run 2147483647
  have hodd : ((2147483647 % 2 == 1) : Bool) = true := by decide
  rw [hodd] at hrun
  have hstep := twoPages_odd ((2147483647 : Nat) : Int)
  have v1 : int32 ((2147483647 : Nat) : Int) = 2147483647 := by
    unfold int32
    norm_num
  have v2 : int32 (((2147483647 : Nat) : Int) + 1) = -2147483648 := by
    unfold int32
    norm_num
  have v0 : int32 0 = 0 := by
    unfold int32
    norm_num
  have p1 : (twoPages true ((2147483647 : Nat) : Int)).pgfault = ((2147483647 : Nat) : Int) :=
    rfl
  have p2 : (twoPages false (((2147483647 : Nat) : Int) + 1)).pgfault =
      ((2147483647 : Nat) : Int) + 1 := rfl
  have t1 : (twoPages true ((2147483647 : Nat) : Int)).tlbmiss = ((2147483647 : Nat) : Int) :=
    rfl
  have t2 : (twoPages false (((2147483647 : Nat) : Int) + 1)).tlbmiss =
      ((2147483647 : Nat) : Int) + 1 := rfl
  have d1 : (twoPages true ((2147483647 : Nat) : Int)).diskwrites = 0 := rfl
  have d2 : (twoPages false (((2147483647 : Nat) : Int) + 1)).diskwrites = 0 := rfl
  refine ⟨_, _, _, twoPages_fresh, hrun, ?_, ?_, ?_, hstep, ?_, ?_, ?_, ?_, ?_, ?_⟩
  · rw [p1, v1]
  · rw [t1, v1]
  · rw [d1, v0]
  · rw [p2, v2]
  · rw [t2, v2]
  · rw [d2, v0]
  · rw [p1, p2, v1, v2]
    norm_num
  · rw [t1, t2, v1, v2]
    norm_num
  · rw [d2, p2, v0, v2]
    norm_num

/-- C6, amended. The statistics counters, as the 32-bit `int` fields hold them,
are monotone and nested while they stay below `INT_MAX = 2 ^ 31 - 1`. (1) From a
state whose three counters are in `[0, 2 ^ 31 - 1)`, the increments over a call
satisfy `0 ≤ Δdiskwrites ≤ Δpgfault ≤ Δtlbmiss ≤ 1`. (2) Over the first
`2 ^ 31 - 1` calls on a fresh engine no counter decreases, and every state
reached has `0 ≤ diskwrites ≤ pgfault ≤ tlbmiss`. -/
theorem counters_monotone_nested :
    (∀ (s s1 : VM) (a : Access), step s a = some s1 →
      0 ≤ s.diskwrites → s.diskwrites < 2147483647 →
      0 ≤ s.pgfault → s.pgfault < 2147483647 →
      0 ≤ s.tlbmiss → s.tlbmiss < 2147483647 →
      0 ≤ int32 s1.diskwrites - int32 s.diskwrites ∧
        int32 s1.diskwrites - int32 s.diskwrites ≤ int32 s1.pgfault - int32 s.pgfault ∧
        int32 s1.pgfault - int32 s.pgfault ≤ int32 s1.tlbmiss - int32 s.tlbmiss ∧
        int32 s1.tlbmiss - int32 s.tlbmiss ≤ 1) ∧
    (∀ (sizeVM sizePM pageSize sizeTLB : Nat) (pageReplAlg tlbReplAlg : Int) (s0 s1 s2 : VM)
      (tr1 tr2 : List Access),
      createVM sizeVM sizePM pageSize sizeTLB pageReplAlg tlbReplAlg = .ok s0 →
      run s0 tr1 = some s1 → run s1 tr2 = some s2 →
      tr1.length + tr2.length ≤ 2147483647 →
      int32 s1.diskwrites ≤ int32 s2.diskwrites ∧ int32 s1.pgfault ≤ int32 s2.pgfault ∧
        int32 s1.tlbmiss ≤ int32 s2.tlbmiss ∧
        0 ≤ int32 s2.diskwrites ∧ int32 s2.diskwrites ≤ int32 s2.pgfault ∧
        int32 s2.pgfault ≤ int32 s2.tlbmiss) := by
  constructor
  · intro s s1 a h d0 d1 p0 p1 t0 t1
    obtain ⟨c1, c2, c3, c4⟩ := step_counters h
    rw [int32_of_range (x := s.diskwrites) (by omega) (by omega),
      int32_of_range (x := s.pgfault) (by omega) (by omega),
      int32_of_range (x := s.tlbmiss) (by omega) (by omega),
      int32_of_range (x := s1.diskwrites) (by omega) (by omega),
      int32_of_range (x := s1.pgfault) (by omega) (by omega),
      int32_of_range (x := s1.tlbmiss) (by omega) (by omega)]
    exact ⟨c1, c2, c3, c4⟩
  · intro sizeVM sizePM pageSize sizeTLB pageReplAlg tlbReplAlg s0 s1 s2 tr1 tr2 hc h1 h2 hlen
    have hs := createVM_ok_fields _ _ _ _ _ _ s0 hc
    have z1 : s0.diskwrites = 0 := by rw [hs]
    have z2 : s0.pgfault = 0 := by rw [hs]
    have z3 : s0.tlbmiss = 0 := by rw [hs]
    obtain ⟨a1, a2, a3⟩ := run_counters h1
    obtain ⟨b1, b2, b3⟩ := run_counters h2
    have a4 := run_tlbmiss_le h1
    have b4 := run_tlbmiss_le h2
    have hl : ((tr1.length : Int)) + (tr2.length : Int) ≤ 2147483647 := by exact_mod_cast hlen
    rw [int32_of_range (x := s1.diskwrites) (by omega) (by omega),
      int32_of_range (x := s1.pgfault) (by omega) (by omega),
      int32_of_range (x := s1.tlbmiss) (by omega) (by omega),
      int32_of_range (x := s2.diskwrites) (by omega) (by omega),
      int32_of_range (x := s2.pgfault) (by omega) (by omega),
      int32_of_range (x := s2.tlbmiss) (by omega) (by omega)]
    omega

/-- Instance of C6 on the fresh engine of the configuration (4, 2, 2, 2,
round-robin, round-robin): over the write at address 4, a page fault, the three
counters go from 0 to 1; after three writes and two reads they hold 1 disk
write, 2 page faults and 2 TLB misses. -/
theorem counters_monotone_nested_witness :
    ∃ s0 s1 s2 s3 : VM, createVM 4 2 2 2 0 0 = .ok s0 ∧
      step s0 (.write 4 30) = some s3 ∧
      int32 s3.diskwrites - int32 s0.diskwrites = 1 ∧
      int32 s3.tlbmiss - int32 s0.tlbmiss ≤ 1 ∧
      run s0 [.write 0 10, .write 2 20, .write 4 30] = some s1 ∧
      run s1 [.read 0, .read 4] = some s2 ∧ s2.stats = (2, 2, 1) ∧
      int32 s1.pgfault ≤ int32 s2.pgfault ∧
      0 ≤ int32 s2.diskwrites ∧ int32 s2.diskwrites ≤ int32 s2.pgfault ∧
      int32 s2.pgfault ≤ int32 s2.tlbmiss := by
  obtain ⟨s0, h0⟩ : ∃ s0 : VM, createVM 4 2 2 2 0 0 = .ok s0 := ⟨_, rfl⟩
  have hs := createVM_ok_fields _ _ _ _ _ _ s0 h0
  obtain ⟨s1, s2, s3, h1, h2, h3, h4, h5⟩ : ∃ s1 s2 s3 : VM,
      run s0 [.write 0 10, .write 2 20, .write 4 30] = some s1 ∧
      run s1 [.read 0, .read 4] = some s2 ∧ s2.stats = (2, 2, 1) ∧
      step s0 (.write 4 30) = some s3 ∧
      int32 s3.diskwrites - int32 s0.diskwrites = 1 := by
    rw [hs]
    exact ⟨_, _, _, rfl, rfl, rfl, rfl, by decide⟩
  have w1 := counters_monotone_nested.1 s0 s3 (.write 4 30) h4
    (le_of_eq (by rw [hs])) (by rw [hs]; decide) (le_of_eq (by rw [hs])) (by rw [hs]; decide)
    (le_of_eq (by rw [hs])) (by rw [hs]; decide)
  have w2 := counters_monotone_nested.2 4 2 2 2 0 0 s0 s1 s2 _ _ h0 h1 h2 (by decide)
  exact ⟨s0, s1, s2, s3, h0, h4, h5, w1.2.2.2, h1, h2, h3, w2.2.1, w2.2.2.2.1, w2.2.2.2.2.1,
    w2.2.2.2.2.2⟩

end SimVM
